import Mathlib

/-!
# Code-path analysis: control-flow graph construction

A verification development for the code-path-analysis component of the
repository: the engine that walks a syntax tree in document order and builds
one control-flow graph ("Path") per function and per program, made of
"Segments" carrying reachable and unreachable edge sets, while emitting
lifecycle events (path start and end, segment start and end, unreachable
segment start and end, loop-connect) to subscribers.

The implementation of this component is not part of the source tree here
(only its test suite is), so the definitions below are modelled from the
specification document: the data model of §3 (segments with "prevSegments"
and "nextSegments" holding reachable edges only, the "all" variants holding
every edge, a "reachable" flag; paths with initial, final, returned and
thrown segments), the fork, join, loop and unreachable-code rules of §4, the
event ordering of §5 and §6, and the arena design note of §9 (segments live
in an arena indexed by integer id, edges are stored as index lists).
-/

namespace CodePathAnalysis

/-- Modelled from the spec: the closed set of syntactic node kinds consumed
from the parser (§6) that the claims exercise.  A statement is either empty,
a sequence, a plain expression statement, a function declaration carrying a
nested body (which gets its own Path), a two-way conditional (a missing
"else" is the implicit empty branch of §4.2), "return", "throw", a "while"
loop, a counting "for" loop whose test and update clauses may each be absent,
a "for-in" loop, a "for-of" loop, "break" or "continue". -/
inductive Stmt where
  | skip : Stmt
  | seq (s1 s2 : Stmt) : Stmt
  | expr : Stmt
  | funcDecl (body : Stmt) : Stmt
  | ifS (thenS elseS : Stmt) : Stmt
  | ret : Stmt
  | thrw : Stmt
  | whileS (body : Stmt) : Stmt
  | forS (hasTest hasUpdate : Bool) (body : Stmt) : Stmt
  | forIn (body : Stmt) : Stmt
  | forOf (body : Stmt) : Stmt
  | brk : Stmt
  | cont : Stmt
deriving DecidableEq, Repr

/-- Modelled from the spec: a reference to a node of the syntax tree, used as
the originating node of an emitted event (§6).  A statement is addressed by
its path of child indexes from the program root; "childN a" stands for a
clause child of the statement at address "a" (a loop body block, the update
clause of a "for", the left or right clause of a "for-in"/"for-of"). -/
inductive NodeRef where
  | program : NodeRef
  | stmtN (a : List Nat) : NodeRef
  | childN (a : List Nat) : NodeRef
deriving DecidableEq, Repr

/-- The parent of a clause-child node is the statement that owns it. -/
def parentN : NodeRef → Option NodeRef
  | .childN a => some (.stmtN a)
  | _ => none

/-- Modelled from the spec: the lifecycle events surfaced to subscribers
(§6): path start and end, segment start and end for reachable segments, the
distinct unreachable-segment start and end events of §4.5, and the
loop-connect event of §4.4 fired when a back edge closes a loop cycle. -/
inductive Event where
  | pathStart (pid : Nat) (node : NodeRef) : Event
  | pathEnd (pid : Nat) (node : NodeRef) : Event
  | segStart (s : Nat) (node : NodeRef) : Event
  | segEnd (s : Nat) (node : NodeRef) : Event
  | unreachableSegStart (s : Nat) (node : NodeRef) : Event
  | unreachableSegEnd (s : Nat) (node : NodeRef) : Event
  | loopConnect (f t : Nat) (node : NodeRef) : Event
deriving DecidableEq, Repr

/-- The segment ids mentioned by an event. -/
def refs : Event → List Nat
  | .pathStart _ _ => []
  | .pathEnd _ _ => []
  | .segStart s _ => [s]
  | .segEnd s _ => [s]
  | .unreachableSegStart s _ => [s]
  | .unreachableSegEnd s _ => [s]
  | .loopConnect f t _ => [f, t]

/-- Modelled from the spec: a Segment (§3).  "prevSegments" and
"nextSegments" hold reachable edges only: an edge appears there exactly when
both of its endpoints are reachable; "allPrevSegments" and "allNextSegments"
additionally record edges to or from segments that are themselves
unreachable.  Edges are stored as arena indexes (§9). -/
structure SegData where
  reachable : Bool
  prevSegments : List Nat
  nextSegments : List Nat
  allPrevSegments : List Nat
  allNextSegments : List Nat
deriving DecidableEq, Repr

/-- The segment stored at index "i" of the arena (a dummy unreachable
segment with no edges when the index is out of range). -/
def getSeg (A : List SegData) (i : Nat) : SegData :=
  A.getD i ⟨false, [], [], [], []⟩

/-- The reachability flag of the segment at index "i". -/
def reachOf (A : List SegData) (i : Nat) : Bool :=
  (getSeg A i).reachable

/-- Whether some segment of the list is reachable. -/
def anyReach (A : List SegData) (l : List Nat) : Bool :=
  l.any fun s => reachOf A s

/-- Record, in predecessor "p", a forward edge to child "c": always into
"allNextSegments", and into "nextSegments" only when the edge is a reachable
edge ("plain" is true). -/
def addFwdEdge (A : List SegData) (p c : Nat) (plain : Bool) : List SegData :=
  let sd := getSeg A p
  A.set p { sd with
    allNextSegments := sd.allNextSegments ++ [c],
    nextSegments := if plain then sd.nextSegments ++ [c] else sd.nextSegments }

/-- Record the forward edges from every predecessor in "ps" to the new child
"c"; an edge is a reachable edge when the child is reachable and the
predecessor (looked up in the original arena "A0", whose flags never change)
is reachable. -/
def addFwdEdges (A0 : List SegData) (c : Nat) (reach : Bool) :
    List SegData → List Nat → List SegData
  | A, [] => A
  | A, p :: ps => addFwdEdges A0 c reach (addFwdEdge A p c (reach && reachOf A0 p)) ps

/-- Modelled from the spec: create a new segment at the end of the arena,
with the given reachability flag and predecessor list.  Its
"allPrevSegments" are all the predecessors; its "prevSegments" keep only the
reachable ones (and only when the new segment is itself reachable), per the
§3 rule that the plain edge lists hold reachable edges only.  The
predecessors receive the matching forward edges. -/
def pushSeg (A : List SegData) (reach : Bool) (preds : List Nat) : List SegData :=
  addFwdEdges A A.length reach A preds ++
    [{ reachable := reach,
       prevSegments := if reach then preds.filter (fun p => reachOf A p) else [],
       nextSegments := [],
       allPrevSegments := preds,
       allNextSegments := [] }]

/-- Modelled from the spec: close a loop cycle (§4.4) with a back edge from
segment "f" to segment "t": recorded in the "all" edge lists always, and in
the plain lists only when both endpoints are reachable. -/
def addLoopArena (A : List SegData) (f t : Nat) : List SegData :=
  let plain := reachOf A f && reachOf A t
  let A1 := addFwdEdge A f t plain
  let sd := getSeg A1 t
  A1.set t { sd with
    allPrevSegments := sd.allPrevSegments ++ [f],
    prevSegments := if plain then sd.prevSegments ++ [f] else sd.prevSegments }

/-- Modelled from the spec: a finalized Path (§3): its process-unique id, the
enclosing path, its child paths in document order, the single entry segment,
and the final, returned and thrown segment lists fixed at finalization
(§4.6).  "ownedSegments" lists every segment created for this path, in
creation order. -/
structure PathRec where
  id : Nat
  upperId : Option Nat
  node : NodeRef
  childIds : List Nat
  initialSegment : Nat
  finalSegments : List Nat
  returnedSegments : List Nat
  thrownSegments : List Nat
  ownedSegments : List Nat
deriving DecidableEq, Repr

/-- Modelled from the spec: the whole analysis state: the segment arena (§9),
the event trace emitted so far (§5 ordering), the finalized paths, the
counter of started paths, and the Path-Builder State of the path currently
in progress (§3): its id, parent, originating node, initial segment, the
current frontier segment, whether the frontier is an unreachable segment
whose start event is still pending (§4.5 fires it at the next visited
statement), the returned and thrown segment lists, the segments owned so
far, the child paths, and the frontier segments recorded by "break"
statements targeting the innermost enclosing loop.  The contextStack of §3
is carried by the traversal's recursion: each loop construct passes its
continue destination down to its body and saves and restores the enclosing
loop's broken list around it. -/
structure Build where
  arena : List SegData
  trace : List Event
  done : List PathRec
  pathCount : Nat
  pid : Nat
  upperId : Option Nat
  pnode : NodeRef
  initialSeg : Nat
  cur : Nat
  pending : Bool
  returned : List Nat
  thrown : List Nat
  owned : List Nat
  children : List Nat
  broken : List Nat
deriving DecidableEq, Repr

/-- Append one event to the trace. -/
def emit (e : Event) (b : Build) : Build :=
  { b with trace := b.trace ++ [e] }

/-- Modelled from the spec (§4.5): if the current frontier is an unreachable
segment whose start event has not fired yet, fire it now with the given
originating node.  Called on entry to every visited statement, so the event
carries the statement following the control transfer. -/
def flushP (node : NodeRef) (b : Build) : Build :=
  if b.pending then
    { b with trace := b.trace ++ [Event.unreachableSegStart b.cur node],
             pending := false }
  else b

/-- The end-of-segment event for segment "s": the ordinary one when it is
reachable, the distinct unreachable one otherwise (§6). -/
def endEv (A : List SegData) (s : Nat) (node : NodeRef) : Event :=
  if reachOf A s then Event.segEnd s node else Event.unreachableSegEnd s node

/-- Modelled from the spec: move the frontier to a freshly created segment
with the given reachability and predecessors.  The pending unreachable start
is flushed, the old frontier segment receives its end event, and the new
segment receives its start event at once when reachable, or becomes pending
when unreachable (§4.5, §6). -/
def newCur (reach : Bool) (preds : List Nat) (node : NodeRef) (b : Build) : Build :=
  let b1 := flushP node b
  let b2 := emit (endEv b1.arena b1.cur node) b1
  let i := b2.arena.length
  if reach then
    { b2 with arena := pushSeg b2.arena reach preds,
              trace := b2.trace ++ [Event.segStart i node],
              cur := i, pending := false, owned := b2.owned ++ [i] }
  else
    { b2 with arena := pushSeg b2.arena reach preds,
              cur := i, pending := true, owned := b2.owned ++ [i] }

/-- Close a loop back edge in the arena and fire the loop-connect event
(§4.4, §6). -/
def connectLoop (f t : Nat) (node : NodeRef) (b : Build) : Build :=
  { b with arena := addLoopArena b.arena f t,
           trace := b.trace ++ [Event.loopConnect f t node] }

/-- Modelled from the spec: leave a loop construct (§4.4): move the frontier
to the after-loop segment, whose predecessors are the loop's normal-exit
segments ("headPreds", reachable per "headReach") together with the frontier
segments recorded by "break" statements targeting this loop, and restore the
enclosing loop's broken list ("saved"). -/
def afterLoop (headReach : Bool) (headPreds : List Nat) (node : NodeRef)
    (saved : List Nat) (b : Build) : Build :=
  newCur (headReach || anyReach b.arena b.broken) (headPreds ++ b.broken) node
    { b with broken := saved }

/-- Modelled from the spec: the finished Path record written at finalization
(§4.6): a reachable frontier falls off the end and joins the returned
segments, and the final segments are the returned segments followed by the
thrown segments not already among them (so "finalSegments" is a superset of
the union of both). -/
def finishRec (b : Build) : PathRec :=
  let b1 := flushP b.pnode b
  let retd := if reachOf b1.arena b1.cur then b1.returned ++ [b1.cur] else b1.returned
  { id := b1.pid, upperId := b1.upperId, node := b1.pnode,
    childIds := b1.children, initialSegment := b1.initialSeg,
    finalSegments := retd ++ b1.thrown.filter (fun s => !(retd.contains s)),
    returnedSegments := retd,
    thrownSegments := b1.thrown, ownedSegments := b1.owned }

/-- Modelled from the spec: finalization of a Path (§4.6): flush any pending
unreachable start, fire the frontier's end event and the path-end event, and
append the finished Path record. -/
def finalizePath (b : Build) : Build :=
  let b1 := flushP b.pnode b
  let b2 := emit (Event.pathEnd b1.pid b1.pnode) (emit (endEv b1.arena b1.cur b1.pnode) b1)
  { b2 with done := b2.done ++ [finishRec b] }

/-- Modelled from the spec: the single forward pass of the Traversal Driver
(§2) over one statement, at tree address "a", transforming the builder
state.  The second argument is the continue destination of the innermost
enclosing loop of the current function, or none when there is no such loop
(the contextStack of §3 carried by the recursion).  Forks and joins follow
§4.2 and §4.3, loops follow §4.4 (with the §4.4 ordering of loop-connect
events for counting "for" loops and the right-to-left iteration edge of
"for-in"/"for-of"), unreachable code follows §4.5, a nested function
suspends the outer path and builds a fresh one with no enclosing loop (§5),
and a "break" or "continue" with no resolvable loop context falls back to
the function-exit (return) context and continues, per §7. -/
def processStmt : List Nat → Option Nat → Stmt → Build → Build
  | _, _, .skip, b => b
  | a, d, .seq s1 s2, b => processStmt (a ++ [1]) d s2 (processStmt (a ++ [0]) d s1 b)
  | a, _, .expr, b => flushP (.stmtN a) b
  | a, _, .ret, b =>
    let b1 := flushP (.stmtN a) b
    if reachOf b1.arena b1.cur then
      newCur false [b1.cur] (.stmtN a) { b1 with returned := b1.returned ++ [b1.cur] }
    else b1
  | a, _, .thrw, b =>
    let b1 := flushP (.stmtN a) b
    if reachOf b1.arena b1.cur then
      newCur false [b1.cur] (.stmtN a) { b1 with thrown := b1.thrown ++ [b1.cur] }
    else b1
  | a, d, .brk, b =>
    let b1 := flushP (.stmtN a) b
    if reachOf b1.arena b1.cur then
      match d with
      | some _ =>
        newCur false [b1.cur] (.stmtN a) { b1 with broken := b1.broken ++ [b1.cur] }
      | none =>
        newCur false [b1.cur] (.stmtN a) { b1 with returned := b1.returned ++ [b1.cur] }
    else b1
  | a, d, .cont, b =>
    let b1 := flushP (.stmtN a) b
    if reachOf b1.arena b1.cur then
      match d with
      | some dv =>
        newCur false [b1.cur] (.stmtN a) (connectLoop b1.cur dv (.stmtN a) b1)
      | none =>
        newCur false [b1.cur] (.stmtN a) { b1 with returned := b1.returned ++ [b1.cur] }
    else b1
  | a, d, .ifS thenS elseS, b =>
    let b1 := flushP (.stmtN a) b
    let c := b1.cur
    let cr := reachOf b1.arena c
    let b3 := processStmt (a ++ [0]) d thenS (newCur cr [c] (.stmtN a) b1)
    let tEnd := b3.cur
    let b5 := processStmt (a ++ [1]) d elseS (newCur cr [c] (.stmtN a) b3)
    let eEnd := b5.cur
    newCur (reachOf b5.arena tEnd || reachOf b5.arena eEnd) [tEnd, eEnd] (.stmtN a) b5
  | a, _, .funcDecl body, b =>
    let b1 := flushP (.stmtN a) b
    let b2 := emit (.pathStart b1.pathCount (.stmtN a)) b1
    let i := b2.arena.length
    let inner : Build :=
      { arena := pushSeg b2.arena true [],
        trace := b2.trace ++ [Event.segStart i (.stmtN a)],
        done := b2.done, pathCount := b2.pathCount + 1,
        pid := b2.pathCount, upperId := some b1.pid, pnode := .stmtN a,
        initialSeg := i, cur := i, pending := false,
        returned := [], thrown := [], owned := [i], children := [], broken := [] }
    let f := finalizePath (processStmt (a ++ [0]) none body inner)
    { arena := f.arena, trace := f.trace, done := f.done, pathCount := f.pathCount,
      pid := b1.pid, upperId := b1.upperId, pnode := b1.pnode,
      initialSeg := b1.initialSeg, cur := b1.cur, pending := b1.pending,
      returned := b1.returned, thrown := b1.thrown, owned := b1.owned,
      children := b1.children ++ [b1.pathCount], broken := b1.broken }
  | a, _, .whileS body, b =>
    let b1 := flushP (.stmtN a) b
    let cr := reachOf b1.arena b1.cur
    let b2 := newCur cr [b1.cur] (.stmtN a) b1
    let t := b2.cur
    let b3 := newCur cr [t] (.childN a) b2
    let b5 := processStmt (a ++ [0]) (some t) body { b3 with broken := [] }
    let b6 := connectLoop b5.cur t (.stmtN a) (flushP (.stmtN a) b5)
    afterLoop (reachOf b6.arena t) [t] (.stmtN a) b1.broken b6
  | a, _, .forS hTest hUpd body, b =>
    let b1 := flushP (.stmtN a) b
    let c0 := b1.cur
    let cr := reachOf b1.arena c0
    let b2 := if hTest then newCur cr [c0] (.childN a) b1 else b1
    let t := b2.cur
    let b3 := if hUpd then newCur cr [] (.childN a) b2 else b2
    let u := b3.cur
    let b4 := newCur cr [t] (.childN a) b3
    let bodySeg := b4.cur
    let b4c := if hUpd then connectLoop u (if hTest then t else bodySeg) (.childN a) b4
               else b4
    let dest := if hUpd then u else if hTest then t else bodySeg
    let b5 := processStmt (a ++ [0]) (some dest) body { b4c with broken := [] }
    let b6 := connectLoop b5.cur dest (.stmtN a) (flushP (.stmtN a) b5)
    afterLoop (hTest && reachOf b6.arena t) (if hTest then [t] else []) (.stmtN a)
      b1.broken b6
  | a, _, .forIn body, b =>
    let b1 := flushP (.stmtN a) b
    let c0 := b1.cur
    let cr := reachOf b1.arena c0
    let bL := newCur cr [] (.childN a) b1
    let l := bL.cur
    let bR := newCur cr [c0] (.childN a) bL
    let r := bR.cur
    let bB := newCur cr [l] (.childN a) (connectLoop r l (.childN a) bR)
    let b5 := processStmt (a ++ [0]) (some l) body { bB with broken := [] }
    let b6 := connectLoop b5.cur l (.stmtN a) (flushP (.stmtN a) b5)
    afterLoop (reachOf b6.arena r) [r] (.stmtN a) b1.broken b6
  | a, _, .forOf body, b =>
    let b1 := flushP (.stmtN a) b
    let c0 := b1.cur
    let cr := reachOf b1.arena c0
    let bL := newCur cr [] (.childN a) b1
    let l := bL.cur
    let bR := newCur cr [c0] (.childN a) bL
    let r := bR.cur
    let bB := newCur cr [l] (.childN a) (connectLoop r l (.childN a) bR)
    let b5 := processStmt (a ++ [0]) (some l) body { bB with broken := [] }
    let b6 := connectLoop b5.cur l (.stmtN a) (flushP (.stmtN a) b5)
    afterLoop (reachOf b6.arena r) [r] (.stmtN a) b1.broken b6

/-- Modelled from the spec: the builder state at the very start of a run:
the program path (id 0) has been created with its initial segment 0 and the
path-start and segment-start events have fired (§5, §6). -/
def startBuild : Build :=
  { arena := pushSeg [] true [],
    trace := [Event.pathStart 0 .program, Event.segStart 0 .program],
    done := [], pathCount := 1, pid := 0, upperId := none, pnode := .program,
    initialSeg := 0, cur := 0, pending := false,
    returned := [], thrown := [], owned := [0], children := [], broken := [] }

/-- Modelled from the spec: one complete analysis run over a program (§2):
start the program path with its initial segment and the path-start and
segment-start events, process every statement in document order with no
enclosing loop, and finalize the program path. -/
def analyze (t : Stmt) : Build :=
  finalizePath (processStmt [] none t startBuild)

/-- The loop-connect events of a run, in emission order. -/
def loopEventsOf (b : Build) : List Event :=
  b.trace.filter fun e => match e with
    | .loopConnect _ _ _ => true
    | _ => false

/-- The unreachable-segment-start events of a run, in emission order. -/
def unreachStartsOf (b : Build) : List Event :=
  b.trace.filter fun e => match e with
    | .unreachableSegStart _ _ => true
    | _ => false

/-- The unreachable-segment-end events of a run, in emission order. -/
def unreachEndsOf (b : Build) : List Event :=
  b.trace.filter fun e => match e with
    | .unreachableSegEnd _ _ => true
    | _ => false

/-- The path-start events of a run, in emission order. -/
def pathStartsOf (b : Build) : List Event :=
  b.trace.filter fun e => match e with
    | .pathStart _ _ => true
    | _ => false

/-- The finalized path of a run with the given id. -/
def findPath (b : Build) (i : Nat) : Option PathRec :=
  b.done.find? fun r => r.id = i

/-- The out-of-range segment value: unreachable, no edges. -/
def defaultSeg : SegData := ⟨false, [], [], [], []⟩

/-- Every edge recorded in the plain "prevSegments"/"nextSegments" lists has
both endpoints reachable (§3): segments whose reachable flag is false take
part only in the "allPrevSegments"/"allNextSegments" variants. -/
def EdgeReach (A : List SegData) : Prop :=
  ∀ i j : Nat,
    (j ∈ (getSeg A i).prevSegments → reachOf A j = true ∧ reachOf A i = true) ∧
    (j ∈ (getSeg A i).nextSegments → reachOf A j = true ∧ reachOf A i = true)

/-! ## Concrete input programs named by the claims -/

/-- The tree of "function foo(a) \x7b if (a) return 0; else throw new Error(); \x7d":
a function declaration whose body is an if/else with a "return" branch and a
"throw" branch. -/
def progIfRetThrow : Stmt := .funcDecl (.ifS .ret .thrw)

/-- The tree of the top-level input "throw 'boom'; foo();". -/
def progThrowThenCall : Stmt := .seq .thrw .expr

/-- The tree of "function foo() \x7b return; foo(); \x7d". -/
def progFuncRetThenCall : Stmt := .funcDecl (.seq .ret .expr)

/-- The tree of "for (var i = 0; i < 10; ++i) \x7b foo(); \x7d": a counting
"for" loop with a test clause and an update clause. -/
def progForLoop : Stmt := .forS true true .expr

/-- The tree of "for (var k in obj) \x7b foo(); \x7d". -/
def progForInLoop : Stmt := .forIn .expr

/-- The tree of "for (var x of xs) \x7b foo(); \x7d". -/
def progForOfLoop : Stmt := .forOf .expr
/-! ## Re-running the analysis: id bases and graph isomorphism

Ids are process-unique and monotonically assigned (§3), and §9 fixes the
arena design: segments are stored in an arena indexed by integer id and
edges are stored as index lists.  A run that starts later in the process
therefore hands out the same graph with every segment id offset by the
value of the process-wide segment counter at its start, and every path id
offset by the path counter.  "analyzeFrom" exposes a run at given counter
bases. -/

/-- Offset every segment id stored in a segment record. -/
def shiftSeg (o : Nat) (sd : SegData) : SegData :=
  { reachable := sd.reachable,
    prevSegments := sd.prevSegments.map (· + o),
    nextSegments := sd.nextSegments.map (· + o),
    allPrevSegments := sd.allPrevSegments.map (· + o),
    allNextSegments := sd.allNextSegments.map (· + o) }

/-- Offset the segment and path ids mentioned by an event. -/
def shiftEvent (so po : Nat) : Event → Event
  | .pathStart p n => .pathStart (p + po) n
  | .pathEnd p n => .pathEnd (p + po) n
  | .segStart s n => .segStart (s + so) n
  | .segEnd s n => .segEnd (s + so) n
  | .unreachableSegStart s n => .unreachableSegStart (s + so) n
  | .unreachableSegEnd s n => .unreachableSegEnd (s + so) n
  | .loopConnect f t n => .loopConnect (f + so) (t + so) n

/-- Offset every id stored in a finished path record. -/
def shiftRec (so po : Nat) (r : PathRec) : PathRec :=
  { id := r.id + po,
    upperId := r.upperId.map (· + po),
    node := r.node,
    childIds := r.childIds.map (· + po),
    initialSegment := r.initialSegment + so,
    finalSegments := r.finalSegments.map (· + so),
    returnedSegments := r.returnedSegments.map (· + so),
    thrownSegments := r.thrownSegments.map (· + so),
    ownedSegments := r.ownedSegments.map (· + so) }

/-- Modelled from the spec: an analysis run beginning when the process-wide
id counters stand at "segBase" and "pathBase" (§3: ids are process-unique
and monotonically assigned, so a re-run on the same tree starts at different
counter values); the produced graph is that of the tree with every id offset
by the base. -/
def analyzeFrom (segBase pathBase : Nat) (t : Stmt) : Build :=
  let b := analyze t
  { arena := b.arena.map (shiftSeg segBase),
    trace := b.trace.map (shiftEvent segBase pathBase),
    done := b.done.map (shiftRec segBase pathBase),
    pathCount := b.pathCount + pathBase,
    pid := b.pid + pathBase, upperId := b.upperId.map (· + pathBase),
    pnode := b.pnode,
    initialSeg := b.initialSeg + segBase, cur := b.cur + segBase,
    pending := b.pending,
    returned := b.returned.map (· + segBase),
    thrown := b.thrown.map (· + segBase),
    owned := b.owned.map (· + segBase),
    children := b.children.map (· + pathBase),
    broken := b.broken.map (· + segBase) }

/-- The id-free shape of a segment: its reachability flag and the sizes of
its four edge lists. -/
def segShape (sd : SegData) : Bool × Nat × Nat × Nat × Nat :=
  (sd.reachable, sd.prevSegments.length, sd.nextSegments.length,
   sd.allPrevSegments.length, sd.allNextSegments.length)

/-- The id-free shape of a finished path: its originating node and the sizes
of its child, final, returned, thrown and owned-segment lists. -/
def pathShape (r : PathRec) : NodeRef × Nat × Nat × Nat × Nat × Nat :=
  (r.node, r.childIds.length, r.finalSegments.length, r.returnedSegments.length,
   r.thrownSegments.length, r.ownedSegments.length)

/-! ## Malformed control transfers never abort the analysis -/

/-- The number of function-declaration nodes in a tree: each one gets its
own Path, in addition to the program's. -/
def numFuncs : Stmt → Nat
  | .skip => 0
  | .seq s1 s2 => numFuncs s1 + numFuncs s2
  | .expr => 0
  | .funcDecl body => numFuncs body + 1
  | .ifS thenS elseS => numFuncs thenS + numFuncs elseS
  | .ret => 0
  | .thrw => 0
  | .whileS body => numFuncs body
  | .forS _ _ body => numFuncs body
  | .forIn body => numFuncs body
  | .forOf body => numFuncs body
  | .brk => 0
  | .cont => 0

/-- Whether the tree contains a "break" or "continue" with no resolvable
target context: one that is not nested inside any loop of its own function
(the flag records whether a loop of the current function encloses the
statement; a nested function body resets it). -/
def hasUnresolvedJump : Stmt → Bool → Bool
  | .skip, _ => false
  | .seq s1 s2, l => hasUnresolvedJump s1 l || hasUnresolvedJump s2 l
  | .expr, _ => false
  | .funcDecl body, _ => hasUnresolvedJump body false
  | .ifS thenS elseS, l => hasUnresolvedJump thenS l || hasUnresolvedJump elseS l
  | .ret, _ => false
  | .thrw, _ => false
  | .whileS body, _ => hasUnresolvedJump body true
  | .forS _ _ body, _ => hasUnresolvedJump body true
  | .forIn body, _ => hasUnresolvedJump body true
  | .forOf body, _ => hasUnresolvedJump body true
  | .brk, l => !l
  | .cont, l => !l

def SamePath (b b' : Build) : Prop :=
  b'.pid = b.pid ∧ b'.pnode = b.pnode ∧ b'.upperId = b.upperId ∧
  b'.initialSeg = b.initialSeg

/-- Modelled from the spec (§3): the initial-segment invariant of the
builder: the initial segment of the path in progress and of every finalized
path lies inside the arena and has no recorded predecessors, neither in the
plain nor in the "all" edge list. -/
def InitPrevInv (b : Build) : Prop :=
  b.initialSeg < b.arena.length ∧
  (getSeg b.arena b.initialSeg).prevSegments = [] ∧
  (getSeg b.arena b.initialSeg).allPrevSegments = [] ∧
  ∀ r ∈ b.done, r.initialSegment < b.arena.length ∧
    (getSeg b.arena r.initialSegment).prevSegments = [] ∧
    (getSeg b.arena r.initialSegment).allPrevSegments = []

/-- The continue destination handed down by the traversal is a real segment
(the loop head created by the enclosing loop) and is never the initial
segment of the path in progress or of a finalized path. -/
def DestOk (d : Option Nat) (b : Build) : Prop :=
  ∀ dv, d = some dv → dv < b.arena.length ∧ dv ≠ b.initialSeg ∧
    ∀ r ∈ b.done, dv ≠ r.initialSegment

/-- What processing may do to the builder, as far as predecessor lists are
concerned: the path in progress keeps its initial segment, the arena only
grows, finished paths are only appended (with initial segments that are
fresh relative to the starting arena), and the predecessor lists of the
already existing segments are untouched, except possibly at the continue
destination "d" — the only old segment that ever receives a back edge. -/
def C4Step (d : Option Nat) (b b' : Build) : Prop :=
  b'.initialSeg = b.initialSeg ∧
  b.arena.length ≤ b'.arena.length ∧
  (∃ rs, b'.done = b.done ++ rs ∧
    ∀ r ∈ rs, b.arena.length ≤ r.initialSegment) ∧
  ∀ i, i < b.arena.length → (∀ dv, d = some dv → i ≠ dv) →
    (getSeg b'.arena i).prevSegments = (getSeg b.arena i).prevSegments ∧
    (getSeg b'.arena i).allPrevSegments = (getSeg b.arena i).allPrevSegments

/-- Modelled from the spec (§3, §4.6): the segments that must keep an empty
plain successor list: the final segments of every finalized path, and the
returned and thrown segments collected so far for the path in progress. -/
def Prot (b : Build) (s : Nat) : Prop :=
  (∃ r ∈ b.done, s ∈ r.finalSegments) ∨ s ∈ b.returned ∨ s ∈ b.thrown

/-- Modelled from the spec: the protection invariant behind the
final-segment rule: every protected segment is a real segment with an empty
plain successor list and is neither the current frontier nor a recorded
break frontier (the only old segments that ever receive new forward edges);
the frontier itself is a real segment with no successors yet and is not
recorded as broken; and every finished record satisfies the final-segments
superset rule. -/
def C1Inv (b : Build) : Prop :=
  (∀ s, Prot b s → s < b.arena.length ∧
    (getSeg b.arena s).nextSegments = [] ∧ s ≠ b.cur ∧ s ∉ b.broken) ∧
  b.cur < b.arena.length ∧
  (getSeg b.arena b.cur).nextSegments = [] ∧
  b.cur ∉ b.broken ∧
  (∀ s ∈ b.broken, s < b.arena.length) ∧
  ∀ r ∈ b.done, ∀ s, (s ∈ r.returnedSegments ∨ s ∈ r.thrownSegments) →
    s ∈ r.finalSegments

/-- What processing may do to the successor lists: the arena only grows, the
frontier either stays or moves to a fresh segment, break frontiers and
protected segments are only added from the old frontier or fresh segments,
and the successor lists of old segments other than the frontier and the
break frontiers are untouched. -/
def C1Step (b b' : Build) : Prop :=
  b.arena.length ≤ b'.arena.length ∧
  (b'.cur = b.cur ∨ b.arena.length ≤ b'.cur) ∧
  (∀ s ∈ b'.broken, s ∈ b.broken ∨ s = b.cur ∨ b.arena.length ≤ s) ∧
  (∀ s, Prot b' s → Prot b s ∨ s = b.cur ∨ b.arena.length ≤ s) ∧
  ∀ i, i < b.arena.length → i ≠ b.cur → i ∉ b.broken →
    (getSeg b'.arena i).nextSegments = (getSeg b.arena i).nextSegments

/-- Whether event "e" is the end event of segment "s": the ordinary
segment-end or the distinct unreachable-segment-end (§6). -/
def endedE (s : Nat) : Event → Bool
  | .segEnd s2 _ => s2 == s
  | .unreachableSegEnd s2 _ => s2 == s
  | _ => false

/-- Whether the trace already contains an end event for segment "s". -/
def ended (s : Nat) (tr : List Event) : Bool :=
  tr.any (endedE s)

/-- The originating node carried by an event (§6). -/
def nodeOf : Event → NodeRef
  | .pathStart _ n => n
  | .pathEnd _ n => n
  | .segStart _ n => n
  | .segEnd _ n => n
  | .unreachableSegStart _ n => n
  | .unreachableSegEnd _ n => n
  | .loopConnect _ _ n => n

/-- Whether the tree address "a0" is an initial segment of the tree
address "a": the node at "a" then lies at or below the node at "a0". -/
def addrLe : List Nat → List Nat → Bool
  | [], _ => true
  | _ :: _, [] => false
  | x :: xs, y :: ys => x == y && addrLe xs ys

/-- Whether a node lies at or below the tree address "a0" (the program node
is the root itself and lies below no statement address). -/
def underN (a0 : List Nat) : NodeRef → Bool
  | .program => false
  | .stmtN a => addrLe a0 a
  | .childN a => addrLe a0 a

/-- The tree address of the body of a path rooted at the given node: the
program's body is the whole tree (address nil is every statement's prefix),
and a function declaration at address "a" has its body at "a ++ [0]"; a
node lies inside the path's body exactly when it lies at or below this
address. -/
def bodyAddr : NodeRef → List Nat
  | .program => []
  | .stmtN a => a ++ [0]
  | .childN a => a ++ [0]

/-- A builder transition that only appends events whose originating nodes
satisfy "Q". -/
def EmitsN (Q : NodeRef → Prop) (b b' : Build) : Prop :=
  ∃ ext, b'.trace = b.trace ++ ext ∧ ∀ e ∈ ext, Q (nodeOf e)

/-- The event-ordering invariant behind the §5/§6 ordering guarantees: the
frontier and initial segment are live arena indexes; every owned segment
other than the frontier has received its end event; owned segments are
created at or after the path's initial segment; every event refers only to
live segments; the trace of the path in progress contains its path-start
immediately followed by its initial segment-start, with every earlier event
referring only to segments older than the initial one and none of them for
a node inside the path's body; and every finished path shows the same
start shape plus a path-end event preceded by end events for all of its
owned segments. -/
def TInv (b : Build) : Prop :=
  b.cur < b.arena.length ∧
  b.initialSeg < b.arena.length ∧
  (∀ s ∈ b.owned, s ≠ b.cur → ended s b.trace = true) ∧
  (∀ s ∈ b.owned, b.initialSeg ≤ s) ∧
  (∀ e ∈ b.trace, ∀ s ∈ refs e, s < b.arena.length) ∧
  (∃ pre post nd, b.trace = pre ++ Event.pathStart b.pid nd ::
      Event.segStart b.initialSeg nd :: post ∧
    (∀ e ∈ pre, ∀ s ∈ refs e, s < b.initialSeg) ∧
    ∀ e ∈ pre, underN (bodyAddr b.pnode) (nodeOf e) = false) ∧
  ∀ r ∈ b.done,
    (∃ pre post nd, b.trace = pre ++ Event.pathStart r.id nd ::
        Event.segStart r.initialSegment nd :: post ∧
      (∀ e ∈ pre, ∀ s ∈ refs e, s < r.initialSegment) ∧
      (∀ e ∈ pre, underN (bodyAddr r.node) (nodeOf e) = false) ∧
      ∀ s ∈ r.ownedSegments, r.initialSegment ≤ s) ∧
    ∃ pre post nd, b.trace = pre ++ Event.pathEnd r.id nd :: post ∧
      ∀ s ∈ r.ownedSegments, ended s pre = true

/-- The builder only ever grows the arena and appends to the trace. -/
def TExt (b b' : Build) : Prop :=
  b.arena.length ≤ b'.arena.length ∧ ∃ ext, b'.trace = b.trace ++ ext


/-! ## Helper lemmas about the builder operations -/

theorem done_flushP (n : NodeRef) (b : Build) : (flushP n b).done = b.done := by
  unfold flushP
  split <;> rfl

theorem done_newCur (r : Bool) (p : List Nat) (n : NodeRef) (b : Build) :
    (newCur r p n b).done = b.done := by
  simp only [newCur]
  split <;> simp [emit, done_flushP]

theorem done_connectLoop (f t : Nat) (n : NodeRef) (b : Build) :
    (connectLoop f t n b).done = b.done := rfl

theorem done_afterLoop (hr : Bool) (hp : List Nat) (n : NodeRef) (sv : List Nat)
    (b : Build) : (afterLoop hr hp n sv b).done = b.done := by
  simp [afterLoop, done_newCur]

theorem done_finalizePath (b : Build) :
    (finalizePath b).done = b.done ++ [finishRec b] := by
  simp [finalizePath, emit, done_flushP]

/-- The identity of the path under construction: its id, node, parent and
initial segment. -/
theorem SamePath.link {b b' b'' : Build} (h1 : SamePath b b') (h2 : SamePath b' b'') :
    SamePath b b'' :=
  ⟨h2.1.trans h1.1, h2.2.1.trans h1.2.1, h2.2.2.1.trans h1.2.2.1, h2.2.2.2.trans h1.2.2.2⟩

theorem samePath_flushP (n : NodeRef) (b : Build) : SamePath b (flushP n b) := by
  unfold flushP
  split <;> exact ⟨rfl, rfl, rfl, rfl⟩

theorem samePath_emit (e : Event) (b : Build) : SamePath b (emit e b) :=
  ⟨rfl, rfl, rfl, rfl⟩

theorem samePath_newCur (r : Bool) (p : List Nat) (n : NodeRef) (b : Build) :
    SamePath b (newCur r p n b) := by
  simp only [newCur]
  have h := samePath_flushP n b
  split <;> exact ⟨h.1, h.2.1, h.2.2.1, h.2.2.2⟩

theorem samePath_connectLoop (f t : Nat) (n : NodeRef) (b : Build) :
    SamePath b (connectLoop f t n b) :=
  ⟨rfl, rfl, rfl, rfl⟩

theorem samePath_afterLoop (hr : Bool) (hp : List Nat) (n : NodeRef) (sv : List Nat)
    (b : Build) : SamePath b (afterLoop hr hp n sv b) := by
  have h := samePath_newCur (hr || anyReach b.arena b.broken) (hp ++ b.broken) n
    { b with broken := sv }
  exact ⟨h.1, h.2.1, h.2.2.1, h.2.2.2⟩

theorem samePath_setBroken (l : List Nat) (b : Build) : SamePath b { b with broken := l } :=
  ⟨rfl, rfl, rfl, rfl⟩

theorem samePath_setReturned (l : List Nat) (b : Build) :
    SamePath b { b with returned := l } :=
  ⟨rfl, rfl, rfl, rfl⟩

theorem samePath_setThrown (l : List Nat) (b : Build) : SamePath b { b with thrown := l } :=
  ⟨rfl, rfl, rfl, rfl⟩

theorem samePath_condNewCur (c : Bool) (r : Bool) (p : List Nat) (n : NodeRef)
    (b : Build) : SamePath b (if c then newCur r p n b else b) := by
  cases c
  · exact ⟨rfl, rfl, rfl, rfl⟩
  · exact samePath_newCur r p n b

theorem samePath_condConnect (c : Bool) (f t : Nat) (n : NodeRef) (b : Build) :
    SamePath b (if c then connectLoop f t n b else b) := by
  cases c
  · exact ⟨rfl, rfl, rfl, rfl⟩
  · exact samePath_connectLoop f t n b

theorem finishRec_ids (b : Build) :
    (finishRec b).id = b.pid ∧ (finishRec b).upperId = b.upperId ∧
    (finishRec b).node = b.pnode ∧ (finishRec b).initialSegment = b.initialSeg := by
  obtain ⟨h1, h2, h3, h4⟩ := samePath_flushP b.pnode b
  simp only [finishRec]
  exact ⟨h1, h3, h2, h4⟩

/-- One finished Path record is appended per function declaration plus one
for the enclosing program or function: processing never drops a subtree. -/
theorem done_length_processStmt (t : Stmt) : ∀ (a : List Nat) (d : Option Nat) (b : Build),
    ((processStmt a d t b).done).length = b.done.length + numFuncs t := by
  induction t with
  | skip => intro a d b; simp [processStmt, numFuncs]
  | seq s1 s2 ih1 ih2 =>
    intro a d b
    simp only [processStmt, numFuncs, ih1, ih2]
    omega
  | expr => intro a d b; simp [processStmt, numFuncs, done_flushP]
  | funcDecl body ih =>
    intro a d b
    simp only [processStmt, numFuncs]
    simp [done_finalizePath, ih, emit, done_flushP]
    omega
  | ifS thenS elseS ih1 ih2 =>
    intro a d b
    simp only [processStmt, numFuncs, done_newCur, ih1, ih2, done_flushP]
    omega
  | ret =>
    intro a d b
    simp only [processStmt, numFuncs]
    split <;> simp [done_newCur, done_flushP]
  | thrw =>
    intro a d b
    simp only [processStmt, numFuncs]
    split <;> simp [done_newCur, done_flushP]
  | brk =>
    intro a d b
    simp only [processStmt, numFuncs]
    split
    · split <;> simp [done_newCur, done_flushP]
    · simp [done_flushP]
  | cont =>
    intro a d b
    simp only [processStmt, numFuncs]
    split
    · split <;> simp [done_newCur, done_connectLoop, done_flushP]
    · simp [done_flushP]
  | whileS body ih =>
    intro a d b
    simp only [processStmt, numFuncs, done_afterLoop, done_connectLoop, done_flushP,
      done_newCur, ih]
  | forS hTest hUpd body ih =>
    intro a d b
    cases hTest <;> cases hUpd <;>
      simp [processStmt, numFuncs, done_afterLoop, done_connectLoop, done_flushP,
        done_newCur, ih]
  | forIn body ih =>
    intro a d b
    simp only [processStmt, numFuncs, done_afterLoop, done_connectLoop, done_flushP,
      done_newCur, ih]
  | forOf body ih =>
    intro a d b
    simp only [processStmt, numFuncs, done_afterLoop, done_connectLoop, done_flushP,
      done_newCur, ih]

/-- Processing a statement never changes which path is being built: the
builder's path id, node, parent and initial segment are preserved (a nested
function's path is built in a separate builder value and the outer one is
restored). -/
theorem samePath_processStmt (t : Stmt) : ∀ (a : List Nat) (d : Option Nat) (b : Build),
    SamePath b (processStmt a d t b) := by
  induction t with
  | skip => intro a d b; exact ⟨rfl, rfl, rfl, rfl⟩
  | seq s1 s2 ih1 ih2 =>
    intro a d b
    simp only [processStmt]
    refine SamePath.link ?_ (ih2 _ _ _)
    exact ih1 _ _ _
  | expr =>
    intro a d b
    simp only [processStmt]
    exact samePath_flushP _ _
  | funcDecl body ih =>
    intro a d b
    simp only [processStmt]
    have h := samePath_flushP (NodeRef.stmtN a) b
    exact ⟨h.1, h.2.1, h.2.2.1, h.2.2.2⟩
  | ifS thenS elseS ih1 ih2 =>
    intro a d b
    simp only [processStmt]
    refine SamePath.link ?_ (samePath_newCur _ _ _ _)
    refine SamePath.link ?_ (ih2 _ _ _)
    refine SamePath.link ?_ (samePath_newCur _ _ _ _)
    refine SamePath.link ?_ (ih1 _ _ _)
    refine SamePath.link ?_ (samePath_newCur _ _ _ _)
    exact samePath_flushP _ _
  | ret =>
    intro a d b
    simp only [processStmt]
    split
    · refine SamePath.link ?_ (samePath_newCur _ _ _ _)
      refine SamePath.link ?_ (samePath_setReturned _ _)
      exact samePath_flushP _ _
    · exact samePath_flushP _ _
  | thrw =>
    intro a d b
    simp only [processStmt]
    split
    · refine SamePath.link ?_ (samePath_newCur _ _ _ _)
      refine SamePath.link ?_ (samePath_setThrown _ _)
      exact samePath_flushP _ _
    · exact samePath_flushP _ _
  | brk =>
    intro a d b
    simp only [processStmt]
    split
    · split
      · refine SamePath.link ?_ (samePath_newCur _ _ _ _)
        refine SamePath.link ?_ (samePath_setBroken _ _)
        exact samePath_flushP _ _
      · refine SamePath.link ?_ (samePath_newCur _ _ _ _)
        refine SamePath.link ?_ (samePath_setReturned _ _)
        exact samePath_flushP _ _
    · exact samePath_flushP _ _
  | cont =>
    intro a d b
    simp only [processStmt]
    split
    · split
      · refine SamePath.link ?_ (samePath_newCur _ _ _ _)
        refine SamePath.link ?_ (samePath_connectLoop _ _ _ _)
        exact samePath_flushP _ _
      · refine SamePath.link ?_ (samePath_newCur _ _ _ _)
        refine SamePath.link ?_ (samePath_setReturned _ _)
        exact samePath_flushP _ _
    · exact samePath_flushP _ _
  | whileS body ih =>
    intro a d b
    simp only [processStmt]
    refine SamePath.link ?_ (samePath_afterLoop _ _ _ _ _)
    refine SamePath.link ?_ ((samePath_flushP _ _).link (samePath_connectLoop _ _ _ _))
    refine SamePath.link ?_ (ih _ _ _)
    refine SamePath.link ?_ (samePath_setBroken _ _)
    refine SamePath.link ?_ (samePath_newCur _ _ _ _)
    refine SamePath.link ?_ (samePath_newCur _ _ _ _)
    exact samePath_flushP _ _
  | forS hTest hUpd body ih =>
    intro a d b
    simp only [processStmt]
    refine SamePath.link ?_ (samePath_afterLoop _ _ _ _ _)
    refine SamePath.link ?_ ((samePath_flushP _ _).link (samePath_connectLoop _ _ _ _))
    refine SamePath.link ?_ (ih _ _ _)
    refine SamePath.link ?_ (samePath_setBroken _ _)
    refine SamePath.link ?_ (samePath_condConnect _ _ _ _ _)
    refine SamePath.link ?_ (samePath_newCur _ _ _ _)
    refine SamePath.link ?_ (samePath_condNewCur _ _ _ _ _)
    refine SamePath.link ?_ (samePath_condNewCur _ _ _ _ _)
    exact samePath_flushP _ _
  | forIn body ih =>
    intro a d b
    simp only [processStmt]
    refine SamePath.link ?_ (samePath_afterLoop _ _ _ _ _)
    refine SamePath.link ?_ ((samePath_flushP _ _).link (samePath_connectLoop _ _ _ _))
    refine SamePath.link ?_ (ih _ _ _)
    refine SamePath.link ?_ (samePath_setBroken _ _)
    refine SamePath.link ?_ (samePath_newCur _ _ _ _)
    refine SamePath.link ?_ (samePath_connectLoop _ _ _ _)
    refine SamePath.link ?_ (samePath_newCur _ _ _ _)
    refine SamePath.link ?_ (samePath_newCur _ _ _ _)
    exact samePath_flushP _ _
  | forOf body ih =>
    intro a d b
    simp only [processStmt]
    refine SamePath.link ?_ (samePath_afterLoop _ _ _ _ _)
    refine SamePath.link ?_ ((samePath_flushP _ _).link (samePath_connectLoop _ _ _ _))
    refine SamePath.link ?_ (ih _ _ _)
    refine SamePath.link ?_ (samePath_setBroken _ _)
    refine SamePath.link ?_ (samePath_newCur _ _ _ _)
    refine SamePath.link ?_ (samePath_connectLoop _ _ _ _)
    refine SamePath.link ?_ (samePath_newCur _ _ _ _)
    refine SamePath.link ?_ (samePath_newCur _ _ _ _)
    exact samePath_flushP _ _

/-- C8: for every input tree containing a control-transfer statement with no
resolvable target context (a "break" with no enclosing loop, or a "continue"
outside any loop), the builder never raises or aborts: the whole analysis
function is total, the resolution-failure branch routes the statement to the
function-exit (return) context as a harmless fallback, and the analysis of
the rest of the tree completes: one Path record is produced for every
function declaration of the whole tree plus the program path, the program
path is finalized (its record carries id 0, no parent and the program node),
and the trace ends with the program's path-end event. -/
theorem trace_finalizePath (b : Build) :
    ∃ pre, (finalizePath b).trace = pre ++ [Event.pathEnd b.pid b.pnode] := by
  obtain ⟨h1, h2, -, -⟩ := samePath_flushP b.pnode b
  refine ⟨(flushP b.pnode b).trace ++
    [endEv (flushP b.pnode b).arena (flushP b.pnode b).cur (flushP b.pnode b).pnode], ?_⟩
  simp [finalizePath, emit, h1, h2]

/-- C8: for every input tree containing a control-transfer statement with no
resolvable target context (a "break" with no enclosing loop, or a "continue"
outside any loop), the builder never raises or aborts: the whole analysis
function is total, the resolution-failure branch routes the statement to the
function-exit (return) context as a harmless fallback, and the analysis of
the rest of the tree completes: one Path record is produced for every
function declaration of the whole tree plus the program path, the program
path is finalized (its record carries id 0, no parent and the program node),
and the trace ends with the program's path-end event. -/
theorem c8_unresolved_transfer_never_aborts (t : Stmt)
    (h : hasUnresolvedJump t false = true) :
    (analyze t).done.length = numFuncs t + 1 ∧
    (∃ rec ∈ (analyze t).done, rec.id = 0 ∧ rec.upperId = none ∧
      rec.node = NodeRef.program) ∧
    ∃ pre, (analyze t).trace = pre ++ [Event.pathEnd 0 NodeRef.program] := by
  clear h
  unfold analyze
  obtain ⟨p1, p2, p3, -⟩ := samePath_processStmt t [] none startBuild
  obtain ⟨q1, q2, q3, -⟩ := finishRec_ids (processStmt [] none t startBuild)
  refine ⟨?_, ?_, ?_⟩
  · simp [done_finalizePath, done_length_processStmt, startBuild]
  · refine ⟨finishRec (processStmt [] none t startBuild), ?_, ?_, ?_, ?_⟩
    · simp [done_finalizePath]
    · rw [q1, p1]; rfl
    · rw [q2, p3]; rfl
    · rw [q3, p2]; rfl
  · obtain ⟨pre, hpre⟩ := trace_finalizePath (processStmt [] none t startBuild)
    rw [p1, p2] at hpre
    exact ⟨pre, hpre⟩

/-! ## Functional-correctness claims on concrete inputs -/

/-- C2: on "function foo(a) \x7b if (a) return 0; else throw new Error(); \x7d"
the analysis creates exactly 2 Paths, the program path (id 0) first and the
function path (id 1) second in the path-start event order; the function path
has exactly 1 returned segment, exactly 1 thrown segment, a finalSegments
list of length 2, and both of its final segments have an empty nextSegments
list.  (The program path, for reference, is the function path's parent and
records it as its only child.) -/
theorem c2_interface_of_code_paths :
    pathStartsOf (analyze progIfRetThrow) =
      [Event.pathStart 0 .program, Event.pathStart 1 (.stmtN [])] ∧
    (analyze progIfRetThrow).done.length = 2 ∧
    ((findPath (analyze progIfRetThrow) 0).map fun r =>
      (r.upperId, r.childIds)) = some (none, [1]) ∧
    ((findPath (analyze progIfRetThrow) 1).map fun r =>
      (r.upperId, r.returnedSegments.length, r.thrownSegments.length,
       r.finalSegments.length)) = some (some 0, 1, 1, 2) ∧
    ((findPath (analyze progIfRetThrow) 1).map fun r =>
      r.finalSegments.map fun s => (getSeg (analyze progIfRetThrow).arena s).nextSegments)
      = some [[], []] := by
  decide

/-- C5: on the top-level input "throw 'boom'; foo();" exactly one
unreachable-segment-start event fires, with the statement following the
throw (address [1]) as its originating node, and the matching
unreachable-segment-end event fires at the program's exit (originating node
is the program node); on "function foo() \x7b return; foo(); \x7d" exactly one
unreachable-segment-start fires, at the statement following the return
(address [0, 1] inside the function's body), and its end event fires at the
function's exit (originating node is the function statement at address []),
not the program's: across the entire trace of that run there is no
unreachable-segment event with the program node. -/
theorem c5_unreachable_segment_events :
    unreachStartsOf (analyze progThrowThenCall) =
      [Event.unreachableSegStart 1 (.stmtN [1])] ∧
    unreachEndsOf (analyze progThrowThenCall) =
      [Event.unreachableSegEnd 1 .program] ∧
    unreachStartsOf (analyze progFuncRetThenCall) =
      [Event.unreachableSegStart 2 (.stmtN [0, 1])] ∧
    unreachEndsOf (analyze progFuncRetThenCall) =
      [Event.unreachableSegEnd 2 (.stmtN [])] := by
  decide

/-- C6: on "for (var i = 0; i < 10; ++i) \x7b foo(); \x7d" exactly 2
loop-connect events are emitted, in this order: the first closes the edge
from the update clause's segment (2) into the test segment (1) and its
originating node is a child of the for statement (the for statement sits at
address [], and the parent of its clause child is that statement); the
second is emitted with the for statement itself as the originating node, for
the remaining closure edge (from the body's segment 3 back into the update
segment 2).  The trailing conjuncts pin the segments' roles: segment 1 is
the test segment (forward edge from the entry segment 0, back edge from the
update segment 2), and the update segment's only successor is the test
segment. -/
theorem c6_for_loop_connect_events :
    loopEventsOf (analyze progForLoop) =
      [Event.loopConnect 2 1 (.childN []), Event.loopConnect 3 2 (.stmtN [])] ∧
    parentN (.childN []) = some (.stmtN []) ∧
    (getSeg (analyze progForLoop).arena 1).prevSegments = [0, 2] ∧
    (getSeg (analyze progForLoop).arena 2).allNextSegments = [1] ∧
    (getSeg (analyze progForLoop).arena 3).allPrevSegments = [1] := by
  decide

/-- C10: on a "for-in" loop and on a "for-of" loop, exactly 2 loop-connect
events are emitted: the first closes the iteration edge from the right-hand
(iterated expression) segment 2 back to the left-hand (binding) segment 1,
with a clause child of the loop statement (which sits at address []) as its
originating node, and the second is emitted with the loop statement node
itself as its originating node.  The trailing conjuncts pin the segments'
roles: the right-hand segment receives the forward edge from the entry
segment 0 and flows into the left-hand segment and the after-loop segment 4,
while the left-hand segment's incoming edges are exactly the iteration edge
from the right-hand segment and the closure edge from the body segment 3. -/
theorem c10_forin_forof_loop_connect_events :
    loopEventsOf (analyze progForInLoop) =
      [Event.loopConnect 2 1 (.childN []), Event.loopConnect 3 1 (.stmtN [])] ∧
    loopEventsOf (analyze progForOfLoop) =
      [Event.loopConnect 2 1 (.childN []), Event.loopConnect 3 1 (.stmtN [])] ∧
    parentN (.childN []) = some (.stmtN []) ∧
    (getSeg (analyze progForInLoop).arena 2).prevSegments = [0] ∧
    (getSeg (analyze progForInLoop).arena 2).nextSegments = [1, 4] ∧
    (getSeg (analyze progForInLoop).arena 1).allPrevSegments = [2, 3] ∧
    (getSeg (analyze progForOfLoop).arena 2).prevSegments = [0] ∧
    (getSeg (analyze progForOfLoop).arena 2).nextSegments = [1, 4] ∧
    (getSeg (analyze progForOfLoop).arena 1).allPrevSegments = [2, 3] := by
  decide

theorem segShape_shiftSeg (o : Nat) (sd : SegData) : segShape (shiftSeg o sd) = segShape sd := by
  cases sd
  simp [segShape, shiftSeg]

theorem pathShape_shiftRec (so po : Nat) (r : PathRec) :
    pathShape (shiftRec so po r) = pathShape r := by
  cases r
  simp [pathShape, shiftRec]

theorem reachable_shiftSeg (o : Nat) (sd : SegData) :
    (shiftSeg o sd).reachable = sd.reachable := rfl

/-- C9: running the analysis twice on the same unchanged tree yields
isomorphic control-flow graphs.  The two runs start at arbitrary id-counter
bases (so all their segment and path ids may differ), yet they produce the
same number of Paths, the same per-path shape (child, final, returned,
thrown and owned-segment counts), the same number of segments, the same
per-segment shape (edge counts in all four lists), and corresponding
segments (the k-th segment created in each run) carry the same reachability
flag.  The correspondence k-th-to-k-th is the isomorphism. -/
theorem c9_rerun_isomorphic (t : Stmt) (b1 p1 b2 p2 : Nat) :
    (analyzeFrom b1 p1 t).done.length = (analyzeFrom b2 p2 t).done.length ∧
    (analyzeFrom b1 p1 t).done.map pathShape = (analyzeFrom b2 p2 t).done.map pathShape ∧
    (analyzeFrom b1 p1 t).arena.length = (analyzeFrom b2 p2 t).arena.length ∧
    (analyzeFrom b1 p1 t).arena.map segShape = (analyzeFrom b2 p2 t).arena.map segShape ∧
    ∀ k : Nat, ((analyzeFrom b1 p1 t).arena.getD k ⟨false, [], [], [], []⟩).reachable
      = ((analyzeFrom b2 p2 t).arena.getD k ⟨false, [], [], [], []⟩).reachable := by
  refine ⟨?_, ?_, ?_, ?_, ?_⟩
  · simp [analyzeFrom]
  · simp only [analyzeFrom, List.map_map]
    refine List.map_congr_left fun r _ => ?_
    simp [Function.comp, pathShape_shiftRec]
  · simp [analyzeFrom]
  · simp only [analyzeFrom, List.map_map]
    refine List.map_congr_left fun sd _ => ?_
    simp [Function.comp, segShape_shiftSeg]
  · intro k
    simp only [analyzeFrom]
    rcases h : (analyze t).arena[k]? with _ | sd <;>
      simp [List.getD, List.get?_eq_getElem?, List.getElem?_map, h, reachable_shiftSeg]

/-- Witness for C8 at the concrete malformed input consisting of a top-level
break (no enclosing loop) followed by a function declaration: the hypothesis
holds and the analysis still completes, producing both paths. -/
theorem c8_unresolved_transfer_never_aborts_witness :
    hasUnresolvedJump (Stmt.seq .brk (.funcDecl .skip)) false = true ∧
    ((analyze (Stmt.seq .brk (.funcDecl .skip))).done.length =
        numFuncs (Stmt.seq .brk (.funcDecl .skip)) + 1 ∧
      (∃ rec ∈ (analyze (Stmt.seq .brk (.funcDecl .skip))).done, rec.id = 0 ∧
        rec.upperId = none ∧ rec.node = NodeRef.program) ∧
      ∃ pre, (analyze (Stmt.seq .brk (.funcDecl .skip))).trace =
        pre ++ [Event.pathEnd 0 NodeRef.program]) :=
  ⟨by decide, c8_unresolved_transfer_never_aborts _ (by decide)⟩

/-! ## Arena lemmas: the segment store under edge construction -/

theorem getSeg_nil (i : Nat) : getSeg [] i = defaultSeg := by
  cases i <;> rfl

theorem getSeg_cons_zero (x : SegData) (A : List SegData) : getSeg (x :: A) 0 = x := rfl

theorem getSeg_cons_succ (x : SegData) (A : List SegData) (i : Nat) :
    getSeg (x :: A) (i + 1) = getSeg A i := rfl

theorem getSeg_out (A : List SegData) (i : Nat) (h : A.length ≤ i) :
    getSeg A i = defaultSeg := by
  induction A generalizing i with
  | nil => exact getSeg_nil i
  | cons x A ih =>
    cases i with
    | zero => simp at h
    | succ n =>
      rw [getSeg_cons_succ]
      exact ih n (by simpa using h)

theorem reachOf_lt (A : List SegData) (i : Nat) (h : reachOf A i = true) :
    i < A.length := by
  by_contra hc
  push_neg at hc
  rw [reachOf, getSeg_out A i hc] at h
  simp [defaultSeg] at h

theorem getSeg_append_lt (A B : List SegData) (i : Nat) (h : i < A.length) :
    getSeg (A ++ B) i = getSeg A i := by
  induction A generalizing i with
  | nil => simp at h
  | cons x A ih =>
    cases i with
    | zero => rfl
    | succ n =>
      rw [List.cons_append, getSeg_cons_succ, getSeg_cons_succ]
      exact ih n (by simpa using h)

theorem getSeg_append_len (A : List SegData) (x : SegData) :
    getSeg (A ++ [x]) A.length = x := by
  induction A with
  | nil => rfl
  | cons y A ih => simpa using ih

theorem getSeg_set_ne (A : List SegData) (i j : Nat) (x : SegData) (h : j ≠ i) :
    getSeg (A.set i x) j = getSeg A j := by
  induction A generalizing i j with
  | nil => rfl
  | cons y A ih =>
    cases i with
    | zero =>
      cases j with
      | zero => exact absurd rfl h
      | succ m => rfl
    | succ n =>
      cases j with
      | zero => rfl
      | succ m =>
        rw [List.set_cons_succ, getSeg_cons_succ, getSeg_cons_succ]
        exact ih n m (fun he => h (by rw [he]))

theorem getSeg_set_self (A : List SegData) (i : Nat) (x : SegData) (h : i < A.length) :
    getSeg (A.set i x) i = x := by
  induction A generalizing i with
  | nil => simp at h
  | cons y A ih =>
    cases i with
    | zero => rfl
    | succ n =>
      rw [List.set_cons_succ, getSeg_cons_succ]
      exact ih n (by simpa using h)

theorem set_out (A : List SegData) (i : Nat) (x : SegData) (h : A.length ≤ i) :
    A.set i x = A := by
  induction A generalizing i with
  | nil => rfl
  | cons y A ih =>
    cases i with
    | zero => simp at h
    | succ n => rw [List.set_cons_succ, ih n (by simpa using h)]

theorem length_addFwdEdge (A : List SegData) (p c : Nat) (pl : Bool) :
    (addFwdEdge A p c pl).length = A.length := by
  simp [addFwdEdge]

theorem getSeg_addFwdEdge_ne (A : List SegData) (p c : Nat) (pl : Bool) (i : Nat)
    (h : i ≠ p) : getSeg (addFwdEdge A p c pl) i = getSeg A i :=
  getSeg_set_ne A p i _ h

theorem reachOf_addFwdEdge (A : List SegData) (p c : Nat) (pl : Bool) (i : Nat) :
    reachOf (addFwdEdge A p c pl) i = reachOf A i := by
  rcases eq_or_ne i p with rfl | h
  · rcases lt_or_le i A.length with hl | hl
    · rw [reachOf, addFwdEdge, getSeg_set_self A i _ hl]
      rfl
    · rw [addFwdEdge, set_out A i _ hl]
  · rw [reachOf, getSeg_addFwdEdge_ne A p c pl i h]
    rfl

theorem prevParts_addFwdEdge (A : List SegData) (p c : Nat) (pl : Bool) (i : Nat) :
    (getSeg (addFwdEdge A p c pl) i).prevSegments = (getSeg A i).prevSegments ∧
    (getSeg (addFwdEdge A p c pl) i).allPrevSegments = (getSeg A i).allPrevSegments := by
  rcases eq_or_ne i p with rfl | h
  · rcases lt_or_le i A.length with hl | hl
    · rw [addFwdEdge, getSeg_set_self A i _ hl]
      exact ⟨rfl, rfl⟩
    · rw [addFwdEdge, set_out A i _ hl]
      exact ⟨rfl, rfl⟩
  · rw [getSeg_addFwdEdge_ne A p c pl i h]
    exact ⟨rfl, rfl⟩

theorem next_addFwdEdge_mem (A : List SegData) (p c : Nat) (pl : Bool) (i j : Nat)
    (h : j ∈ (getSeg (addFwdEdge A p c pl) i).nextSegments) :
    j ∈ (getSeg A i).nextSegments ∨ (i = p ∧ j = c ∧ pl = true) := by
  rcases eq_or_ne i p with rfl | hne
  · rcases lt_or_le i A.length with hl | hl
    · rw [addFwdEdge, getSeg_set_self A i _ hl] at h
      simp only at h
      cases pl with
      | false => simp at h; exact Or.inl h
      | true =>
        simp at h
        rcases h with h | h
        · exact Or.inl h
        · exact Or.inr ⟨rfl, h, rfl⟩
    · rw [addFwdEdge, set_out A i _ hl] at h
      exact Or.inl h
  · rw [getSeg_addFwdEdge_ne A p c pl i hne] at h
    exact Or.inl h

theorem length_addFwdEdges (A0 : List SegData) (c : Nat) (r : Bool) :
    ∀ (ps : List Nat) (A : List SegData), (addFwdEdges A0 c r A ps).length = A.length := by
  intro ps
  induction ps with
  | nil => intro A; rfl
  | cons p ps ih =>
    intro A
    rw [addFwdEdges, ih, length_addFwdEdge]

theorem reachOf_addFwdEdges (A0 : List SegData) (c : Nat) (r : Bool) :
    ∀ (ps : List Nat) (A : List SegData) (i : Nat),
      reachOf (addFwdEdges A0 c r A ps) i = reachOf A i := by
  intro ps
  induction ps with
  | nil => intro A i; rfl
  | cons p ps ih =>
    intro A i
    rw [addFwdEdges, ih, reachOf_addFwdEdge]

theorem prevParts_addFwdEdges (A0 : List SegData) (c : Nat) (r : Bool) :
    ∀ (ps : List Nat) (A : List SegData) (i : Nat),
      (getSeg (addFwdEdges A0 c r A ps) i).prevSegments = (getSeg A i).prevSegments ∧
      (getSeg (addFwdEdges A0 c r A ps) i).allPrevSegments = (getSeg A i).allPrevSegments := by
  intro ps
  induction ps with
  | nil => intro A i; exact ⟨rfl, rfl⟩
  | cons p ps ih =>
    intro A i
    obtain ⟨h1, h2⟩ := ih (addFwdEdge A p c (r && reachOf A0 p)) i
    obtain ⟨g1, g2⟩ := prevParts_addFwdEdge A p c (r && reachOf A0 p) i
    exact ⟨by rw [addFwdEdges, h1, g1], by rw [addFwdEdges, h2, g2]⟩

theorem next_addFwdEdges_mem (A0 : List SegData) (c : Nat) (r : Bool) :
    ∀ (ps : List Nat) (A : List SegData) (i j : Nat),
      j ∈ (getSeg (addFwdEdges A0 c r A ps) i).nextSegments →
      j ∈ (getSeg A i).nextSegments ∨
        (i ∈ ps ∧ j = c ∧ r = true ∧ reachOf A0 i = true) := by
  intro ps
  induction ps with
  | nil => intro A i j h; exact Or.inl h
  | cons p ps ih =>
    intro A i j h
    rw [addFwdEdges] at h
    rcases ih _ i j h with h1 | ⟨hi, hj, hr, hro⟩
    · rcases next_addFwdEdge_mem A p c (r && reachOf A0 p) i j h1 with h2 | ⟨hip, hjc, hpl⟩
      · exact Or.inl h2
      · rw [Bool.and_eq_true] at hpl
        exact Or.inr ⟨by rw [hip]; exact List.mem_cons_self p ps, hjc, hpl.1,
          by rw [hip]; exact hpl.2⟩
    · exact Or.inr ⟨List.mem_cons_of_mem p hi, hj, hr, hro⟩

theorem length_pushSeg (A : List SegData) (r : Bool) (ps : List Nat) :
    (pushSeg A r ps).length = A.length + 1 := by
  simp [pushSeg, length_addFwdEdges]

theorem reachOf_pushSeg_lt (A : List SegData) (r : Bool) (ps : List Nat) (i : Nat)
    (h : i < A.length) : reachOf (pushSeg A r ps) i = reachOf A i := by
  rw [reachOf, pushSeg, getSeg_append_lt _ _ i (by rw [length_addFwdEdges]; exact h),
    ← reachOf, reachOf_addFwdEdges]

theorem getSeg_append_len' (A : List SegData) (x : SegData) (k : Nat)
    (h : k = A.length) : getSeg (A ++ [x]) k = x := by
  rw [h]
  exact getSeg_append_len A x

theorem getSeg_pushSeg_len (A : List SegData) (r : Bool) (ps : List Nat) :
    getSeg (pushSeg A r ps) A.length =
      { reachable := r,
        prevSegments := if r then ps.filter (fun p => reachOf A p) else [],
        nextSegments := [],
        allPrevSegments := ps,
        allNextSegments := [] } := by
  rw [pushSeg]
  exact getSeg_append_len' _ _ _ (length_addFwdEdges A A.length r ps A).symm

theorem reachOf_pushSeg_len (A : List SegData) (r : Bool) (ps : List Nat) :
    reachOf (pushSeg A r ps) A.length = r := by
  rw [reachOf, getSeg_pushSeg_len]

theorem getSeg_pushSeg_gt (A : List SegData) (r : Bool) (ps : List Nat) (i : Nat)
    (h : A.length < i) : getSeg (pushSeg A r ps) i = defaultSeg :=
  getSeg_out _ i (by rw [length_pushSeg]; exact h)

theorem edgeReach_pushSeg (A : List SegData) (r : Bool) (ps : List Nat)
    (h : EdgeReach A) : EdgeReach (pushSeg A r ps) := by
  intro i j
  rcases lt_trichotomy i A.length with hi | hi | hi
  · constructor
    · intro hj
      rw [pushSeg, getSeg_append_lt _ _ i (by rw [length_addFwdEdges]; exact hi)] at hj
      rw [(prevParts_addFwdEdges A A.length r ps A i).1] at hj
      obtain ⟨h1, h2⟩ := (h i j).1 hj
      have hjlt := reachOf_lt A j h1
      rw [reachOf_pushSeg_lt A r ps j hjlt, reachOf_pushSeg_lt A r ps i hi]
      exact ⟨h1, h2⟩
    · intro hj
      rw [pushSeg, getSeg_append_lt _ _ i (by rw [length_addFwdEdges]; exact hi)] at hj
      rcases next_addFwdEdges_mem A A.length r ps A i j hj with h1 | ⟨-, hj2, hr2, hro⟩
      · obtain ⟨h1a, h1b⟩ := (h i j).2 h1
        have hjlt := reachOf_lt A j h1a
        rw [reachOf_pushSeg_lt A r ps j hjlt, reachOf_pushSeg_lt A r ps i hi]
        exact ⟨h1a, h1b⟩
      · rw [hj2, reachOf_pushSeg_len, reachOf_pushSeg_lt A r ps i hi]
        exact ⟨hr2, hro⟩
  · subst hi
    rw [getSeg_pushSeg_len]
    constructor
    · intro hj
      simp only at hj
      cases r with
      | false => simp at hj
      | true =>
        rw [if_pos rfl] at hj
        rw [List.mem_filter] at hj
        have hjlt := reachOf_lt A j hj.2
        rw [reachOf_pushSeg_lt A true ps j hjlt, reachOf_pushSeg_len]
        exact ⟨hj.2, rfl⟩
    · intro hj
      simp at hj
  · rw [getSeg_pushSeg_gt A r ps i hi]
    exact ⟨fun hj => by simp [defaultSeg] at hj, fun hj => by simp [defaultSeg] at hj⟩

theorem addLoopArena_eq (A : List SegData) (f t : Nat) :
    addLoopArena A f t =
      (addFwdEdge A f t (reachOf A f && reachOf A t)).set t
        { getSeg (addFwdEdge A f t (reachOf A f && reachOf A t)) t with
          allPrevSegments :=
            (getSeg (addFwdEdge A f t (reachOf A f && reachOf A t)) t).allPrevSegments
              ++ [f],
          prevSegments := if reachOf A f && reachOf A t then
            (getSeg (addFwdEdge A f t (reachOf A f && reachOf A t)) t).prevSegments ++ [f]
          else
            (getSeg (addFwdEdge A f t (reachOf A f && reachOf A t)) t).prevSegments } :=
  rfl

theorem reachOf_addLoopArena (A : List SegData) (f t : Nat) (i : Nat) :
    reachOf (addLoopArena A f t) i = reachOf A i := by
  rw [addLoopArena_eq]
  rcases eq_or_ne i t with rfl | hne
  · rcases lt_or_le i (addFwdEdge A f i (reachOf A f && reachOf A i)).length with hl | hl
    · rw [reachOf, getSeg_set_self _ i _ hl]
      show (getSeg (addFwdEdge A f i (reachOf A f && reachOf A i)) i).reachable =
        reachOf A i
      rw [← reachOf, reachOf_addFwdEdge]
    · rw [set_out _ i _ hl, reachOf_addFwdEdge]
  · rw [reachOf, getSeg_set_ne _ t i _ hne, ← reachOf, reachOf_addFwdEdge]

theorem prev_addLoopArena_mem (A : List SegData) (f t i j : Nat)
    (h : j ∈ (getSeg (addLoopArena A f t) i).prevSegments) :
    j ∈ (getSeg A i).prevSegments ∨
      (i = t ∧ j = f ∧ reachOf A f = true ∧ reachOf A t = true) := by
  rw [addLoopArena_eq] at h
  rcases eq_or_ne i t with rfl | hne
  · rcases lt_or_le i (addFwdEdge A f i (reachOf A f && reachOf A i)).length with hl | hl
    · rw [getSeg_set_self _ i _ hl] at h
      rcases hb : reachOf A f && reachOf A i with _ | _ <;> rw [hb] at h <;> simp at h
      · rw [(prevParts_addFwdEdge A f i _ i).1] at h
        exact Or.inl h
      · rw [(prevParts_addFwdEdge A f i _ i).1] at h
        rcases h with h | h
        · exact Or.inl h
        · rw [Bool.and_eq_true] at hb
          exact Or.inr ⟨rfl, h, hb.1, hb.2⟩
    · rw [set_out _ i _ hl, (prevParts_addFwdEdge A f i _ i).1] at h
      exact Or.inl h
  · rw [getSeg_set_ne _ t i _ hne, (prevParts_addFwdEdge A f t _ i).1] at h
    exact Or.inl h

theorem next_addLoopArena_mem (A : List SegData) (f t i j : Nat)
    (h : j ∈ (getSeg (addLoopArena A f t) i).nextSegments) :
    j ∈ (getSeg A i).nextSegments ∨
      (i = f ∧ j = t ∧ reachOf A f = true ∧ reachOf A t = true) := by
  have h2 : j ∈ (getSeg (addFwdEdge A f t (reachOf A f && reachOf A t)) i).nextSegments := by
    rw [addLoopArena_eq] at h
    rcases eq_or_ne i t with rfl | hne
    · rcases lt_or_le i (addFwdEdge A f i (reachOf A f && reachOf A i)).length with hl | hl
      · rw [getSeg_set_self _ i _ hl] at h
        exact h
      · rw [set_out _ i _ hl] at h
        exact h
    · rw [getSeg_set_ne _ t i _ hne] at h
      exact h
  rcases next_addFwdEdge_mem A f t _ i j h2 with h3 | ⟨hif, hjt, hpl⟩
  · exact Or.inl h3
  · rw [Bool.and_eq_true] at hpl
    exact Or.inr ⟨hif, hjt, hpl.1, hpl.2⟩

theorem edgeReach_addLoopArena (A : List SegData) (f t : Nat)
    (h : EdgeReach A) : EdgeReach (addLoopArena A f t) := by
  intro i j
  constructor
  · intro hj
    rw [reachOf_addLoopArena, reachOf_addLoopArena]
    rcases prev_addLoopArena_mem A f t i j hj with h1 | ⟨rfl, rfl, hf, ht⟩
    · exact (h i j).1 h1
    · exact ⟨hf, ht⟩
  · intro hj
    rw [reachOf_addLoopArena, reachOf_addLoopArena]
    rcases next_addLoopArena_mem A f t i j hj with h1 | ⟨rfl, rfl, hf, ht⟩
    · exact (h i j).2 h1
    · exact ⟨ht, hf⟩

/-! ## Arena forms of the builder operations -/

theorem arena_emit (e : Event) (b : Build) : (emit e b).arena = b.arena := rfl

theorem arena_flushP (n : NodeRef) (b : Build) : (flushP n b).arena = b.arena := by
  unfold flushP
  split <;> rfl

theorem arena_newCur (r : Bool) (p : List Nat) (n : NodeRef) (b : Build) :
    (newCur r p n b).arena = pushSeg b.arena r p := by
  simp only [newCur]
  split <;> simp [emit, arena_flushP]

theorem arena_connectLoop (f t : Nat) (n : NodeRef) (b : Build) :
    (connectLoop f t n b).arena = addLoopArena b.arena f t := rfl

theorem arena_afterLoop (hr : Bool) (hp : List Nat) (n : NodeRef) (sv : List Nat)
    (b : Build) :
    (afterLoop hr hp n sv b).arena =
      pushSeg b.arena (hr || anyReach b.arena b.broken) (hp ++ b.broken) := by
  rw [afterLoop, arena_newCur]

theorem arena_finalizePath (b : Build) : (finalizePath b).arena = b.arena := by
  simp [finalizePath, emit, arena_flushP]

theorem edgeReach_newCur (r : Bool) (p : List Nat) (n : NodeRef) (b : Build)
    (h : EdgeReach b.arena) : EdgeReach (newCur r p n b).arena := by
  rw [arena_newCur]
  exact edgeReach_pushSeg _ r p h

theorem edgeReach_connectLoop (f t : Nat) (n : NodeRef) (b : Build)
    (h : EdgeReach b.arena) : EdgeReach (connectLoop f t n b).arena := by
  rw [arena_connectLoop]
  exact edgeReach_addLoopArena _ f t h

theorem edgeReach_afterLoop (hr : Bool) (hp : List Nat) (n : NodeRef) (sv : List Nat)
    (b : Build) (h : EdgeReach b.arena) : EdgeReach (afterLoop hr hp n sv b).arena := by
  rw [arena_afterLoop]
  exact edgeReach_pushSeg _ _ _ h

theorem edgeReach_condNewCur (c : Bool) (r : Bool) (p : List Nat) (n : NodeRef)
    (b : Build) (h : EdgeReach b.arena) :
    EdgeReach ((if c then newCur r p n b else b)).arena := by
  cases c
  · exact h
  · exact edgeReach_newCur r p n b h

theorem edgeReach_condConnect (c : Bool) (f t : Nat) (n : NodeRef) (b : Build)
    (h : EdgeReach b.arena) :
    EdgeReach ((if c then connectLoop f t n b else b)).arena := by
  cases c
  · exact h
  · exact edgeReach_connectLoop f t n b h

/-- The §3 rule that plain edge lists hold reachable edges only is preserved
by processing any statement. -/
theorem edgeReach_processStmt (t : Stmt) :
    ∀ (a : List Nat) (d : Option Nat) (b : Build),
      EdgeReach b.arena → EdgeReach (processStmt a d t b).arena := by
  induction t with
  | skip => intro a d b h; exact h
  | seq s1 s2 ih1 ih2 =>
    intro a d b h
    simp only [processStmt]
    exact ih2 _ _ _ (ih1 _ _ _ h)
  | expr =>
    intro a d b h
    simp only [processStmt]
    rw [arena_flushP]
    exact h
  | funcDecl body ih =>
    intro a d b h
    simp only [processStmt]
    rw [arena_finalizePath]
    have h2 : EdgeReach (flushP (NodeRef.stmtN a) b).arena := by
      rw [arena_flushP]
      exact h
    exact ih _ _ _ (edgeReach_pushSeg _ true [] h2)
  | ifS thenS elseS ih1 ih2 =>
    intro a d b h
    simp only [processStmt]
    refine edgeReach_newCur _ _ _ _ (ih2 _ _ _ (edgeReach_newCur _ _ _ _ (ih1 _ _ _ ?_)))
    have h1 : EdgeReach (flushP (NodeRef.stmtN a) b).arena := by
      rw [arena_flushP]; exact h
    exact edgeReach_newCur _ _ _ _ h1
  | ret =>
    intro a d b h
    simp only [processStmt]
    have h1 : EdgeReach (flushP (NodeRef.stmtN a) b).arena := by
      rw [arena_flushP]; exact h
    split
    · exact edgeReach_newCur _ _ _ _ h1
    · exact h1
  | thrw =>
    intro a d b h
    simp only [processStmt]
    have h1 : EdgeReach (flushP (NodeRef.stmtN a) b).arena := by
      rw [arena_flushP]; exact h
    split
    · exact edgeReach_newCur _ _ _ _ h1
    · exact h1
  | brk =>
    intro a d b h
    simp only [processStmt]
    have h1 : EdgeReach (flushP (NodeRef.stmtN a) b).arena := by
      rw [arena_flushP]; exact h
    split
    · split <;> exact edgeReach_newCur _ _ _ _ h1
    · exact h1
  | cont =>
    intro a d b h
    simp only [processStmt]
    have h1 : EdgeReach (flushP (NodeRef.stmtN a) b).arena := by
      rw [arena_flushP]; exact h
    split
    · split
      · exact edgeReach_newCur _ _ _ _ (edgeReach_connectLoop _ _ _ _ h1)
      · exact edgeReach_newCur _ _ _ _ h1
    · exact h1
  | whileS body ih =>
    intro a d b h
    simp only [processStmt]
    have h1 : EdgeReach (flushP (NodeRef.stmtN a) b).arena := by
      rw [arena_flushP]; exact h
    refine edgeReach_afterLoop _ _ _ _ _ (edgeReach_connectLoop _ _ _ _ ?_)
    rw [arena_flushP]
    refine ih _ _ _ ?_
    exact edgeReach_newCur _ _ _ _ (edgeReach_newCur _ _ _ _ h1)
  | forS hTest hUpd body ih =>
    intro a d b h
    simp only [processStmt]
    have h1 : EdgeReach (flushP (NodeRef.stmtN a) b).arena := by
      rw [arena_flushP]; exact h
    refine edgeReach_afterLoop _ _ _ _ _ (edgeReach_connectLoop _ _ _ _ ?_)
    rw [arena_flushP]
    refine ih _ _ _ ?_
    exact edgeReach_condConnect _ _ _ _ _ (edgeReach_newCur _ _ _ _
      (edgeReach_condNewCur _ _ _ _ _ (edgeReach_condNewCur _ _ _ _ _ h1)))
  | forIn body ih =>
    intro a d b h
    simp only [processStmt]
    have h1 : EdgeReach (flushP (NodeRef.stmtN a) b).arena := by
      rw [arena_flushP]; exact h
    refine edgeReach_afterLoop _ _ _ _ _ (edgeReach_connectLoop _ _ _ _ ?_)
    rw [arena_flushP]
    refine ih _ _ _ ?_
    exact edgeReach_newCur _ _ _ _ (edgeReach_connectLoop _ _ _ _
      (edgeReach_newCur _ _ _ _ (edgeReach_newCur _ _ _ _ h1)))
  | forOf body ih =>
    intro a d b h
    simp only [processStmt]
    have h1 : EdgeReach (flushP (NodeRef.stmtN a) b).arena := by
      rw [arena_flushP]; exact h
    refine edgeReach_afterLoop _ _ _ _ _ (edgeReach_connectLoop _ _ _ _ ?_)
    rw [arena_flushP]
    refine ih _ _ _ ?_
    exact edgeReach_newCur _ _ _ _ (edgeReach_connectLoop _ _ _ _
      (edgeReach_newCur _ _ _ _ (edgeReach_newCur _ _ _ _ h1)))

theorem edgeReach_startBuild : EdgeReach startBuild.arena := by
  have h0 : (getSeg startBuild.arena 0).prevSegments = [] := by decide
  have h1 : (getSeg startBuild.arena 0).nextSegments = [] := by decide
  have hlen : startBuild.arena.length = 1 := by decide
  intro i j
  cases i with
  | zero =>
    constructor
    · intro hj
      rw [h0] at hj
      simp at hj
    · intro hj
      rw [h1] at hj
      simp at hj
  | succ n =>
    have hd : getSeg startBuild.arena (n + 1) = defaultSeg :=
      getSeg_out _ _ (by rw [hlen]; omega)
    rw [hd]
    constructor
    · intro hj
      simp [defaultSeg] at hj
    · intro hj
      simp [defaultSeg] at hj

/-- C3: for every tree and every segment of the analysis run's arena, a
segment whose reachable flag is false never appears in any other segment's
"prevSegments" or "nextSegments" lists: every edge recorded in those plain
lists has both of its endpoints reachable, so edges to or from unreachable
segments appear only in the "allPrevSegments"/"allNextSegments" variants. -/
theorem c3_unreachable_only_in_all_variants (t : Stmt) (i j : Nat)
    (h : j ∈ (getSeg (analyze t).arena i).prevSegments ∨
      j ∈ (getSeg (analyze t).arena i).nextSegments) :
    reachOf (analyze t).arena j = true ∧ reachOf (analyze t).arena i = true := by
  have he : EdgeReach (analyze t).arena := by
    rw [analyze, arena_finalizePath]
    exact edgeReach_processStmt t [] none startBuild edgeReach_startBuild
  rcases h with h | h
  · exact (he i j).1 h
  · exact (he i j).2 h

/-- Witness for C3: in the run on the if/else input, segment 1 (the function
path's initial segment) is a recorded plain predecessor of segment 2 (the
then branch), and both are reachable. -/
theorem c3_unreachable_only_in_all_variants_witness :
    (1 ∈ (getSeg (analyze progIfRetThrow).arena 2).prevSegments ∨
      1 ∈ (getSeg (analyze progIfRetThrow).arena 2).nextSegments) ∧
    (reachOf (analyze progIfRetThrow).arena 1 = true ∧
      reachOf (analyze progIfRetThrow).arena 2 = true) :=
  ⟨Or.inl (by decide), c3_unreachable_only_in_all_variants progIfRetThrow 2 1
    (Or.inl (by decide))⟩

/-! ## Predecessor-list preservation lemmas for the arena operations -/

theorem length_addLoopArena (A : List SegData) (f t : Nat) :
    (addLoopArena A f t).length = A.length := by
  rw [addLoopArena_eq, List.length_set, length_addFwdEdge]

theorem prevParts_pushSeg (A : List SegData) (r : Bool) (ps : List Nat) (i : Nat)
    (h : i < A.length) :
    (getSeg (pushSeg A r ps) i).prevSegments = (getSeg A i).prevSegments ∧
    (getSeg (pushSeg A r ps) i).allPrevSegments = (getSeg A i).allPrevSegments := by
  rw [pushSeg, getSeg_append_lt _ _ i (by rw [length_addFwdEdges]; exact h)]
  exact prevParts_addFwdEdges A A.length r ps A i

theorem prevParts_addLoopArena_ne (A : List SegData) (f t i : Nat) (h : i ≠ t) :
    (getSeg (addLoopArena A f t) i).prevSegments = (getSeg A i).prevSegments ∧
    (getSeg (addLoopArena A f t) i).allPrevSegments = (getSeg A i).allPrevSegments := by
  rw [addLoopArena_eq, getSeg_set_ne _ t i _ h]
  exact prevParts_addFwdEdge A f t _ i

/-! ## Structural lemmas for the step relation -/

theorem c4step_refl (d : Option Nat) (b : Build) : C4Step d b b :=
  ⟨rfl, le_refl _,
    ⟨[], (List.append_nil _).symm, fun r hr => absurd hr (List.not_mem_nil r)⟩,
    fun _ _ _ => ⟨rfl, rfl⟩⟩

theorem C4Step.mono {d : Option Nat} {b b' : Build} (h : C4Step none b b') :
    C4Step d b b' :=
  ⟨h.1, h.2.1, h.2.2.1, fun i hi _ => h.2.2.2 i hi (fun dv hdv => nomatch hdv)⟩

theorem C4Step.trans {d d2 : Option Nat} {b b' b'' : Build}
    (h1 : C4Step d b b') (h2 : C4Step d2 b' b'')
    (hd : ∀ dv, d2 = some dv → d = some dv ∨ b.arena.length ≤ dv) :
    C4Step d b b'' := by
  obtain ⟨e1, e2, ⟨rs1, hrs1, hf1⟩, e4⟩ := h1
  obtain ⟨g1, g2, ⟨rs2, hrs2, hf2⟩, g4⟩ := h2
  refine ⟨g1.trans e1, le_trans e2 g2, ⟨rs1 ++ rs2, ?_, ?_⟩, ?_⟩
  · rw [hrs2, hrs1, List.append_assoc]
  · intro r hr
    rcases List.mem_append.1 hr with hr | hr
    · exact hf1 r hr
    · exact le_trans e2 (hf2 r hr)
  · intro i hi hdv
    have hdv2 : ∀ dv, d2 = some dv → i ≠ dv := by
      intro dv h2dv
      rcases hd dv h2dv with hcase | hcase
      · exact hdv dv hcase
      · omega
    have p1 := e4 i hi hdv
    have p2 := g4 i (lt_of_lt_of_le hi e2) hdv2
    exact ⟨p2.1.trans p1.1, p2.2.trans p1.2⟩

theorem C4Step.ofFresh {d : Option Nat} {t : Nat} {b b' : Build}
    (h : C4Step (some t) b b') (ht : b.arena.length ≤ t) : C4Step d b b' :=
  ⟨h.1, h.2.1, h.2.2.1, fun i hi _ => h.2.2.2 i hi (fun dv hdv => by
    injection hdv with h9
    omega)⟩

/-! ## The step relation for each builder operation -/

theorem c4step_flushP (n : NodeRef) (b : Build) : C4Step none b (flushP n b) :=
  ⟨(samePath_flushP n b).2.2.2, le_of_eq (by rw [arena_flushP]),
    ⟨[], by rw [done_flushP, List.append_nil],
      fun r hr => absurd hr (List.not_mem_nil r)⟩,
    fun i _ _ => by rw [arena_flushP]; exact ⟨rfl, rfl⟩⟩

theorem c4step_emit (e : Event) (b : Build) : C4Step none b (emit e b) :=
  ⟨rfl, le_refl _,
    ⟨[], (List.append_nil _).symm, fun r hr => absurd hr (List.not_mem_nil r)⟩,
    fun _ _ _ => ⟨rfl, rfl⟩⟩

theorem c4step_setReturned (l : List Nat) (b : Build) :
    C4Step none b { b with returned := l } :=
  ⟨rfl, le_refl _,
    ⟨[], (List.append_nil _).symm, fun r hr => absurd hr (List.not_mem_nil r)⟩,
    fun _ _ _ => ⟨rfl, rfl⟩⟩

theorem c4step_setThrown (l : List Nat) (b : Build) :
    C4Step none b { b with thrown := l } :=
  ⟨rfl, le_refl _,
    ⟨[], (List.append_nil _).symm, fun r hr => absurd hr (List.not_mem_nil r)⟩,
    fun _ _ _ => ⟨rfl, rfl⟩⟩

theorem c4step_setBroken (l : List Nat) (b : Build) :
    C4Step none b { b with broken := l } :=
  ⟨rfl, le_refl _,
    ⟨[], (List.append_nil _).symm, fun r hr => absurd hr (List.not_mem_nil r)⟩,
    fun _ _ _ => ⟨rfl, rfl⟩⟩

theorem c4step_newCur (rb : Bool) (p : List Nat) (n : NodeRef) (b : Build) :
    C4Step none b (newCur rb p n b) := by
  refine ⟨(samePath_newCur rb p n b).2.2.2, ?_,
    ⟨[], by rw [done_newCur, List.append_nil],
      fun rc hrc => absurd hrc (List.not_mem_nil rc)⟩, ?_⟩
  · rw [arena_newCur, length_pushSeg]
    exact Nat.le_succ _
  · intro i hi _
    rw [arena_newCur]
    exact prevParts_pushSeg b.arena rb p i hi

theorem c4step_connectLoop (f t : Nat) (n : NodeRef) (b : Build) :
    C4Step (some t) b (connectLoop f t n b) := by
  refine ⟨(samePath_connectLoop f t n b).2.2.2,
    le_of_eq (by rw [arena_connectLoop, length_addLoopArena]),
    ⟨[], by rw [done_connectLoop, List.append_nil],
      fun rc hrc => absurd hrc (List.not_mem_nil rc)⟩, ?_⟩
  intro i _ hdv
  rw [arena_connectLoop]
  exact prevParts_addLoopArena_ne b.arena f t i (hdv t rfl)

theorem c4step_afterLoop (hr : Bool) (hp : List Nat) (n : NodeRef) (sv : List Nat)
    (b : Build) : C4Step none b (afterLoop hr hp n sv b) := by
  refine ⟨(samePath_afterLoop hr hp n sv b).2.2.2, ?_,
    ⟨[], by rw [done_afterLoop, List.append_nil],
      fun rc hrc => absurd hrc (List.not_mem_nil rc)⟩, ?_⟩
  · rw [arena_afterLoop, length_pushSeg]
    exact Nat.le_succ _
  · intro i hi _
    rw [arena_afterLoop]
    exact prevParts_pushSeg b.arena _ _ i hi

/-! ## Preservation of the initial-segment invariant by each operation -/

theorem initPrevInv_flushP (n : NodeRef) (b : Build) (h : InitPrevInv b) :
    InitPrevInv (flushP n b) := by
  have hi := (samePath_flushP n b).2.2.2
  simp only [InitPrevInv, arena_flushP, done_flushP, hi]
  exact h

theorem initPrevInv_emit (e : Event) (b : Build) (h : InitPrevInv b) :
    InitPrevInv (emit e b) := h

theorem initPrevInv_setReturned (l : List Nat) (b : Build) (h : InitPrevInv b) :
    InitPrevInv { b with returned := l } := h

theorem initPrevInv_setThrown (l : List Nat) (b : Build) (h : InitPrevInv b) :
    InitPrevInv { b with thrown := l } := h

theorem initPrevInv_setBroken (l : List Nat) (b : Build) (h : InitPrevInv b) :
    InitPrevInv { b with broken := l } := h

theorem initPrevInv_newCur (rb : Bool) (p : List Nat) (n : NodeRef) (b : Build)
    (h : InitPrevInv b) : InitPrevInv (newCur rb p n b) := by
  obtain ⟨h1, h2, h3, h4⟩ := h
  have hi := (samePath_newCur rb p n b).2.2.2
  have hd := done_newCur rb p n b
  simp only [InitPrevInv, arena_newCur, hd, hi, length_pushSeg]
  refine ⟨Nat.lt_succ_of_lt h1, ?_, ?_, ?_⟩
  · rw [(prevParts_pushSeg b.arena rb p b.initialSeg h1).1]
    exact h2
  · rw [(prevParts_pushSeg b.arena rb p b.initialSeg h1).2]
    exact h3
  · intro rc hrc
    obtain ⟨g1, g2, g3⟩ := h4 rc hrc
    refine ⟨Nat.lt_succ_of_lt g1, ?_, ?_⟩
    · rw [(prevParts_pushSeg b.arena rb p rc.initialSegment g1).1]
      exact g2
    · rw [(prevParts_pushSeg b.arena rb p rc.initialSegment g1).2]
      exact g3

theorem initPrevInv_connectLoop (f t : Nat) (n : NodeRef) (b : Build)
    (h : InitPrevInv b) (h1 : t ≠ b.initialSeg)
    (h2 : ∀ r ∈ b.done, t ≠ r.initialSegment) :
    InitPrevInv (connectLoop f t n b) := by
  obtain ⟨g1, g2, g3, g4⟩ := h
  have hi := (samePath_connectLoop f t n b).2.2.2
  simp only [InitPrevInv, arena_connectLoop, done_connectLoop, hi,
    length_addLoopArena]
  refine ⟨g1, ?_, ?_, ?_⟩
  · rw [(prevParts_addLoopArena_ne b.arena f t b.initialSeg (Ne.symm h1)).1]
    exact g2
  · rw [(prevParts_addLoopArena_ne b.arena f t b.initialSeg (Ne.symm h1)).2]
    exact g3
  · intro rc hrc
    obtain ⟨e1, e2, e3⟩ := g4 rc hrc
    refine ⟨e1, ?_, ?_⟩
    · rw [(prevParts_addLoopArena_ne b.arena f t rc.initialSegment
        (Ne.symm (h2 rc hrc))).1]
      exact e2
    · rw [(prevParts_addLoopArena_ne b.arena f t rc.initialSegment
        (Ne.symm (h2 rc hrc))).2]
      exact e3

theorem initPrevInv_afterLoop (hr : Bool) (hp : List Nat) (n : NodeRef)
    (sv : List Nat) (b : Build) (h : InitPrevInv b) :
    InitPrevInv (afterLoop hr hp n sv b) :=
  initPrevInv_newCur _ _ _ _ (initPrevInv_setBroken sv b h)

theorem DestOk.step {d d2 : Option Nat} {b b' : Build} (hD : DestOk d b)
    (st : C4Step d2 b b') : DestOk d b' := by
  intro dv hdv
  obtain ⟨e1, e2, e3⟩ := hD dv hdv
  obtain ⟨rs, hrs, hf⟩ := st.2.2.1
  refine ⟨lt_of_lt_of_le e1 st.2.1, ?_, ?_⟩
  · rw [st.1]
    exact e2
  · intro r hr
    rw [hrs] at hr
    rcases List.mem_append.1 hr with hr | hr
    · exact e3 r hr
    · have := hf r hr
      omega

theorem cur_newCur (rb : Bool) (p : List Nat) (n : NodeRef) (b : Build) :
    (newCur rb p n b).cur = b.arena.length := by
  simp only [newCur]
  split <;> simp [emit, arena_flushP]

/-- The common tail of every loop construct: process the body with the loop
head "dest" as continue destination, close the loop back edge into "dest",
and move to the after-loop segment.  Both the initial-segment invariant and
the step relation survive, because "dest" is fresh relative to the state
before the loop. -/
theorem c4_loopTail (d : Option Nat) (b bE : Build) (dest : Nat)
    (a' : List Nat) (body : Stmt) (n : NodeRef)
    (hb : InitPrevInv b)
    (hE : InitPrevInv bE)
    (stE : C4Step (some dest) b bE)
    (hd1 : b.arena.length ≤ dest)
    (hd2 : dest < bE.arena.length)
    (hdE : bE.done = b.done)
    (hih : ∀ b0 : Build, InitPrevInv b0 → DestOk (some dest) b0 →
      InitPrevInv (processStmt a' (some dest) body b0) ∧
      C4Step (some dest) b0 (processStmt a' (some dest) body b0))
    (hr : Bool) (hp sv : List Nat) :
    InitPrevInv (afterLoop hr hp n sv
      (connectLoop (processStmt a' (some dest) body bE).cur dest n
        (flushP n (processStmt a' (some dest) body bE)))) ∧
    C4Step d b (afterLoop hr hp n sv
      (connectLoop (processStmt a' (some dest) body bE).cur dest n
        (flushP n (processStmt a' (some dest) body bE)))) := by
  have hDE : DestOk (some dest) bE := by
    intro dv hdv
    injection hdv with h9
    subst h9
    refine ⟨hd2, ?_, ?_⟩
    · have e := stE.1
      have := hb.1
      omega
    · intro r hrr
      rw [hdE] at hrr
      have := (hb.2.2.2 r hrr).1
      omega
  obtain ⟨h5, st5⟩ := hih bE hE hDE
  have h6 : InitPrevInv (flushP n (processStmt a' (some dest) body bE)) :=
    initPrevInv_flushP _ _ h5
  have h7 : InitPrevInv (connectLoop (processStmt a' (some dest) body bE).cur dest n
      (flushP n (processStmt a' (some dest) body bE))) := by
    refine initPrevInv_connectLoop _ _ _ _ h6 ?_ ?_
    · have e1 := (samePath_flushP n (processStmt a' (some dest) body bE)).2.2.2
      have e2 := st5.1
      have e3 := stE.1
      have := hb.1
      omega
    · intro r hrr
      rw [done_flushP] at hrr
      obtain ⟨rs, hrs, hf⟩ := st5.2.2.1
      rw [hrs, hdE] at hrr
      rcases List.mem_append.1 hrr with h2 | h2
      · have := (hb.2.2.2 r h2).1
        omega
      · have := hf r h2
        omega
  constructor
  · exact initPrevInv_afterLoop _ _ _ _ _ h7
  · refine C4Step.ofFresh ?_ hd1
    refine C4Step.trans ?_ (c4step_afterLoop _ _ _ _ _) (fun dv hdv => nomatch hdv)
    refine C4Step.trans ?_ (c4step_connectLoop _ _ _ _) (fun dv hdv => Or.inl hdv)
    refine C4Step.trans ?_ (c4step_flushP _ _) (fun dv hdv => nomatch hdv)
    exact stE.trans st5 (fun dv hdv => Or.inl hdv)

/-- Modelled from the spec (§3, §4): processing any statement preserves the
initial-segment invariant, and only ever changes the builder within the
bounds of the step relation, provided the continue destination is a loop
head distinct from every initial segment. -/
theorem initPrev_processStmt (t : Stmt) :
    ∀ (a : List Nat) (d : Option Nat) (b : Build),
      InitPrevInv b → DestOk d b →
      InitPrevInv (processStmt a d t b) ∧ C4Step d b (processStmt a d t b) := by
  induction t with
  | skip =>
    intro a d b h hD
    simp only [processStmt]
    exact ⟨h, c4step_refl d b⟩
  | seq s1 s2 ih1 ih2 =>
    intro a d b h hD
    simp only [processStmt]
    obtain ⟨h1, st1⟩ := ih1 (a ++ [0]) d b h hD
    obtain ⟨h2, st2⟩ := ih2 (a ++ [1]) d _ h1 (hD.step st1)
    exact ⟨h2, st1.trans st2 (fun dv hdv => Or.inl hdv)⟩
  | expr =>
    intro a d b h hD
    simp only [processStmt]
    exact ⟨initPrevInv_flushP _ _ h, C4Step.mono (c4step_flushP _ _)⟩
  | ret =>
    intro a d b h hD
    simp only [processStmt]
    have h1 := initPrevInv_flushP (NodeRef.stmtN a) b h
    have st1n := c4step_flushP (NodeRef.stmtN a) b
    generalize hB1 : flushP (NodeRef.stmtN a) b = b1 at h1 st1n ⊢
    split
    · exact ⟨initPrevInv_newCur _ _ _ _ (initPrevInv_setReturned _ _ h1),
        C4Step.mono ((st1n.trans (c4step_setReturned (b1.returned ++ [b1.cur]) b1)
          (fun dv hdv => nomatch hdv)).trans (c4step_newCur _ _ _ _)
          (fun dv hdv => nomatch hdv))⟩
    · exact ⟨h1, C4Step.mono st1n⟩
  | thrw =>
    intro a d b h hD
    simp only [processStmt]
    have h1 := initPrevInv_flushP (NodeRef.stmtN a) b h
    have st1n := c4step_flushP (NodeRef.stmtN a) b
    generalize hB1 : flushP (NodeRef.stmtN a) b = b1 at h1 st1n ⊢
    split
    · exact ⟨initPrevInv_newCur _ _ _ _ (initPrevInv_setThrown _ _ h1),
        C4Step.mono ((st1n.trans (c4step_setThrown (b1.thrown ++ [b1.cur]) b1)
          (fun dv hdv => nomatch hdv)).trans (c4step_newCur _ _ _ _)
          (fun dv hdv => nomatch hdv))⟩
    · exact ⟨h1, C4Step.mono st1n⟩
  | brk =>
    intro a d b h hD
    rcases d with _ | dv
    · simp only [processStmt]
      have h1 := initPrevInv_flushP (NodeRef.stmtN a) b h
      have st1n := c4step_flushP (NodeRef.stmtN a) b
      generalize hB1 : flushP (NodeRef.stmtN a) b = b1 at h1 st1n ⊢
      split
      · exact ⟨initPrevInv_newCur _ _ _ _ (initPrevInv_setReturned _ _ h1),
          C4Step.mono ((st1n.trans (c4step_setReturned (b1.returned ++ [b1.cur]) b1)
            (fun dv hdv => nomatch hdv)).trans (c4step_newCur _ _ _ _)
            (fun dv hdv => nomatch hdv))⟩
      · exact ⟨h1, C4Step.mono st1n⟩
    · simp only [processStmt]
      have h1 := initPrevInv_flushP (NodeRef.stmtN a) b h
      have st1n := c4step_flushP (NodeRef.stmtN a) b
      generalize hB1 : flushP (NodeRef.stmtN a) b = b1 at h1 st1n ⊢
      split
      · exact ⟨initPrevInv_newCur _ _ _ _ (initPrevInv_setBroken _ _ h1),
          C4Step.mono ((st1n.trans (c4step_setBroken (b1.broken ++ [b1.cur]) b1)
            (fun dw hdw => nomatch hdw)).trans (c4step_newCur _ _ _ _)
            (fun dw hdw => nomatch hdw))⟩
      · exact ⟨h1, C4Step.mono st1n⟩
  | cont =>
    intro a d b h hD
    rcases d with _ | dv
    · simp only [processStmt]
      have h1 := initPrevInv_flushP (NodeRef.stmtN a) b h
      have st1n := c4step_flushP (NodeRef.stmtN a) b
      generalize hB1 : flushP (NodeRef.stmtN a) b = b1 at h1 st1n ⊢
      split
      · exact ⟨initPrevInv_newCur _ _ _ _ (initPrevInv_setReturned _ _ h1),
          C4Step.mono ((st1n.trans (c4step_setReturned (b1.returned ++ [b1.cur]) b1)
            (fun dw hdw => nomatch hdw)).trans (c4step_newCur _ _ _ _)
            (fun dw hdw => nomatch hdw))⟩
      · exact ⟨h1, C4Step.mono st1n⟩
    · simp only [processStmt]
      have h1 := initPrevInv_flushP (NodeRef.stmtN a) b h
      have st1n := c4step_flushP (NodeRef.stmtN a) b
      generalize hB1 : flushP (NodeRef.stmtN a) b = b1 at h1 st1n ⊢
      have hi1 : b1.initialSeg = b.initialSeg := st1n.1
      have hd1 : b1.done = b.done := by rw [← hB1, done_flushP]
      split
      · constructor
        · refine initPrevInv_newCur _ _ _ _ ?_
          refine initPrevInv_connectLoop _ _ _ _ h1 ?_ ?_
          · rw [hi1]
            exact (hD dv rfl).2.1
          · intro r hrr
            rw [hd1] at hrr
            exact (hD dv rfl).2.2 r hrr
        · refine C4Step.trans ?_ (c4step_newCur _ _ _ _) (fun dw hdw => nomatch hdw)
          refine C4Step.trans ?_ (c4step_connectLoop _ _ _ _) (fun dw hdw => Or.inl hdw)
          exact C4Step.mono st1n
      · exact ⟨h1, C4Step.mono st1n⟩
  | ifS thenS elseS ih1 ih2 =>
    intro a d b h hD
    simp only [processStmt]
    have h1 := initPrevInv_flushP (NodeRef.stmtN a) b h
    have st1n := c4step_flushP (NodeRef.stmtN a) b
    generalize hB1 : flushP (NodeRef.stmtN a) b = b1 at h1 st1n ⊢
    have h2 := initPrevInv_newCur (reachOf b1.arena b1.cur) [b1.cur] (NodeRef.stmtN a) b1 h1
    have st2n := st1n.trans (c4step_newCur (reachOf b1.arena b1.cur) [b1.cur]
      (NodeRef.stmtN a) b1) (fun dv hdv => nomatch hdv)
    generalize hB2 : newCur (reachOf b1.arena b1.cur) [b1.cur] (NodeRef.stmtN a) b1 = b2
      at h2 st2n ⊢
    obtain ⟨h3, st3x⟩ := ih1 (a ++ [0]) d b2 h2 (hD.step st2n)
    have st3 := (@C4Step.mono d _ _ st2n).trans st3x (fun dv hdv => Or.inl hdv)
    generalize hB3 : processStmt (a ++ [0]) d thenS b2 = b3 at h3 st3 ⊢
    have h4 := initPrevInv_newCur (reachOf b1.arena b1.cur) [b1.cur] (NodeRef.stmtN a) b3 h3
    have st4 := st3.trans (c4step_newCur (reachOf b1.arena b1.cur) [b1.cur]
      (NodeRef.stmtN a) b3) (fun dv hdv => nomatch hdv)
    generalize hB4 : newCur (reachOf b1.arena b1.cur) [b1.cur] (NodeRef.stmtN a) b3 = b4
      at h4 st4 ⊢
    obtain ⟨h5, st5x⟩ := ih2 (a ++ [1]) d b4 h4 (hD.step st4)
    have st5 := st4.trans st5x (fun dv hdv => Or.inl hdv)
    generalize hB5 : processStmt (a ++ [1]) d elseS b4 = b5 at h5 st5 ⊢
    exact ⟨initPrevInv_newCur _ _ _ _ h5,
      st5.trans (c4step_newCur _ _ _ _) (fun dv hdv => nomatch hdv)⟩
  | funcDecl body ih =>
    intro a d b h hD
    simp only [processStmt]
    have h1 := initPrevInv_flushP (NodeRef.stmtN a) b h
    have st1n := c4step_flushP (NodeRef.stmtN a) b
    generalize hB1 : flushP (NodeRef.stmtN a) b = b1 at h1 st1n ⊢
    have h2 := initPrevInv_emit (Event.pathStart b1.pathCount (NodeRef.stmtN a)) b1 h1
    have st2n := st1n.trans (c4step_emit (Event.pathStart b1.pathCount (NodeRef.stmtN a)) b1)
      (fun dv hdv => nomatch hdv)
    generalize hB2 : emit (Event.pathStart b1.pathCount (NodeRef.stmtN a)) b1 = b2
      at h2 st2n ⊢
    obtain ⟨bI, hBI⟩ : ∃ bI : Build, ({
        arena := pushSeg b2.arena true [],
        trace := b2.trace ++ [Event.segStart b2.arena.length (NodeRef.stmtN a)],
        done := b2.done, pathCount := b2.pathCount + 1,
        pid := b2.pathCount, upperId := some b1.pid, pnode := NodeRef.stmtN a,
        initialSeg := b2.arena.length, cur := b2.arena.length, pending := false,
        returned := [], thrown := [], owned := [b2.arena.length], children := [],
        broken := [] } : Build) = bI := ⟨_, rfl⟩
    rw [hBI]
    have haI : bI.arena = pushSeg b2.arena true [] := by rw [← hBI]
    have hdI : bI.done = b2.done := by rw [← hBI]
    have hiI : bI.initialSeg = b2.arena.length := by rw [← hBI]
    have hinner : InitPrevInv bI := by
      rw [← hBI]
      obtain ⟨g1, g2, g3, g4⟩ := h2
      simp only [InitPrevInv, length_pushSeg]
      refine ⟨by omega, ?_, ?_, ?_⟩
      · simp [getSeg_pushSeg_len]
      · simp [getSeg_pushSeg_len]
      · intro r hrr
        obtain ⟨e1, e2, e3⟩ := g4 r hrr
        refine ⟨by omega, ?_, ?_⟩
        · rw [(prevParts_pushSeg b2.arena true [] r.initialSegment e1).1]
          exact e2
        · rw [(prevParts_pushSeg b2.arena true [] r.initialSegment e1).2]
          exact e3
    obtain ⟨h3, st3x⟩ := ih (a ++ [0]) none bI hinner (fun dv hdv => nomatch hdv)
    generalize hB3 : processStmt (a ++ [0]) none body bI = bX at h3 st3x ⊢
    have hfa : (finalizePath bX).arena = bX.arena := arena_finalizePath bX
    have hfd : (finalizePath bX).done = bX.done ++ [finishRec bX] := done_finalizePath bX
    have hfi : (finishRec bX).initialSegment = bX.initialSeg := (finishRec_ids bX).2.2.2
    generalize hB4 : finalizePath bX = bf at hfa hfd ⊢
    have hlen2 : b.arena.length ≤ b2.arena.length := st2n.2.1
    have hlenI : bI.arena.length = b2.arena.length + 1 := by rw [haI, length_pushSeg]
    have hlenX : bI.arena.length ≤ bX.arena.length := st3x.2.1
    constructor
    · simp only [InitPrevInv]
      obtain ⟨q1, q2, q3, q4⟩ := h3
      have e1 : b1.initialSeg = b.initialSeg := st1n.1
      have hib : b.initialSeg < b.arena.length := h.1
      refine ⟨?_, ?_, ?_, ?_⟩
      · rw [hfa, e1]
        omega
      · rw [hfa, e1]
        have p2 := st2n.2.2.2 b.initialSeg hib (fun dv hdv => nomatch hdv)
        have p3 := st3x.2.2.2 b.initialSeg (by omega) (fun dv hdv => nomatch hdv)
        rw [p3.1, haI, (prevParts_pushSeg b2.arena true [] b.initialSeg (by omega)).1, p2.1]
        exact h.2.1
      · rw [hfa, e1]
        have p2 := st2n.2.2.2 b.initialSeg hib (fun dv hdv => nomatch hdv)
        have p3 := st3x.2.2.2 b.initialSeg (by omega) (fun dv hdv => nomatch hdv)
        rw [p3.2, haI, (prevParts_pushSeg b2.arena true [] b.initialSeg (by omega)).2, p2.2]
        exact h.2.2.1
      · intro r hrr
        rw [hfd] at hrr
        rcases List.mem_append.1 hrr with hrr | hrr
        · obtain ⟨e2, e3, e4⟩ := q4 r hrr
          exact ⟨by rw [hfa]; exact e2, by rw [hfa]; exact e3, by rw [hfa]; exact e4⟩
        · rw [List.mem_singleton] at hrr
          subst hrr
          rw [hfi]
          exact ⟨by rw [hfa]; exact q1, by rw [hfa]; exact q2, by rw [hfa]; exact q3⟩
    · have e1 : b1.initialSeg = b.initialSeg := st1n.1
      obtain ⟨rs0, hrs0, hf0⟩ := st2n.2.2.1
      obtain ⟨rsx, hrsx, hfx⟩ := st3x.2.2.1
      refine ⟨e1, ?_, ?_, ?_⟩
      · show b.arena.length ≤ bf.arena.length
        rw [hfa]
        omega
      · show ∃ rs, bf.done = b.done ++ rs ∧ ∀ r ∈ rs, b.arena.length ≤ r.initialSegment
        refine ⟨rs0 ++ (rsx ++ [finishRec bX]), ?_, ?_⟩
        · rw [hfd, hrsx, hdI, hrs0]
          simp [List.append_assoc]
        · intro r hrr
          rcases List.mem_append.1 hrr with hrr | hrr
          · exact hf0 r hrr
          · rcases List.mem_append.1 hrr with hrr | hrr
            · have := hfx r hrr
              omega
            · rw [List.mem_singleton] at hrr
              subst hrr
              rw [hfi, st3x.1, hiI]
              omega
      · intro i hi hdv
        show (getSeg bf.arena i).prevSegments = (getSeg b.arena i).prevSegments ∧
          (getSeg bf.arena i).allPrevSegments = (getSeg b.arena i).allPrevSegments
        have p2 := st2n.2.2.2 i hi (fun dv hdv2 => nomatch hdv2)
        have p3 := st3x.2.2.2 i (by omega) (fun dv hdv2 => nomatch hdv2)
        rw [hfa]
        constructor
        · rw [p3.1, haI, (prevParts_pushSeg b2.arena true [] i (by omega)).1, p2.1]
        · rw [p3.2, haI, (prevParts_pushSeg b2.arena true [] i (by omega)).2, p2.2]
  | whileS body ih =>
    intro a d b h hD
    simp only [processStmt]
    have h1 := initPrevInv_flushP (NodeRef.stmtN a) b h
    have st1n := c4step_flushP (NodeRef.stmtN a) b
    generalize hB1 : flushP (NodeRef.stmtN a) b = b1 at h1 st1n ⊢
    have hl1 : b1.arena.length = b.arena.length := by rw [← hB1, arena_flushP]
    have hd1 : b1.done = b.done := by rw [← hB1, done_flushP]
    have h2 := initPrevInv_newCur (reachOf b1.arena b1.cur) [b1.cur] (NodeRef.stmtN a) b1 h1
    have st2n := st1n.trans (c4step_newCur (reachOf b1.arena b1.cur) [b1.cur]
      (NodeRef.stmtN a) b1) (fun dv hdv => nomatch hdv)
    generalize hB2 : newCur (reachOf b1.arena b1.cur) [b1.cur] (NodeRef.stmtN a) b1 = b2
      at h2 st2n ⊢
    have hl2 : b2.arena.length = b1.arena.length + 1 := by
      rw [← hB2, arena_newCur, length_pushSeg]
    have hc2 : b2.cur = b1.arena.length := by rw [← hB2, cur_newCur]
    have hd2 : b2.done = b1.done := by rw [← hB2, done_newCur]
    have h3 := initPrevInv_newCur (reachOf b1.arena b1.cur) [b2.cur] (NodeRef.childN a) b2 h2
    have st3n := st2n.trans (c4step_newCur (reachOf b1.arena b1.cur) [b2.cur]
      (NodeRef.childN a) b2) (fun dv hdv => nomatch hdv)
    generalize hB3 : newCur (reachOf b1.arena b1.cur) [b2.cur] (NodeRef.childN a) b2 = b3
      at h3 st3n ⊢
    have hl3 : b3.arena.length = b2.arena.length + 1 := by
      rw [← hB3, arena_newCur, length_pushSeg]
    have hd3 : b3.done = b2.done := by rw [← hB3, done_newCur]
    refine c4_loopTail d b { b3 with broken := [] } b2.cur (a ++ [0]) body
      (NodeRef.stmtN a) h (initPrevInv_setBroken [] b3 h3)
      (C4Step.mono (st3n.trans (c4step_setBroken [] b3) (fun dv hdv => nomatch hdv)))
      (by omega) (by show b2.cur < b3.arena.length; omega)
      (by show b3.done = b.done; rw [hd3, hd2, hd1])
      (fun b0 => ih (a ++ [0]) (some b2.cur) b0) _ _ _
  | forS hTest hUpd body ih =>
    intro a d b h hD
    cases hTest <;> cases hUpd
    · -- no test clause, no update clause
      simp only [processStmt, Bool.false_eq_true, eq_self_iff_true, if_false, if_true,
        Bool.false_and]
      have h1 := initPrevInv_flushP (NodeRef.stmtN a) b h
      have st1n := c4step_flushP (NodeRef.stmtN a) b
      generalize hB1 : flushP (NodeRef.stmtN a) b = b1 at h1 st1n ⊢
      have hl1 : b1.arena.length = b.arena.length := by rw [← hB1, arena_flushP]
      have hd1 : b1.done = b.done := by rw [← hB1, done_flushP]
      have h2 := initPrevInv_newCur (reachOf b1.arena b1.cur) [b1.cur] (NodeRef.childN a) b1 h1
      have st2n := st1n.trans (c4step_newCur (reachOf b1.arena b1.cur) [b1.cur]
        (NodeRef.childN a) b1) (fun dv hdv => nomatch hdv)
      generalize hB2 : newCur (reachOf b1.arena b1.cur) [b1.cur] (NodeRef.childN a) b1 = b2
        at h2 st2n ⊢
      have hl2 : b2.arena.length = b1.arena.length + 1 := by
        rw [← hB2, arena_newCur, length_pushSeg]
      have hc2 : b2.cur = b1.arena.length := by rw [← hB2, cur_newCur]
      have hd2 : b2.done = b1.done := by rw [← hB2, done_newCur]
      refine c4_loopTail d b { b2 with broken := [] } b2.cur (a ++ [0]) body
        (NodeRef.stmtN a) h (initPrevInv_setBroken [] b2 h2)
        (C4Step.mono (st2n.trans (c4step_setBroken [] b2) (fun dv hdv => nomatch hdv)))
        (by omega) (by show b2.cur < b2.arena.length; omega)
        (by show b2.done = b.done; rw [hd2, hd1])
        (fun b0 => ih (a ++ [0]) (some b2.cur) b0) _ _ _
    · -- no test clause, update clause present
      simp only [processStmt, Bool.false_eq_true, eq_self_iff_true, if_false, if_true,
        Bool.false_and]
      have h1 := initPrevInv_flushP (NodeRef.stmtN a) b h
      have st1n := c4step_flushP (NodeRef.stmtN a) b
      generalize hB1 : flushP (NodeRef.stmtN a) b = b1 at h1 st1n ⊢
      have hl1 : b1.arena.length = b.arena.length := by rw [← hB1, arena_flushP]
      have hd1 : b1.done = b.done := by rw [← hB1, done_flushP]
      have h2 := initPrevInv_newCur (reachOf b1.arena b1.cur) [] (NodeRef.childN a) b1 h1
      have st2n := st1n.trans (c4step_newCur (reachOf b1.arena b1.cur) []
        (NodeRef.childN a) b1) (fun dv hdv => nomatch hdv)
      generalize hB2 : newCur (reachOf b1.arena b1.cur) [] (NodeRef.childN a) b1 = b2
        at h2 st2n ⊢
      have hl2 : b2.arena.length = b1.arena.length + 1 := by
        rw [← hB2, arena_newCur, length_pushSeg]
      have hc2 : b2.cur = b1.arena.length := by rw [← hB2, cur_newCur]
      have hd2 : b2.done = b1.done := by rw [← hB2, done_newCur]
      have h3 := initPrevInv_newCur (reachOf b1.arena b1.cur) [b1.cur] (NodeRef.childN a) b2 h2
      have st3n := st2n.trans (c4step_newCur (reachOf b1.arena b1.cur) [b1.cur]
        (NodeRef.childN a) b2) (fun dv hdv => nomatch hdv)
      generalize hB3 : newCur (reachOf b1.arena b1.cur) [b1.cur] (NodeRef.childN a) b2 = b3
        at h3 st3n ⊢
      have hl3 : b3.arena.length = b2.arena.length + 1 := by
        rw [← hB3, arena_newCur, length_pushSeg]
      have hc3 : b3.cur = b2.arena.length := by rw [← hB3, cur_newCur]
      have hd3 : b3.done = b2.done := by rw [← hB3, done_newCur]
      have h4 : InitPrevInv (connectLoop b2.cur b3.cur (NodeRef.childN a) b3) := by
        refine initPrevInv_connectLoop _ _ _ _ h3 ?_ ?_
        · have e := st3n.1
          have := h.1
          omega
        · intro r hrr
          rw [hd3, hd2, hd1] at hrr
          have := (h.2.2.2 r hrr).1
          omega
      have st4n := st3n.trans (c4step_connectLoop b2.cur b3.cur (NodeRef.childN a) b3)
        (fun dv hdv => Or.inr (by injection hdv with h9; omega))
      generalize hB4 : connectLoop b2.cur b3.cur (NodeRef.childN a) b3 = b4 at h4 st4n ⊢
      have hl4 : b4.arena.length = b3.arena.length := by
        rw [← hB4, arena_connectLoop, length_addLoopArena]
      have hd4 : b4.done = b3.done := by rw [← hB4, done_connectLoop]
      refine c4_loopTail d b { b4 with broken := [] } b2.cur (a ++ [0]) body
        (NodeRef.stmtN a) h (initPrevInv_setBroken [] b4 h4)
        (C4Step.mono (st4n.trans (c4step_setBroken [] b4) (fun dv hdv => nomatch hdv)))
        (by omega) (by show b2.cur < b4.arena.length; omega)
        (by show b4.done = b.done; rw [hd4, hd3, hd2, hd1])
        (fun b0 => ih (a ++ [0]) (some b2.cur) b0) _ _ _
    · -- test clause present, no update clause
      simp only [processStmt, Bool.false_eq_true, eq_self_iff_true, if_false, if_true,
        Bool.true_and]
      have h1 := initPrevInv_flushP (NodeRef.stmtN a) b h
      have st1n := c4step_flushP (NodeRef.stmtN a) b
      generalize hB1 : flushP (NodeRef.stmtN a) b = b1 at h1 st1n ⊢
      have hl1 : b1.arena.length = b.arena.length := by rw [← hB1, arena_flushP]
      have hd1 : b1.done = b.done := by rw [← hB1, done_flushP]
      have h2 := initPrevInv_newCur (reachOf b1.arena b1.cur) [b1.cur] (NodeRef.childN a) b1 h1
      have st2n := st1n.trans (c4step_newCur (reachOf b1.arena b1.cur) [b1.cur]
        (NodeRef.childN a) b1) (fun dv hdv => nomatch hdv)
      generalize hB2 : newCur (reachOf b1.arena b1.cur) [b1.cur] (NodeRef.childN a) b1 = b2
        at h2 st2n ⊢
      have hl2 : b2.arena.length = b1.arena.length + 1 := by
        rw [← hB2, arena_newCur, length_pushSeg]
      have hc2 : b2.cur = b1.arena.length := by rw [← hB2, cur_newCur]
      have hd2 : b2.done = b1.done := by rw [← hB2, done_newCur]
      have h3 := initPrevInv_newCur (reachOf b1.arena b1.cur) [b2.cur] (NodeRef.childN a) b2 h2
      have st3n := st2n.trans (c4step_newCur (reachOf b1.arena b1.cur) [b2.cur]
        (NodeRef.childN a) b2) (fun dv hdv => nomatch hdv)
      generalize hB3 : newCur (reachOf b1.arena b1.cur) [b2.cur] (NodeRef.childN a) b2 = b3
        at h3 st3n ⊢
      have hl3 : b3.arena.length = b2.arena.length + 1 := by
        rw [← hB3, arena_newCur, length_pushSeg]
      have hd3 : b3.done = b2.done := by rw [← hB3, done_newCur]
      refine c4_loopTail d b { b3 with broken := [] } b2.cur (a ++ [0]) body
        (NodeRef.stmtN a) h (initPrevInv_setBroken [] b3 h3)
        (C4Step.mono (st3n.trans (c4step_setBroken [] b3) (fun dv hdv => nomatch hdv)))
        (by omega) (by show b2.cur < b3.arena.length; omega)
        (by show b3.done = b.done; rw [hd3, hd2, hd1])
        (fun b0 => ih (a ++ [0]) (some b2.cur) b0) _ _ _
    · -- test clause and update clause both present
      simp only [processStmt, Bool.false_eq_true, eq_self_iff_true, if_false, if_true,
        Bool.true_and]
      have h1 := initPrevInv_flushP (NodeRef.stmtN a) b h
      have st1n := c4step_flushP (NodeRef.stmtN a) b
      generalize hB1 : flushP (NodeRef.stmtN a) b = b1 at h1 st1n ⊢
      have hl1 : b1.arena.length = b.arena.length := by rw [← hB1, arena_flushP]
      have hd1 : b1.done = b.done := by rw [← hB1, done_flushP]
      have h2 := initPrevInv_newCur (reachOf b1.arena b1.cur) [b1.cur] (NodeRef.childN a) b1 h1
      have st2n := st1n.trans (c4step_newCur (reachOf b1.arena b1.cur) [b1.cur]
        (NodeRef.childN a) b1) (fun dv hdv => nomatch hdv)
      generalize hB2 : newCur (reachOf b1.arena b1.cur) [b1.cur] (NodeRef.childN a) b1 = b2
        at h2 st2n ⊢
      have hl2 : b2.arena.length = b1.arena.length + 1 := by
        rw [← hB2, arena_newCur, length_pushSeg]
      have hc2 : b2.cur = b1.arena.length := by rw [← hB2, cur_newCur]
      have hd2 : b2.done = b1.done := by rw [← hB2, done_newCur]
      have h3 := initPrevInv_newCur (reachOf b1.arena b1.cur) [] (NodeRef.childN a) b2 h2
      have st3n := st2n.trans (c4step_newCur (reachOf b1.arena b1.cur) []
        (NodeRef.childN a) b2) (fun dv hdv => nomatch hdv)
      generalize hB3 : newCur (reachOf b1.arena b1.cur) [] (NodeRef.childN a) b2 = b3
        at h3 st3n ⊢
      have hl3 : b3.arena.length = b2.arena.length + 1 := by
        rw [← hB3, arena_newCur, length_pushSeg]
      have hc3 : b3.cur = b2.arena.length := by rw [← hB3, cur_newCur]
      have hd3 : b3.done = b2.done := by rw [← hB3, done_newCur]
      have h4 := initPrevInv_newCur (reachOf b1.arena b1.cur) [b2.cur] (NodeRef.childN a) b3 h3
      have st4n := st3n.trans (c4step_newCur (reachOf b1.arena b1.cur) [b2.cur]
        (NodeRef.childN a) b3) (fun dv hdv => nomatch hdv)
      generalize hB4 : newCur (reachOf b1.arena b1.cur) [b2.cur] (NodeRef.childN a) b3 = b4
        at h4 st4n ⊢
      have hl4 : b4.arena.length = b3.arena.length + 1 := by
        rw [← hB4, arena_newCur, length_pushSeg]
      have hd4 : b4.done = b3.done := by rw [← hB4, done_newCur]
      have h5 : InitPrevInv (connectLoop b3.cur b2.cur (NodeRef.childN a) b4) := by
        refine initPrevInv_connectLoop _ _ _ _ h4 ?_ ?_
        · have e := st4n.1
          have := h.1
          omega
        · intro r hrr
          rw [hd4, hd3, hd2, hd1] at hrr
          have := (h.2.2.2 r hrr).1
          omega
      have st5n := st4n.trans (c4step_connectLoop b3.cur b2.cur (NodeRef.childN a) b4)
        (fun dv hdv => Or.inr (by injection hdv with h9; omega))
      generalize hB5 : connectLoop b3.cur b2.cur (NodeRef.childN a) b4 = b5 at h5 st5n ⊢
      have hl5 : b5.arena.length = b4.arena.length := by
        rw [← hB5, arena_connectLoop, length_addLoopArena]
      have hd5 : b5.done = b4.done := by rw [← hB5, done_connectLoop]
      refine c4_loopTail d b { b5 with broken := [] } b3.cur (a ++ [0]) body
        (NodeRef.stmtN a) h (initPrevInv_setBroken [] b5 h5)
        (C4Step.mono (st5n.trans (c4step_setBroken [] b5) (fun dv hdv => nomatch hdv)))
        (by omega) (by show b3.cur < b5.arena.length; omega)
        (by show b5.done = b.done; rw [hd5, hd4, hd3, hd2, hd1])
        (fun b0 => ih (a ++ [0]) (some b3.cur) b0) _ _ _
  | forIn body ih =>
    intro a d b h hD
    simp only [processStmt]
    have h1 := initPrevInv_flushP (NodeRef.stmtN a) b h
    have st1n := c4step_flushP (NodeRef.stmtN a) b
    generalize hB1 : flushP (NodeRef.stmtN a) b = b1 at h1 st1n ⊢
    have hl1 : b1.arena.length = b.arena.length := by rw [← hB1, arena_flushP]
    have hd1 : b1.done = b.done := by rw [← hB1, done_flushP]
    have h2 := initPrevInv_newCur (reachOf b1.arena b1.cur) [] (NodeRef.childN a) b1 h1
    have st2n := st1n.trans (c4step_newCur (reachOf b1.arena b1.cur) []
      (NodeRef.childN a) b1) (fun dv hdv => nomatch hdv)
    generalize hB2 : newCur (reachOf b1.arena b1.cur) [] (NodeRef.childN a) b1 = b2
      at h2 st2n ⊢
    have hl2 : b2.arena.length = b1.arena.length + 1 := by
      rw [← hB2, arena_newCur, length_pushSeg]
    have hc2 : b2.cur = b1.arena.length := by rw [← hB2, cur_newCur]
    have hd2 : b2.done = b1.done := by rw [← hB2, done_newCur]
    have h3 := initPrevInv_newCur (reachOf b1.arena b1.cur) [b1.cur] (NodeRef.childN a) b2 h2
    have st3n := st2n.trans (c4step_newCur (reachOf b1.arena b1.cur) [b1.cur]
      (NodeRef.childN a) b2) (fun dv hdv => nomatch hdv)
    generalize hB3 : newCur (reachOf b1.arena b1.cur) [b1.cur] (NodeRef.childN a) b2 = b3
      at h3 st3n ⊢
    have hl3 : b3.arena.length = b2.arena.length + 1 := by
      rw [← hB3, arena_newCur, length_pushSeg]
    have hc3 : b3.cur = b2.arena.length := by rw [← hB3, cur_newCur]
    have hd3 : b3.done = b2.done := by rw [← hB3, done_newCur]
    have h4 : InitPrevInv (connectLoop b3.cur b2.cur (NodeRef.childN a) b3) := by
      refine initPrevInv_connectLoop _ _ _ _ h3 ?_ ?_
      · have e := st3n.1
        have := h.1
        omega
      · intro r hrr
        rw [hd3, hd2, hd1] at hrr
        have := (h.2.2.2 r hrr).1
        omega
    have st4n := st3n.trans (c4step_connectLoop b3.cur b2.cur (NodeRef.childN a) b3)
      (fun dv hdv => Or.inr (by injection hdv with h9; omega))
    generalize hB4 : connectLoop b3.cur b2.cur (NodeRef.childN a) b3 = b4 at h4 st4n ⊢
    have hl4 : b4.arena.length = b3.arena.length := by
      rw [← hB4, arena_connectLoop, length_addLoopArena]
    have hd4 : b4.done = b3.done := by rw [← hB4, done_connectLoop]
    have h5 := initPrevInv_newCur (reachOf b1.arena b1.cur) [b2.cur] (NodeRef.childN a) b4 h4
    have st5n := st4n.trans (c4step_newCur (reachOf b1.arena b1.cur) [b2.cur]
      (NodeRef.childN a) b4) (fun dv hdv => nomatch hdv)
    generalize hB5 : newCur (reachOf b1.arena b1.cur) [b2.cur] (NodeRef.childN a) b4 = b5
      at h5 st5n ⊢
    have hl5 : b5.arena.length = b4.arena.length + 1 := by
      rw [← hB5, arena_newCur, length_pushSeg]
    have hd5 : b5.done = b4.done := by rw [← hB5, done_newCur]
    refine c4_loopTail d b { b5 with broken := [] } b2.cur (a ++ [0]) body
      (NodeRef.stmtN a) h (initPrevInv_setBroken [] b5 h5)
      (C4Step.mono (st5n.trans (c4step_setBroken [] b5) (fun dv hdv => nomatch hdv)))
      (by omega) (by show b2.cur < b5.arena.length; omega)
      (by show b5.done = b.done; rw [hd5, hd4, hd3, hd2, hd1])
      (fun b0 => ih (a ++ [0]) (some b2.cur) b0) _ _ _
  | forOf body ih =>
    intro a d b h hD
    simp only [processStmt]
    have h1 := initPrevInv_flushP (NodeRef.stmtN a) b h
    have st1n := c4step_flushP (NodeRef.stmtN a) b
    generalize hB1 : flushP (NodeRef.stmtN a) b = b1 at h1 st1n ⊢
    have hl1 : b1.arena.length = b.arena.length := by rw [← hB1, arena_flushP]
    have hd1 : b1.done = b.done := by rw [← hB1, done_flushP]
    have h2 := initPrevInv_newCur (reachOf b1.arena b1.cur) [] (NodeRef.childN a) b1 h1
    have st2n := st1n.trans (c4step_newCur (reachOf b1.arena b1.cur) []
      (NodeRef.childN a) b1) (fun dv hdv => nomatch hdv)
    generalize hB2 : newCur (reachOf b1.arena b1.cur) [] (NodeRef.childN a) b1 = b2
      at h2 st2n ⊢
    have hl2 : b2.arena.length = b1.arena.length + 1 := by
      rw [← hB2, arena_newCur, length_pushSeg]
    have hc2 : b2.cur = b1.arena.length := by rw [← hB2, cur_newCur]
    have hd2 : b2.done = b1.done := by rw [← hB2, done_newCur]
    have h3 := initPrevInv_newCur (reachOf b1.arena b1.cur) [b1.cur] (NodeRef.childN a) b2 h2
    have st3n := st2n.trans (c4step_newCur (reachOf b1.arena b1.cur) [b1.cur]
      (NodeRef.childN a) b2) (fun dv hdv => nomatch hdv)
    generalize hB3 : newCur (reachOf b1.arena b1.cur) [b1.cur] (NodeRef.childN a) b2 = b3
      at h3 st3n ⊢
    have hl3 : b3.arena.length = b2.arena.length + 1 := by
      rw [← hB3, arena_newCur, length_pushSeg]
    have hc3 : b3.cur = b2.arena.length := by rw [← hB3, cur_newCur]
    have hd3 : b3.done = b2.done := by rw [← hB3, done_newCur]
    have h4 : InitPrevInv (connectLoop b3.cur b2.cur (NodeRef.childN a) b3) := by
      refine initPrevInv_connectLoop _ _ _ _ h3 ?_ ?_
      · have e := st3n.1
        have := h.1
        omega
      · intro r hrr
        rw [hd3, hd2, hd1] at hrr
        have := (h.2.2.2 r hrr).1
        omega
    have st4n := st3n.trans (c4step_connectLoop b3.cur b2.cur (NodeRef.childN a) b3)
      (fun dv hdv => Or.inr (by injection hdv with h9; omega))
    generalize hB4 : connectLoop b3.cur b2.cur (NodeRef.childN a) b3 = b4 at h4 st4n ⊢
    have hl4 : b4.arena.length = b3.arena.length := by
      rw [← hB4, arena_connectLoop, length_addLoopArena]
    have hd4 : b4.done = b3.done := by rw [← hB4, done_connectLoop]
    have h5 := initPrevInv_newCur (reachOf b1.arena b1.cur) [b2.cur] (NodeRef.childN a) b4 h4
    have st5n := st4n.trans (c4step_newCur (reachOf b1.arena b1.cur) [b2.cur]
      (NodeRef.childN a) b4) (fun dv hdv => nomatch hdv)
    generalize hB5 : newCur (reachOf b1.arena b1.cur) [b2.cur] (NodeRef.childN a) b4 = b5
      at h5 st5n ⊢
    have hl5 : b5.arena.length = b4.arena.length + 1 := by
      rw [← hB5, arena_newCur, length_pushSeg]
    have hd5 : b5.done = b4.done := by rw [← hB5, done_newCur]
    refine c4_loopTail d b { b5 with broken := [] } b2.cur (a ++ [0]) body
      (NodeRef.stmtN a) h (initPrevInv_setBroken [] b5 h5)
      (C4Step.mono (st5n.trans (c4step_setBroken [] b5) (fun dv hdv => nomatch hdv)))
      (by omega) (by show b2.cur < b5.arena.length; omega)
      (by show b5.done = b.done; rw [hd5, hd4, hd3, hd2, hd1])
      (fun b0 => ih (a ++ [0]) (some b2.cur) b0) _ _ _

/-- C4: for every input tree, every Path record produced by the analysis run
has an initial segment with no predecessors: its "prevSegments" list is
empty.  The initial segment is created fresh when its path starts and no
later operation ever adds a predecessor edge into it, because forward edges
only target newly created segments and loop back edges only target loop
head segments, which are never initial segments. -/
theorem c4_initial_segment_no_predecessors (t : Stmt) (r : PathRec)
    (hr : r ∈ (analyze t).done) :
    (getSeg (analyze t).arena r.initialSegment).prevSegments = [] := by
  obtain ⟨hX, -⟩ := initPrev_processStmt t [] none startBuild
    (by unfold InitPrevInv; decide) (fun dv hdv => nomatch hdv)
  rw [analyze, arena_finalizePath]
  rw [analyze, done_finalizePath] at hr
  rcases List.mem_append.1 hr with hr | hr
  · exact (hX.2.2.2 r hr).2.1
  · rw [List.mem_singleton] at hr
    subst hr
    rw [(finishRec_ids _).2.2.2]
    exact hX.2.1

/-- Witness for C4: in the run on the if/else input the first finished path
(the function path) is among the produced paths, and its initial segment has
no predecessors. -/
theorem c4_initial_segment_no_predecessors_witness :
    ((analyze progIfRetThrow).done.getD 0
        ⟨0, none, NodeRef.program, [], 0, [], [], [], []⟩) ∈
      (analyze progIfRetThrow).done ∧
    (getSeg (analyze progIfRetThrow).arena
      ((analyze progIfRetThrow).done.getD 0
        ⟨0, none, NodeRef.program, [], 0, [], [], [], []⟩).initialSegment).prevSegments
      = [] :=
  ⟨by decide, c4_initial_segment_no_predecessors progIfRetThrow _ (by decide)⟩

/-! ## Successor-list preservation lemmas for the arena operations -/

theorem next_addFwdEdges_notMem (A0 : List SegData) (c : Nat) (r : Bool) :
    ∀ (ps : List Nat) (A : List SegData) (i : Nat), i ∉ ps →
      (getSeg (addFwdEdges A0 c r A ps) i).nextSegments =
        (getSeg A i).nextSegments := by
  intro ps
  induction ps with
  | nil => intro A i _; rfl
  | cons p ps ih =>
    intro A i h
    rw [addFwdEdges, ih _ i (fun hc => h (List.mem_cons_of_mem p hc)),
      getSeg_addFwdEdge_ne A p c _ i
        (fun hc => h (by rw [hc]; exact List.mem_cons_self p ps))]

theorem next_pushSeg_notMem (A : List SegData) (r : Bool) (ps : List Nat) (i : Nat)
    (hi : i < A.length) (h : i ∉ ps) :
    (getSeg (pushSeg A r ps) i).nextSegments = (getSeg A i).nextSegments := by
  rw [pushSeg, getSeg_append_lt _ _ i (by rw [length_addFwdEdges]; exact hi),
    next_addFwdEdges_notMem A A.length r ps A i h]

theorem next_addFwdEdge_false (A : List SegData) (p c : Nat) (i : Nat) :
    (getSeg (addFwdEdge A p c false) i).nextSegments = (getSeg A i).nextSegments := by
  rcases eq_or_ne i p with rfl | h
  · rcases lt_or_le i A.length with hl | hl
    · rw [addFwdEdge, getSeg_set_self A i _ hl]
      simp
    · rw [addFwdEdge, set_out A i _ hl]
  · rw [getSeg_addFwdEdge_ne A p c false i h]

theorem next_addFwdEdges_false (A0 : List SegData) (c : Nat) :
    ∀ (ps : List Nat) (A : List SegData) (i : Nat),
      (getSeg (addFwdEdges A0 c false A ps) i).nextSegments =
        (getSeg A i).nextSegments := by
  intro ps
  induction ps with
  | nil => intro A i; rfl
  | cons p ps ih =>
    intro A i
    rw [addFwdEdges, ih, show (false && reachOf A0 p) = false from
      Bool.false_and (reachOf A0 p), next_addFwdEdge_false]

theorem next_pushSeg_false (A : List SegData) (ps : List Nat) (i : Nat)
    (hi : i < A.length) :
    (getSeg (pushSeg A false ps) i).nextSegments = (getSeg A i).nextSegments := by
  rw [pushSeg, getSeg_append_lt _ _ i (by rw [length_addFwdEdges]; exact hi),
    next_addFwdEdges_false A A.length ps A i]

theorem next_addLoopArena_ne (A : List SegData) (f t i : Nat) (h : i ≠ f) :
    (getSeg (addLoopArena A f t) i).nextSegments = (getSeg A i).nextSegments := by
  rw [addLoopArena_eq]
  rcases eq_or_ne i t with rfl | hne
  · rcases lt_or_le i (addFwdEdge A f i (reachOf A f && reachOf A i)).length with hl | hl
    · rw [getSeg_set_self _ i _ hl]
      show (getSeg (addFwdEdge A f i (reachOf A f && reachOf A i)) i).nextSegments =
        (getSeg A i).nextSegments
      rw [getSeg_addFwdEdge_ne A f i _ i h]
    · rw [set_out _ i _ hl, getSeg_addFwdEdge_ne A f i _ i h]
  · rw [getSeg_set_ne _ t i _ hne, getSeg_addFwdEdge_ne A f t _ i h]

/-! ## Field equations for the builder operations -/

theorem cur_flushP (n : NodeRef) (b : Build) : (flushP n b).cur = b.cur := by
  unfold flushP
  split <;> rfl

theorem broken_flushP (n : NodeRef) (b : Build) : (flushP n b).broken = b.broken := by
  unfold flushP
  split <;> rfl

theorem returned_flushP (n : NodeRef) (b : Build) :
    (flushP n b).returned = b.returned := by
  unfold flushP
  split <;> rfl

theorem thrown_flushP (n : NodeRef) (b : Build) : (flushP n b).thrown = b.thrown := by
  unfold flushP
  split <;> rfl

theorem broken_newCur (rb : Bool) (p : List Nat) (n : NodeRef) (b : Build) :
    (newCur rb p n b).broken = b.broken := by
  simp only [newCur]
  split <;> simp [emit, broken_flushP]

theorem returned_newCur (rb : Bool) (p : List Nat) (n : NodeRef) (b : Build) :
    (newCur rb p n b).returned = b.returned := by
  simp only [newCur]
  split <;> simp [emit, returned_flushP]

theorem thrown_newCur (rb : Bool) (p : List Nat) (n : NodeRef) (b : Build) :
    (newCur rb p n b).thrown = b.thrown := by
  simp only [newCur]
  split <;> simp [emit, thrown_flushP]

/-! ## The protected set and the finished record shape -/

theorem prot_congr {b b' : Build} (h1 : b'.done = b.done) (h2 : b'.returned = b.returned)
    (h3 : b'.thrown = b.thrown) (s : Nat) : Prot b' s ↔ Prot b s := by
  unfold Prot
  rw [h1, h2, h3]

theorem notProt_cur {b : Build} (h : C1Inv b) : ¬ Prot b b.cur :=
  fun hp => (h.1 b.cur hp).2.2.1 rfl

theorem mem_append_filter_of_mem (l1 l2 : List Nat) (s : Nat)
    (h : s ∈ l1 ∨ s ∈ l2) :
    s ∈ l1 ++ l2.filter (fun x => !(l1.contains x)) := by
  rcases h with h | h
  · exact List.mem_append_left _ h
  · by_cases hc : s ∈ l1
    · exact List.mem_append_left _ hc
    · refine List.mem_append_right _ ?_
      rw [List.mem_filter]
      refine ⟨h, ?_⟩
      simpa using hc

theorem finishRec_superset (b : Build) (s : Nat)
    (h : s ∈ (finishRec b).returnedSegments ∨ s ∈ (finishRec b).thrownSegments) :
    s ∈ (finishRec b).finalSegments := by
  simp only [finishRec] at h ⊢
  exact mem_append_filter_of_mem _ _ s h

theorem finishRec_final_mem (b : Build) (s : Nat)
    (h : s ∈ (finishRec b).finalSegments) :
    s ∈ b.returned ∨ s = b.cur ∨ s ∈ b.thrown := by
  simp only [finishRec] at h
  rcases List.mem_append.1 h with h | h
  · split at h
    · rcases List.mem_append.1 h with h | h
      · rw [returned_flushP] at h
        exact Or.inl h
      · rw [List.mem_singleton] at h
        rw [h, cur_flushP]
        exact Or.inr (Or.inl rfl)
    · rw [returned_flushP] at h
      exact Or.inl h
  · have h2 := (List.mem_filter.1 h).1
    rw [thrown_flushP] at h2
    exact Or.inr (Or.inr h2)

/-! ## Structural lemmas for the successor step relation -/

theorem c1step_refl (b : Build) : C1Step b b :=
  ⟨le_refl _, Or.inl rfl, fun s hs => Or.inl hs, fun s hs => Or.inl hs,
    fun _ _ _ _ => rfl⟩

theorem C1Step.chain {b b' b'' : Build} (h1 : C1Step b b') (h2 : C1Step b' b'') :
    C1Step b b'' := by
  obtain ⟨l1, c1, k1, p1, n1⟩ := h1
  obtain ⟨l2, c2, k2, p2, n2⟩ := h2
  refine ⟨le_trans l1 l2, ?_, ?_, ?_, ?_⟩
  · rcases c2 with c2 | c2
    · rw [c2]; exact c1
    · right; omega
  · intro s hs
    rcases k2 s hs with hs2 | hs2 | hs2
    · exact k1 s hs2
    · rcases c1 with c1 | c1
      · right; left; rw [hs2]; exact c1
      · right; right; omega
    · right; right; omega
  · intro s hs
    rcases p2 s hs with hs2 | hs2 | hs2
    · exact p1 s hs2
    · rcases c1 with c1 | c1
      · right; left; rw [hs2]; exact c1
      · right; right; omega
    · right; right; omega
  · intro i hi hc hbk
    have e2 : (getSeg b''.arena i).nextSegments = (getSeg b'.arena i).nextSegments := by
      refine n2 i (lt_of_lt_of_le hi l1) ?_ ?_
      · rcases c1 with c1 | c1
        · rw [c1]; exact hc
        · omega
      · intro hmem
        rcases k1 i hmem with hm | hm | hm
        · exact hbk hm
        · exact hc hm
        · omega
    rw [e2, n1 i hi hc hbk]

theorem c1step_extend_flushP {b0 b : Build} (h : C1Step b0 b) (n : NodeRef) :
    C1Step b0 (flushP n b) := by
  obtain ⟨l1, c1, k1, p1, n1⟩ := h
  refine ⟨?_, ?_, ?_, ?_, ?_⟩
  · rw [arena_flushP]; exact l1
  · rw [cur_flushP]; exact c1
  · intro s hs
    rw [broken_flushP] at hs
    exact k1 s hs
  · intro s hs
    rw [prot_congr (done_flushP n b) (returned_flushP n b) (thrown_flushP n b) s] at hs
    exact p1 s hs
  · intro i hi hc hbk
    rw [arena_flushP]
    exact n1 i hi hc hbk

theorem c1step_extend_emit {b0 b : Build} (h : C1Step b0 b) (e : Event) :
    C1Step b0 (emit e b) := h

theorem c1step_extend_newCur {b0 b : Build} (h : C1Step b0 b) (r : Bool) (p : List Nat)
    (n : NodeRef) (hp : ∀ x ∈ p, x = b0.cur ∨ x ∈ b0.broken ∨ b0.arena.length ≤ x) :
    C1Step b0 (newCur r p n b) := by
  obtain ⟨l1, c1, k1, p1, n1⟩ := h
  refine ⟨?_, ?_, ?_, ?_, ?_⟩
  · rw [arena_newCur, length_pushSeg]; omega
  · right; rw [cur_newCur]; omega
  · intro s hs
    rw [broken_newCur] at hs
    exact k1 s hs
  · intro s hs
    rw [prot_congr (done_newCur r p n b) (returned_newCur r p n b)
      (thrown_newCur r p n b) s] at hs
    exact p1 s hs
  · intro i hi hc hbk
    have hnp : i ∉ p := by
      intro hmem
      rcases hp i hmem with hm | hm | hm
      · exact hc hm
      · exact hbk hm
      · omega
    rw [arena_newCur, next_pushSeg_notMem b.arena r p i (by omega) hnp]
    exact n1 i hi hc hbk

theorem c1step_extend_connect {b0 b : Build} (h : C1Step b0 b) (f dv : Nat)
    (n : NodeRef) (hf : f = b0.cur ∨ b0.arena.length ≤ f) :
    C1Step b0 (connectLoop f dv n b) := by
  obtain ⟨l1, c1, k1, p1, n1⟩ := h
  refine ⟨?_, c1, k1, p1, ?_⟩
  · rw [arena_connectLoop, length_addLoopArena]; exact l1
  · intro i hi hc hbk
    have hif : i ≠ f := by
      rcases hf with hf | hf
      · rw [hf]; exact hc
      · omega
    rw [arena_connectLoop, next_addLoopArena_ne b.arena f dv i hif]
    exact n1 i hi hc hbk

theorem c1step_extend_setReturnedCur {b0 b : Build} (h : C1Step b0 b) :
    C1Step b0 { b with returned := b.returned ++ [b.cur] } := by
  obtain ⟨l1, c1, k1, p1, n1⟩ := h
  refine ⟨l1, c1, k1, ?_, n1⟩
  intro s hs
  rcases hs with ⟨r, hr, hsr⟩ | hs | hs
  · exact p1 s (Or.inl ⟨r, hr, hsr⟩)
  · rcases List.mem_append.1 hs with hs | hs
    · exact p1 s (Or.inr (Or.inl hs))
    · rw [List.mem_singleton] at hs
      subst hs
      rcases c1 with c1 | c1
      · right; left; exact c1
      · right; right; exact c1
  · exact p1 s (Or.inr (Or.inr hs))

theorem c1step_extend_setThrownCur {b0 b : Build} (h : C1Step b0 b) :
    C1Step b0 { b with thrown := b.thrown ++ [b.cur] } := by
  obtain ⟨l1, c1, k1, p1, n1⟩ := h
  refine ⟨l1, c1, k1, ?_, n1⟩
  intro s hs
  rcases hs with ⟨r, hr, hsr⟩ | hs | hs
  · exact p1 s (Or.inl ⟨r, hr, hsr⟩)
  · exact p1 s (Or.inr (Or.inl hs))
  · rcases List.mem_append.1 hs with hs | hs
    · exact p1 s (Or.inr (Or.inr hs))
    · rw [List.mem_singleton] at hs
      subst hs
      rcases c1 with c1 | c1
      · right; left; exact c1
      · right; right; exact c1

theorem c1step_extend_setBrokenCur {b0 b : Build} (h : C1Step b0 b) :
    C1Step b0 { b with broken := b.broken ++ [b.cur] } := by
  obtain ⟨l1, c1, k1, p1, n1⟩ := h
  refine ⟨l1, c1, ?_, p1, n1⟩
  intro s hs
  rcases List.mem_append.1 hs with hs | hs
  · exact k1 s hs
  · rw [List.mem_singleton] at hs
    subst hs
    rcases c1 with c1 | c1
    · right; left; exact c1
    · right; right; exact c1

theorem c1step_extend_setBroken {b0 b : Build} (h : C1Step b0 b) (sv : List Nat)
    (hsv : ∀ s ∈ sv, s ∈ b0.broken ∨ s = b0.cur ∨ b0.arena.length ≤ s) :
    C1Step b0 { b with broken := sv } := by
  obtain ⟨l1, c1, k1, p1, n1⟩ := h
  exact ⟨l1, c1, fun s hs => hsv s hs, p1, n1⟩

/-! ## Preservation of the protection invariant -/

theorem c1inv_flushP (n : NodeRef) (b : Build) (h : C1Inv b) : C1Inv (flushP n b) := by
  obtain ⟨h1, h2, h3, h4, h5, h6⟩ := h
  refine ⟨?_, ?_, ?_, ?_, ?_, ?_⟩
  · intro s hs
    rw [prot_congr (done_flushP n b) (returned_flushP n b) (thrown_flushP n b) s] at hs
    obtain ⟨e1, e2, e3, e4⟩ := h1 s hs
    rw [arena_flushP, cur_flushP, broken_flushP]
    exact ⟨e1, e2, e3, e4⟩
  · rw [arena_flushP, cur_flushP]; exact h2
  · rw [arena_flushP, cur_flushP]; exact h3
  · rw [cur_flushP, broken_flushP]; exact h4
  · intro s hs
    rw [broken_flushP] at hs
    rw [arena_flushP]
    exact h5 s hs
  · intro r hr
    rw [done_flushP] at hr
    exact h6 r hr

theorem c1inv_emit (e : Event) (b : Build) (h : C1Inv b) : C1Inv (emit e b) := h

/-- The master lemma for moving the frontier: if every protected segment of
the builder either avoids the predecessor list or the new segment is
unreachable (so the edge is not a plain edge), protection survives. -/
theorem c1inv_push (rch : Bool) (p : List Nat) (n : NodeRef) (B : Build)
    (hProt : ∀ s, Prot B s → s < B.arena.length ∧
      (getSeg B.arena s).nextSegments = [] ∧
      ((s ∈ p ∧ rch = false) ∨ s ∉ p) ∧ s ∉ B.broken)
    (hBk : ∀ s ∈ B.broken, s < B.arena.length)
    (hRec : ∀ r ∈ B.done, ∀ s, (s ∈ r.returnedSegments ∨ s ∈ r.thrownSegments) →
      s ∈ r.finalSegments) :
    C1Inv (newCur rch p n B) := by
  have ha := arena_newCur rch p n B
  have hc := cur_newCur rch p n B
  have hk := broken_newCur rch p n B
  refine ⟨?_, ?_, ?_, ?_, ?_, ?_⟩
  · intro s hs
    rw [prot_congr (done_newCur rch p n B) (returned_newCur rch p n B)
      (thrown_newCur rch p n B) s] at hs
    obtain ⟨e1, e2, e3, e4⟩ := hProt s hs
    rw [ha, hc, hk, length_pushSeg]
    refine ⟨by omega, ?_, by omega, e4⟩
    rcases e3 with ⟨_, rfl⟩ | e3
    · rw [next_pushSeg_false B.arena p s e1]
      exact e2
    · rw [next_pushSeg_notMem B.arena rch p s e1 e3]
      exact e2
  · rw [ha, hc, length_pushSeg]
    omega
  · rw [ha, hc, getSeg_pushSeg_len]
  · rw [hc, hk]
    intro hm
    exact absurd (hBk _ hm) (by omega)
  · intro s hm
    rw [hk] at hm
    rw [ha, length_pushSeg]
    have := hBk s hm
    omega
  · intro rr hr
    rw [done_newCur] at hr
    exact hRec rr hr

theorem c1inv_setBrokenNil (b : Build) (h : C1Inv b) :
    C1Inv { b with broken := ([] : List Nat) } := by
  obtain ⟨h1, h2, h3, h4, h5, h6⟩ := h
  refine ⟨?_, h2, h3, ?_, ?_, h6⟩
  · intro s hs
    obtain ⟨e1, e2, e3, e4⟩ := h1 s hs
    exact ⟨e1, e2, e3, List.not_mem_nil s⟩
  · exact List.not_mem_nil b.cur
  · intro s hs
    exact absurd hs (List.not_mem_nil s)

/-- The common tail of every loop construct for the protection invariant:
process the body with the loop state, close the back edge from the body
frontier, and move to the after-loop segment whose predecessors are the
loop's normal exits and the break frontiers collected by the body — none of
which is a protected segment. -/
theorem c1_loopTail (b bE : Build) (dvt : Nat) (d0 : Option Nat)
    (a' : List Nat) (body : Stmt) (n : NodeRef) (hr : Bool) (hp sv : List Nat)
    (hb : C1Inv b)
    (hE : C1Inv bE)
    (stE : C1Step b bE)
    (hEb : bE.broken = [])
    (hEcur : b.arena.length ≤ bE.cur)
    (hsv : ∀ s ∈ sv, s ∈ b.broken)
    (hhp : ∀ x ∈ hp, b.arena.length ≤ x ∧ x < bE.arena.length ∧ x ≠ bE.cur ∧
      ¬ Prot bE x)
    (hih : ∀ b0 : Build, C1Inv b0 →
      C1Inv (processStmt a' d0 body b0) ∧ C1Step b0 (processStmt a' d0 body b0)) :
    C1Inv (afterLoop hr hp n sv
      (connectLoop (processStmt a' d0 body bE).cur dvt n
        (flushP n (processStmt a' d0 body bE)))) ∧
    C1Step b (afterLoop hr hp n sv
      (connectLoop (processStmt a' d0 body bE).cur dvt n
        (flushP n (processStmt a' d0 body bE)))) := by
  obtain ⟨hX, stX⟩ := hih bE hE
  have stbX : C1Step b (processStmt a' d0 body bE) := stE.chain stX
  generalize hGX : processStmt a' d0 body bE = X at hX stX stbX ⊢
  have hprotX := stbX.2.2.2.1
  have hXcur : b.arena.length ≤ X.cur := by
    rcases stX.2.1 with hcc | hcc
    · rw [hcc]; exact hEcur
    · have := stE.1
      omega
  have hXbk : ∀ s ∈ X.broken, b.arena.length ≤ s := by
    intro s hs
    rcases stX.2.2.1 s hs with hs2 | hs2 | hs2
    · rw [hEb] at hs2
      exact absurd hs2 (List.not_mem_nil s)
    · rw [hs2]; exact hEcur
    · have := stE.1
      omega
  have hhpX : ∀ x ∈ hp, ¬ Prot X x := by
    intro x hx hpx
    obtain ⟨g1, g2, g3, g4⟩ := hhp x hx
    rcases stX.2.2.2.1 x hpx with h2 | h2 | h2
    · exact g4 h2
    · exact g3 h2
    · omega
  constructor
  · refine c1inv_push _ _ _ _ ?_ ?_ ?_
    · intro s hs
      have hs' : Prot (flushP n X) s := hs
      have hsX : Prot X s :=
        (prot_congr (done_flushP n X) (returned_flushP n X) (thrown_flushP n X) s).1 hs'
      obtain ⟨e1, e2, e3, e4⟩ := hX.1 s hsX
      refine ⟨?_, ?_, ?_, ?_⟩
      · show s < (addLoopArena (flushP n X).arena X.cur dvt).length
        rw [length_addLoopArena, arena_flushP]
        exact e1
      · show (getSeg (addLoopArena (flushP n X).arena X.cur dvt) s).nextSegments = []
        rw [next_addLoopArena_ne (flushP n X).arena X.cur dvt s e3, arena_flushP]
        exact e2
      · right
        intro hmem
        rcases List.mem_append.1 hmem with hm | hm
        · exact hhpX s hm hsX
        · have hm' : s ∈ (flushP n X).broken := hm
          rw [broken_flushP] at hm'
          exact e4 hm'
      · show s ∉ sv
        intro hm
        have hmb := hsv s hm
        rcases hprotX s hsX with h2 | h2 | h2
        · exact (hb.1 s h2).2.2.2 hmb
        · rw [h2] at hmb
          exact hb.2.2.2.1 hmb
        · have := hb.2.2.2.2.1 s hmb
          omega
    · intro s hm
      show s < (addLoopArena (flushP n X).arena X.cur dvt).length
      rw [length_addLoopArena, arena_flushP]
      have h1 := hb.2.2.2.2.1 s (hsv s hm)
      have h2 := stbX.1
      omega
    · intro r hrr s hm
      have hrr' : r ∈ (flushP n X).done := hrr
      rw [done_flushP] at hrr'
      exact hX.2.2.2.2.2 r hrr' s hm
  · refine c1step_extend_newCur (c1step_extend_setBroken
      (c1step_extend_connect (c1step_extend_flushP stbX n) X.cur dvt n
        (Or.inr hXcur)) sv (fun s hm => Or.inl (hsv s hm))) _ _ _ ?_
    intro x hx
    rcases List.mem_append.1 hx with hm | hm
    · right; right
      exact (hhp x hm).1
    · have hm' : x ∈ (flushP n X).broken := hm
      rw [broken_flushP] at hm'
      right; right
      exact hXbk x hm'

/-- Closing a back edge from a segment that is neither protected nor the
frontier preserves the protection invariant. -/
theorem c1inv_connect_ne (f dv : Nat) (n : NodeRef) (b : Build) (h : C1Inv b)
    (hq : ¬ Prot b f) (hne : b.cur ≠ f) : C1Inv (connectLoop f dv n b) := by
  obtain ⟨h1, h2, h3, h4, h5, h6⟩ := h
  refine ⟨?_, ?_, ?_, h4, ?_, h6⟩
  · intro s hs
    have hs' : Prot b s := hs
    obtain ⟨e1, e2, e3, e4⟩ := h1 s hs'
    refine ⟨?_, ?_, e3, e4⟩
    · show s < (addLoopArena b.arena f dv).length
      rw [length_addLoopArena]
      exact e1
    · show (getSeg (addLoopArena b.arena f dv) s).nextSegments = []
      rw [next_addLoopArena_ne b.arena f dv s (fun hsf => absurd (hsf ▸ hs') hq)]
      exact e2
  · show b.cur < (addLoopArena b.arena f dv).length
    rw [length_addLoopArena]
    exact h2
  · show (getSeg (addLoopArena b.arena f dv) b.cur).nextSegments = []
    rw [next_addLoopArena_ne b.arena f dv b.cur hne]
    exact h3
  · intro s hm
    have hsm := h5 s hm
    show s < (addLoopArena b.arena f dv).length
    rw [length_addLoopArena]
    exact hsm

/-- Modelled from the spec (§3, §4.6): processing any statement preserves
the protection invariant, and only ever changes the builder within the
bounds of the successor step relation. -/
theorem c1inv_processStmt (t : Stmt) :
    ∀ (a : List Nat) (d : Option Nat) (b : Build), C1Inv b →
      C1Inv (processStmt a d t b) ∧ C1Step b (processStmt a d t b) := by
  induction t with
  | skip =>
    intro a d b h
    simp only [processStmt]
    exact ⟨h, c1step_refl b⟩
  | seq s1 s2 ih1 ih2 =>
    intro a d b h
    simp only [processStmt]
    obtain ⟨h1, st1⟩ := ih1 (a ++ [0]) d b h
    obtain ⟨h2, st2⟩ := ih2 (a ++ [1]) d _ h1
    exact ⟨h2, st1.chain st2⟩
  | expr =>
    intro a d b h
    simp only [processStmt]
    exact ⟨c1inv_flushP _ _ h, c1step_extend_flushP (c1step_refl b) _⟩
  | ret =>
    intro a d b h
    simp only [processStmt]
    have h1 := c1inv_flushP (NodeRef.stmtN a) b h
    have st1 := c1step_extend_flushP (c1step_refl b) (NodeRef.stmtN a)
    generalize hB1 : flushP (NodeRef.stmtN a) b = b1 at h1 st1 ⊢
    have hc1 : b1.cur = b.cur := by rw [← hB1, cur_flushP]
    split
    · constructor
      · refine c1inv_push _ _ _ _ ?_ ?_ ?_
        · intro s hs
          have hs2 : Prot b1 s ∨ s = b1.cur := by
            rcases hs with hd | hrt | hth
            · exact Or.inl (Or.inl hd)
            · rcases List.mem_append.1 hrt with hrt | hrt
              · exact Or.inl (Or.inr (Or.inl hrt))
              · exact Or.inr (List.mem_singleton.1 hrt)
            · exact Or.inl (Or.inr (Or.inr hth))
          show s < b1.arena.length ∧ (getSeg b1.arena s).nextSegments = [] ∧
            ((s ∈ [b1.cur] ∧ false = false) ∨ s ∉ [b1.cur]) ∧ s ∉ b1.broken
          rcases hs2 with hs2 | hs2
          · obtain ⟨e1, e2, e3, e4⟩ := h1.1 s hs2
            refine ⟨e1, e2, Or.inr ?_, e4⟩
            rw [List.mem_singleton]
            exact e3
          · subst hs2
            exact ⟨h1.2.1, h1.2.2.1, Or.inl ⟨List.mem_singleton.2 rfl, rfl⟩,
              h1.2.2.2.1⟩
        · intro s hm
          have hm' : s ∈ b1.broken := hm
          show s < b1.arena.length
          exact h1.2.2.2.2.1 s hm'
        · intro r hrr s hm
          have hrr' : r ∈ b1.done := hrr
          exact h1.2.2.2.2.2 r hrr' s hm
      · refine c1step_extend_newCur (c1step_extend_setReturnedCur st1) _ _ _ ?_
        intro x hx
        rw [List.mem_singleton] at hx
        subst hx
        left
        exact hc1
    · exact ⟨h1, st1⟩
  | thrw =>
    intro a d b h
    simp only [processStmt]
    have h1 := c1inv_flushP (NodeRef.stmtN a) b h
    have st1 := c1step_extend_flushP (c1step_refl b) (NodeRef.stmtN a)
    generalize hB1 : flushP (NodeRef.stmtN a) b = b1 at h1 st1 ⊢
    have hc1 : b1.cur = b.cur := by rw [← hB1, cur_flushP]
    split
    · constructor
      · refine c1inv_push _ _ _ _ ?_ ?_ ?_
        · intro s hs
          have hs2 : Prot b1 s ∨ s = b1.cur := by
            rcases hs with hd | hrt | hth
            · exact Or.inl (Or.inl hd)
            · exact Or.inl (Or.inr (Or.inl hrt))
            · rcases List.mem_append.1 hth with hth | hth
              · exact Or.inl (Or.inr (Or.inr hth))
              · exact Or.inr (List.mem_singleton.1 hth)
          show s < b1.arena.length ∧ (getSeg b1.arena s).nextSegments = [] ∧
            ((s ∈ [b1.cur] ∧ false = false) ∨ s ∉ [b1.cur]) ∧ s ∉ b1.broken
          rcases hs2 with hs2 | hs2
          · obtain ⟨e1, e2, e3, e4⟩ := h1.1 s hs2
            refine ⟨e1, e2, Or.inr ?_, e4⟩
            rw [List.mem_singleton]
            exact e3
          · subst hs2
            exact ⟨h1.2.1, h1.2.2.1, Or.inl ⟨List.mem_singleton.2 rfl, rfl⟩,
              h1.2.2.2.1⟩
        · intro s hm
          have hm' : s ∈ b1.broken := hm
          show s < b1.arena.length
          exact h1.2.2.2.2.1 s hm'
        · intro r hrr s hm
          have hrr' : r ∈ b1.done := hrr
          exact h1.2.2.2.2.2 r hrr' s hm
      · refine c1step_extend_newCur (c1step_extend_setThrownCur st1) _ _ _ ?_
        intro x hx
        rw [List.mem_singleton] at hx
        subst hx
        left
        exact hc1
    · exact ⟨h1, st1⟩
  | brk =>
    intro a d b h
    rcases d with _ | dv
    · simp only [processStmt]
      have h1 := c1inv_flushP (NodeRef.stmtN a) b h
      have st1 := c1step_extend_flushP (c1step_refl b) (NodeRef.stmtN a)
      generalize hB1 : flushP (NodeRef.stmtN a) b = b1 at h1 st1 ⊢
      have hc1 : b1.cur = b.cur := by rw [← hB1, cur_flushP]
      split
      · constructor
        · refine c1inv_push _ _ _ _ ?_ ?_ ?_
          · intro s hs
            have hs2 : Prot b1 s ∨ s = b1.cur := by
              rcases hs with hd | hrt | hth
              · exact Or.inl (Or.inl hd)
              · rcases List.mem_append.1 hrt with hrt | hrt
                · exact Or.inl (Or.inr (Or.inl hrt))
                · exact Or.inr (List.mem_singleton.1 hrt)
              · exact Or.inl (Or.inr (Or.inr hth))
            show s < b1.arena.length ∧ (getSeg b1.arena s).nextSegments = [] ∧
              ((s ∈ [b1.cur] ∧ false = false) ∨ s ∉ [b1.cur]) ∧ s ∉ b1.broken
            rcases hs2 with hs2 | hs2
            · obtain ⟨e1, e2, e3, e4⟩ := h1.1 s hs2
              refine ⟨e1, e2, Or.inr ?_, e4⟩
              rw [List.mem_singleton]
              exact e3
            · subst hs2
              exact ⟨h1.2.1, h1.2.2.1, Or.inl ⟨List.mem_singleton.2 rfl, rfl⟩,
                h1.2.2.2.1⟩
          · intro s hm
            have hm' : s ∈ b1.broken := hm
            show s < b1.arena.length
            exact h1.2.2.2.2.1 s hm'
          · intro r hrr s hm
            have hrr' : r ∈ b1.done := hrr
            exact h1.2.2.2.2.2 r hrr' s hm
        · refine c1step_extend_newCur (c1step_extend_setReturnedCur st1) _ _ _ ?_
          intro x hx
          rw [List.mem_singleton] at hx
          subst hx
          left
          exact hc1
      · exact ⟨h1, st1⟩
    · simp only [processStmt]
      have h1 := c1inv_flushP (NodeRef.stmtN a) b h
      have st1 := c1step_extend_flushP (c1step_refl b) (NodeRef.stmtN a)
      generalize hB1 : flushP (NodeRef.stmtN a) b = b1 at h1 st1 ⊢
      have hc1 : b1.cur = b.cur := by rw [← hB1, cur_flushP]
      split
      · constructor
        · refine c1inv_push _ _ _ _ ?_ ?_ ?_
          · intro s hs
            have hs' : Prot b1 s := hs
            obtain ⟨e1, e2, e3, e4⟩ := h1.1 s hs'
            show s < b1.arena.length ∧ (getSeg b1.arena s).nextSegments = [] ∧
              ((s ∈ [b1.cur] ∧ false = false) ∨ s ∉ [b1.cur]) ∧
              s ∉ b1.broken ++ [b1.cur]
            refine ⟨e1, e2, Or.inr (by rw [List.mem_singleton]; exact e3), ?_⟩
            intro hm
            rcases List.mem_append.1 hm with hm | hm
            · exact e4 hm
            · rw [List.mem_singleton] at hm
              exact e3 hm
          · intro s hm
            have hm' : s ∈ b1.broken ++ [b1.cur] := hm
            show s < b1.arena.length
            rcases List.mem_append.1 hm' with hm2 | hm2
            · exact h1.2.2.2.2.1 s hm2
            · rw [List.mem_singleton] at hm2
              rw [hm2]
              exact h1.2.1
          · intro r hrr s hm
            have hrr' : r ∈ b1.done := hrr
            exact h1.2.2.2.2.2 r hrr' s hm
        · refine c1step_extend_newCur (c1step_extend_setBrokenCur st1) _ _ _ ?_
          intro x hx
          rw [List.mem_singleton] at hx
          subst hx
          left
          exact hc1
      · exact ⟨h1, st1⟩
  | cont =>
    intro a d b h
    rcases d with _ | dv
    · simp only [processStmt]
      have h1 := c1inv_flushP (NodeRef.stmtN a) b h
      have st1 := c1step_extend_flushP (c1step_refl b) (NodeRef.stmtN a)
      generalize hB1 : flushP (NodeRef.stmtN a) b = b1 at h1 st1 ⊢
      have hc1 : b1.cur = b.cur := by rw [← hB1, cur_flushP]
      split
      · constructor
        · refine c1inv_push _ _ _ _ ?_ ?_ ?_
          · intro s hs
            have hs2 : Prot b1 s ∨ s = b1.cur := by
              rcases hs with hd | hrt | hth
              · exact Or.inl (Or.inl hd)
              · rcases List.mem_append.1 hrt with hrt | hrt
                · exact Or.inl (Or.inr (Or.inl hrt))
                · exact Or.inr (List.mem_singleton.1 hrt)
              · exact Or.inl (Or.inr (Or.inr hth))
            show s < b1.arena.length ∧ (getSeg b1.arena s).nextSegments = [] ∧
              ((s ∈ [b1.cur] ∧ false = false) ∨ s ∉ [b1.cur]) ∧ s ∉ b1.broken
            rcases hs2 with hs2 | hs2
            · obtain ⟨e1, e2, e3, e4⟩ := h1.1 s hs2
              refine ⟨e1, e2, Or.inr ?_, e4⟩
              rw [List.mem_singleton]
              exact e3
            · subst hs2
              exact ⟨h1.2.1, h1.2.2.1, Or.inl ⟨List.mem_singleton.2 rfl, rfl⟩,
                h1.2.2.2.1⟩
          · intro s hm
            have hm' : s ∈ b1.broken := hm
            show s < b1.arena.length
            exact h1.2.2.2.2.1 s hm'
          · intro r hrr s hm
            have hrr' : r ∈ b1.done := hrr
            exact h1.2.2.2.2.2 r hrr' s hm
        · refine c1step_extend_newCur (c1step_extend_setReturnedCur st1) _ _ _ ?_
          intro x hx
          rw [List.mem_singleton] at hx
          subst hx
          left
          exact hc1
      · exact ⟨h1, st1⟩
    · simp only [processStmt]
      have h1 := c1inv_flushP (NodeRef.stmtN a) b h
      have st1 := c1step_extend_flushP (c1step_refl b) (NodeRef.stmtN a)
      generalize hB1 : flushP (NodeRef.stmtN a) b = b1 at h1 st1 ⊢
      have hc1 : b1.cur = b.cur := by rw [← hB1, cur_flushP]
      split
      · constructor
        · refine c1inv_push _ _ _ _ ?_ ?_ ?_
          · intro s hs
            have hs' : Prot b1 s := hs
            obtain ⟨e1, e2, e3, e4⟩ := h1.1 s hs'
            refine ⟨?_, ?_, Or.inr (by rw [List.mem_singleton]; exact e3), e4⟩
            · show s < (addLoopArena b1.arena b1.cur dv).length
              rw [length_addLoopArena]
              exact e1
            · show (getSeg (addLoopArena b1.arena b1.cur dv) s).nextSegments = []
              rw [next_addLoopArena_ne b1.arena b1.cur dv s e3]
              exact e2
          · intro s hm
            have hm' : s ∈ b1.broken := hm
            show s < (addLoopArena b1.arena b1.cur dv).length
            rw [length_addLoopArena]
            exact h1.2.2.2.2.1 s hm'
          · intro r hrr s hm
            have hrr' : r ∈ b1.done := hrr
            exact h1.2.2.2.2.2 r hrr' s hm
        · refine c1step_extend_newCur (c1step_extend_connect st1 b1.cur dv
            (NodeRef.stmtN a) (Or.inl hc1)) _ _ _ ?_
          intro x hx
          rw [List.mem_singleton] at hx
          subst hx
          left
          exact hc1
      · exact ⟨h1, st1⟩
  | ifS thenS elseS ih1 ih2 =>
    intro a d b h
    simp only [processStmt]
    have h1 := c1inv_flushP (NodeRef.stmtN a) b h
    have st1 := c1step_extend_flushP (c1step_refl b) (NodeRef.stmtN a)
    generalize hB1 : flushP (NodeRef.stmtN a) b = b1 at h1 st1 ⊢
    have hc1 : b1.cur = b.cur := by rw [← hB1, cur_flushP]
    have hl1 : b1.arena.length = b.arena.length := by rw [← hB1, arena_flushP]
    have h2 : C1Inv (newCur (reachOf b1.arena b1.cur) [b1.cur] (NodeRef.stmtN a) b1) := by
      refine c1inv_push _ _ _ _ ?_ ?_ ?_
      · intro s hs
        obtain ⟨e1, e2, e3, e4⟩ := h1.1 s hs
        exact ⟨e1, e2, Or.inr (by rw [List.mem_singleton]; exact e3), e4⟩
      · exact h1.2.2.2.2.1
      · exact h1.2.2.2.2.2
    have st2 := c1step_extend_newCur st1 (reachOf b1.arena b1.cur) [b1.cur]
      (NodeRef.stmtN a)
      (fun x hx => Or.inl (by rw [List.mem_singleton] at hx; rw [hx]; exact hc1))
    generalize hB2 : newCur (reachOf b1.arena b1.cur) [b1.cur] (NodeRef.stmtN a) b1 = b2
      at h2 st2 ⊢
    have hc2 : b2.cur = b1.arena.length := by rw [← hB2, cur_newCur]
    have hl2 : b2.arena.length = b1.arena.length + 1 := by
      rw [← hB2, arena_newCur, length_pushSeg]
    have hpe2 : ∀ s, Prot b2 s ↔ Prot b1 s := by
      intro s
      rw [← hB2]
      exact prot_congr (done_newCur _ _ _ _) (returned_newCur _ _ _ _)
        (thrown_newCur _ _ _ _) s
    obtain ⟨h3, st3x⟩ := ih1 (a ++ [0]) d b2 h2
    have st3 := st2.chain st3x
    generalize hB3 : processStmt (a ++ [0]) d thenS b2 = b3 at h3 st3x st3 ⊢
    have hnp1 : ¬ Prot b3 b1.cur := by
      intro hps
      rcases st3x.2.2.2.1 _ hps with h2p | h2p | h2p
      · exact (h1.1 b1.cur ((hpe2 b1.cur).1 h2p)).2.2.1 rfl
      · have := h1.2.1
        omega
      · have := h1.2.1
        omega
    have h4 : C1Inv (newCur (reachOf b1.arena b1.cur) [b1.cur] (NodeRef.stmtN a) b3) := by
      refine c1inv_push _ _ _ _ ?_ ?_ ?_
      · intro s hs
        obtain ⟨e1, e2, e3, e4⟩ := h3.1 s hs
        refine ⟨e1, e2, Or.inr ?_, e4⟩
        rw [List.mem_singleton]
        intro hsc
        rw [hsc] at hs
        exact hnp1 hs
      · exact h3.2.2.2.2.1
      · exact h3.2.2.2.2.2
    have st4 := c1step_extend_newCur st3 (reachOf b1.arena b1.cur) [b1.cur]
      (NodeRef.stmtN a)
      (fun x hx => Or.inl (by rw [List.mem_singleton] at hx; rw [hx]; exact hc1))
    generalize hB4 : newCur (reachOf b1.arena b1.cur) [b1.cur] (NodeRef.stmtN a) b3 = b4
      at h4 st4 ⊢
    have hc4 : b4.cur = b3.arena.length := by rw [← hB4, cur_newCur]
    have hl4 : b4.arena.length = b3.arena.length + 1 := by
      rw [← hB4, arena_newCur, length_pushSeg]
    have hpe4 : ∀ s, Prot b4 s ↔ Prot b3 s := by
      intro s
      rw [← hB4]
      exact prot_congr (done_newCur _ _ _ _) (returned_newCur _ _ _ _)
        (thrown_newCur _ _ _ _) s
    obtain ⟨h5, st5x⟩ := ih2 (a ++ [1]) d b4 h4
    have st5 := st4.chain st5x
    generalize hB5 : processStmt (a ++ [1]) d elseS b4 = b5 at h5 st5x st5 ⊢
    have hcur3 : b1.arena.length ≤ b3.cur := by
      rcases st3x.2.1 with hcc | hcc <;> omega
    have hlt3 : b3.cur < b3.arena.length := h3.2.1
    have hnp3 : ¬ Prot b5 b3.cur := by
      intro hps
      rcases st5x.2.2.2.1 _ hps with h2p | h2p | h2p
      · exact (h3.1 b3.cur ((hpe4 b3.cur).1 h2p)).2.2.1 rfl
      · omega
      · omega
    constructor
    · refine c1inv_push _ _ _ _ ?_ ?_ ?_
      · intro s hs
        obtain ⟨e1, e2, e3, e4⟩ := h5.1 s hs
        refine ⟨e1, e2, Or.inr ?_, e4⟩
        intro hmem
        rcases List.mem_cons.1 hmem with hm | hm
        · rw [hm] at hs
          exact hnp3 hs
        · rw [List.mem_singleton] at hm
          exact e3 hm
      · exact h5.2.2.2.2.1
      · exact h5.2.2.2.2.2
    · refine c1step_extend_newCur st5 _ _ _ ?_
      intro x hx
      rcases List.mem_cons.1 hx with hm | hm
      · right; right
        rw [hm]
        omega
      · rw [List.mem_singleton] at hm
        right; right
        rw [hm]
        rcases st5x.2.1 with hcc | hcc <;> omega
  | funcDecl body ih =>
    intro a d b h
    simp only [processStmt]
    have h1 := c1inv_flushP (NodeRef.stmtN a) b h
    have st1 := c1step_extend_flushP (c1step_refl b) (NodeRef.stmtN a)
    generalize hB1 : flushP (NodeRef.stmtN a) b = b1 at h1 st1 ⊢
    have hc1 : b1.cur = b.cur := by rw [← hB1, cur_flushP]
    have hk1 : b1.broken = b.broken := by rw [← hB1, broken_flushP]
    have hr1 : b1.returned = b.returned := by rw [← hB1, returned_flushP]
    have ht1 : b1.thrown = b.thrown := by rw [← hB1, thrown_flushP]
    have ha1 : b1.arena = b.arena := by rw [← hB1, arena_flushP]
    have h2 := c1inv_emit (Event.pathStart b1.pathCount (NodeRef.stmtN a)) b1 h1
    have st2 := c1step_extend_emit st1 (Event.pathStart b1.pathCount (NodeRef.stmtN a))
    generalize hB2 : emit (Event.pathStart b1.pathCount (NodeRef.stmtN a)) b1 = b2
      at h2 st2 ⊢
    have hc2 : b2.cur = b1.cur := by rw [← hB2]; rfl
    have hk2 : b2.broken = b1.broken := by rw [← hB2]; rfl
    have hd2 : b2.done = b1.done := by rw [← hB2]; rfl
    have hr2 : b2.returned = b1.returned := by rw [← hB2]; rfl
    have ht2 : b2.thrown = b1.thrown := by rw [← hB2]; rfl
    have ha2 : b2.arena = b1.arena := by rw [← hB2]; rfl
    have hdb1 : b1.done = b.done := by rw [← hB1, done_flushP]
    have hlb2 : b2.arena.length = b.arena.length := by rw [ha2, ha1]
    obtain ⟨bI, hBI⟩ : ∃ bI : Build, ({
        arena := pushSeg b2.arena true [],
        trace := b2.trace ++ [Event.segStart b2.arena.length (NodeRef.stmtN a)],
        done := b2.done, pathCount := b2.pathCount + 1,
        pid := b2.pathCount, upperId := some b1.pid, pnode := NodeRef.stmtN a,
        initialSeg := b2.arena.length, cur := b2.arena.length, pending := false,
        returned := [], thrown := [], owned := [b2.arena.length], children := [],
        broken := [] } : Build) = bI := ⟨_, rfl⟩
    rw [hBI]
    have haI : bI.arena = pushSeg b2.arena true [] := by rw [← hBI]
    have hdI : bI.done = b2.done := by rw [← hBI]
    have hcI : bI.cur = b2.arena.length := by rw [← hBI]
    have hkI : bI.broken = ([] : List Nat) := by rw [← hBI]
    have hrI : bI.returned = ([] : List Nat) := by rw [← hBI]
    have htI : bI.thrown = ([] : List Nat) := by rw [← hBI]
    have hlI : bI.arena.length = b2.arena.length + 1 := by rw [haI, length_pushSeg]
    have hinv : C1Inv bI := by
      refine ⟨?_, ?_, ?_, ?_, ?_, ?_⟩
      · intro s hs
        have hs2 : Prot b2 s := by
          rcases hs with hd | hrt | hth
          · rw [hdI] at hd
            exact Or.inl hd
          · rw [hrI] at hrt
            exact absurd hrt (List.not_mem_nil s)
          · rw [htI] at hth
            exact absurd hth (List.not_mem_nil s)
        obtain ⟨e1, e2, e3, e4⟩ := h2.1 s hs2
        refine ⟨?_, ?_, ?_, ?_⟩
        · rw [hlI]
          omega
        · rw [haI, next_pushSeg_notMem b2.arena true [] s e1 (List.not_mem_nil s)]
          exact e2
        · rw [hcI]
          omega
        · rw [hkI]
          exact List.not_mem_nil s
      · rw [hcI, hlI]
        omega
      · rw [haI, hcI, getSeg_pushSeg_len]
      · rw [hcI, hkI]
        exact List.not_mem_nil _
      · intro s hsm
        rw [hkI] at hsm
        exact absurd hsm (List.not_mem_nil s)
      · intro r hrr s hm
        rw [hdI] at hrr
        exact h2.2.2.2.2.2 r hrr s hm
    obtain ⟨hX, stX⟩ := ih (a ++ [0]) none bI hinv
    generalize hB3 : processStmt (a ++ [0]) none body bI = bX at hX stX ⊢
    have hfa : (finalizePath bX).arena = bX.arena := arena_finalizePath bX
    have hfd : (finalizePath bX).done = bX.done ++ [finishRec bX] := done_finalizePath bX
    generalize hB4 : finalizePath bX = bf at hfa hfd ⊢
    have hlenX : bI.arena.length ≤ bX.arena.length := stX.1
    have hnpres : ∀ i, i < b.arena.length →
        (getSeg bX.arena i).nextSegments = (getSeg b.arena i).nextSegments := by
      intro i hi
      have p3 : (getSeg bI.arena i).nextSegments = (getSeg b2.arena i).nextSegments := by
        rw [haI, next_pushSeg_notMem b2.arena true [] i (by omega) (List.not_mem_nil i)]
      have p4 := stX.2.2.2.2 i (by omega) (by rw [hcI]; omega)
        (by rw [hkI]; exact List.not_mem_nil i)
      rw [p4, p3, ha2, ha1]
    have hXcur : b.arena.length ≤ bX.cur := by
      rcases stX.2.1 with hcx | hcx
      · rw [hcx, hcI]
        omega
      · omega
    have hprotXc : ∀ s, Prot bX s → Prot b s ∨ b.arena.length ≤ s := by
      intro s hs
      rcases stX.2.2.2.1 s hs with h2s | h2s | h2s
      · left
        rcases h2s with hd | hrt | hth
        · rw [hdI, hd2, hdb1] at hd
          exact Or.inl hd
        · rw [hrI] at hrt
          exact absurd hrt (List.not_mem_nil s)
        · rw [htI] at hth
          exact absurd hth (List.not_mem_nil s)
      · right
        rw [h2s, hcI]
        omega
      · right
        omega
    constructor
    · refine ⟨?_, ?_, ?_, ?_, ?_, ?_⟩
      · intro s hs
        have hsplit : Prot bX s ∨ s = bX.cur ∨ Prot b s := by
          rcases hs with hd | hrt | hth
          · obtain ⟨r, hr, hsr⟩ := hd
            rw [hfd] at hr
            rcases List.mem_append.1 hr with hr | hr
            · exact Or.inl (Or.inl ⟨r, hr, hsr⟩)
            · rw [List.mem_singleton] at hr
              subst hr
              rcases finishRec_final_mem bX s hsr with hm | hm | hm
              · exact Or.inl (Or.inr (Or.inl hm))
              · exact Or.inr (Or.inl hm)
              · exact Or.inl (Or.inr (Or.inr hm))
          · have hrt' : s ∈ b1.returned := hrt
            rw [hr1] at hrt'
            exact Or.inr (Or.inr (Or.inr (Or.inl hrt')))
          · have hth' : s ∈ b1.thrown := hth
            rw [ht1] at hth'
            exact Or.inr (Or.inr (Or.inr (Or.inr hth')))
        have hq : s < bX.arena.length ∧ (getSeg bX.arena s).nextSegments = [] ∧
            s ≠ b.cur ∧ s ∉ b.broken := by
          rcases hsplit with hs2 | hs2 | hs2
          · obtain ⟨e1, e2, e3, e4⟩ := hX.1 s hs2
            rcases hprotXc s hs2 with hp2 | hp2
            · obtain ⟨f1, f2, f3, f4⟩ := h.1 s hp2
              exact ⟨e1, e2, f3, f4⟩
            · refine ⟨e1, e2, ?_, ?_⟩
              · have := h.2.1
                omega
              · intro hm
                have := h.2.2.2.2.1 s hm
                omega
          · subst hs2
            refine ⟨hX.2.1, hX.2.2.1, ?_, ?_⟩
            · have := h.2.1
              omega
            · intro hm
              have := h.2.2.2.2.1 _ hm
              omega
          · obtain ⟨f1, f2, f3, f4⟩ := h.1 s hs2
            refine ⟨by omega, ?_, f3, f4⟩
            rw [hnpres s f1]
            exact f2
        refine ⟨?_, ?_, ?_, ?_⟩
        · show s < bf.arena.length
          rw [hfa]
          exact hq.1
        · show (getSeg bf.arena s).nextSegments = []
          rw [hfa]
          exact hq.2.1
        · show s ≠ b1.cur
          rw [hc1]
          exact hq.2.2.1
        · show s ∉ b1.broken
          rw [hk1]
          exact hq.2.2.2
      · show b1.cur < bf.arena.length
        rw [hfa, hc1]
        have := h.2.1
        omega
      · show (getSeg bf.arena b1.cur).nextSegments = []
        rw [hfa, hc1, hnpres b.cur h.2.1]
        exact h.2.2.1
      · show b1.cur ∉ b1.broken
        rw [hc1, hk1]
        exact h.2.2.2.1
      · intro s hm
        have hm' : s ∈ b1.broken := hm
        rw [hk1] at hm'
        show s < bf.arena.length
        rw [hfa]
        have := h.2.2.2.2.1 s hm'
        omega
      · intro r hrr s hm
        have hrr' : r ∈ bf.done := hrr
        rw [hfd] at hrr'
        rcases List.mem_append.1 hrr' with hr2 | hr2
        · exact hX.2.2.2.2.2 r hr2 s hm
        · rw [List.mem_singleton] at hr2
          subst hr2
          exact finishRec_superset bX s hm
    · refine ⟨?_, ?_, ?_, ?_, ?_⟩
      · show b.arena.length ≤ bf.arena.length
        rw [hfa]
        omega
      · left
        show b1.cur = b.cur
        exact hc1
      · intro s hm
        have hm' : s ∈ b1.broken := hm
        rw [hk1] at hm'
        exact Or.inl hm'
      · intro s hs
        have hsplit : Prot bX s ∨ s = bX.cur ∨ Prot b s := by
          rcases hs with hd | hrt | hth
          · obtain ⟨r, hr, hsr⟩ := hd
            rw [hfd] at hr
            rcases List.mem_append.1 hr with hr | hr
            · exact Or.inl (Or.inl ⟨r, hr, hsr⟩)
            · rw [List.mem_singleton] at hr
              subst hr
              rcases finishRec_final_mem bX s hsr with hm | hm | hm
              · exact Or.inl (Or.inr (Or.inl hm))
              · exact Or.inr (Or.inl hm)
              · exact Or.inl (Or.inr (Or.inr hm))
          · have hrt' : s ∈ b1.returned := hrt
            rw [hr1] at hrt'
            exact Or.inr (Or.inr (Or.inr (Or.inl hrt')))
          · have hth' : s ∈ b1.thrown := hth
            rw [ht1] at hth'
            exact Or.inr (Or.inr (Or.inr (Or.inr hth')))
        rcases hsplit with hs2 | hs2 | hs2
        · rcases hprotXc s hs2 with hp2 | hp2
          · exact Or.inl hp2
          · right; right
            exact hp2
        · right; right
          rw [hs2]
          exact hXcur
        · exact Or.inl hs2
      · intro i hi hic hib
        show (getSeg bf.arena i).nextSegments = (getSeg b.arena i).nextSegments
        rw [hfa]
        exact hnpres i hi
  | whileS body ih =>
    intro a d b h
    simp only [processStmt]
    have h1 := c1inv_flushP (NodeRef.stmtN a) b h
    have st1 := c1step_extend_flushP (c1step_refl b) (NodeRef.stmtN a)
    generalize hB1 : flushP (NodeRef.stmtN a) b = b1 at h1 st1 ⊢
    have hc1 : b1.cur = b.cur := by rw [← hB1, cur_flushP]
    have hl1 : b1.arena.length = b.arena.length := by rw [← hB1, arena_flushP]
    have hk1 : b1.broken = b.broken := by rw [← hB1, broken_flushP]
    have h2 : C1Inv (newCur (reachOf b1.arena b1.cur) [b1.cur] (NodeRef.stmtN a) b1) := by
      refine c1inv_push _ _ _ _ ?_ ?_ ?_
      · intro s hs
        obtain ⟨e1, e2, e3, e4⟩ := h1.1 s hs
        exact ⟨e1, e2, Or.inr (by rw [List.mem_singleton]; exact e3), e4⟩
      · exact h1.2.2.2.2.1
      · exact h1.2.2.2.2.2
    have st2 := c1step_extend_newCur st1 (reachOf b1.arena b1.cur) [b1.cur]
      (NodeRef.stmtN a)
      (fun x hx => Or.inl (by rw [List.mem_singleton] at hx; rw [hx]; exact hc1))
    generalize hB2 : newCur (reachOf b1.arena b1.cur) [b1.cur] (NodeRef.stmtN a) b1 = b2
      at h2 st2 ⊢
    have hc2 : b2.cur = b1.arena.length := by rw [← hB2, cur_newCur]
    have hl2 : b2.arena.length = b1.arena.length + 1 := by
      rw [← hB2, arena_newCur, length_pushSeg]
    have hpe2 : ∀ s, Prot b2 s ↔ Prot b1 s := by
      intro s
      rw [← hB2]
      exact prot_congr (done_newCur _ _ _ _) (returned_newCur _ _ _ _)
        (thrown_newCur _ _ _ _) s
    have hnp2 : ¬ Prot b2 b2.cur := notProt_cur h2
    have h3 : C1Inv (newCur (reachOf b1.arena b1.cur) [b2.cur] (NodeRef.childN a) b2) := by
      refine c1inv_push _ _ _ _ ?_ ?_ ?_
      · intro s hs
        obtain ⟨e1, e2, e3, e4⟩ := h2.1 s hs
        exact ⟨e1, e2, Or.inr (by rw [List.mem_singleton]; exact e3), e4⟩
      · exact h2.2.2.2.2.1
      · exact h2.2.2.2.2.2
    have st3 := c1step_extend_newCur st2 (reachOf b1.arena b1.cur) [b2.cur]
      (NodeRef.childN a)
      (fun x hx => Or.inr (Or.inr (by rw [List.mem_singleton] at hx; subst hx; omega)))
    generalize hB3 : newCur (reachOf b1.arena b1.cur) [b2.cur] (NodeRef.childN a) b2 = b3
      at h3 st3 ⊢
    have hc3 : b3.cur = b2.arena.length := by rw [← hB3, cur_newCur]
    have hl3 : b3.arena.length = b2.arena.length + 1 := by
      rw [← hB3, arena_newCur, length_pushSeg]
    have hpe3 : ∀ s, Prot b3 s ↔ Prot b2 s := by
      intro s
      rw [← hB3]
      exact prot_congr (done_newCur _ _ _ _) (returned_newCur _ _ _ _)
        (thrown_newCur _ _ _ _) s
    refine c1_loopTail b { b3 with broken := [] } _ _ (a ++ [0]) body
      (NodeRef.stmtN a) _ _ _ h (c1inv_setBrokenNil b3 h3)
      (c1step_extend_setBroken st3 [] (fun s hm => absurd hm (List.not_mem_nil s)))
      rfl ?_ ?_ ?_ (fun b0 hb0 => ih (a ++ [0]) (some b2.cur) b0 hb0)
    · show b.arena.length ≤ b3.cur
      omega
    · intro s hm
      have hm' : s ∈ b1.broken := hm
      rw [hk1] at hm'
      exact hm'
    · intro x hx
      rw [List.mem_singleton] at hx
      subst hx
      refine ⟨by omega, ?_, ?_, ?_⟩
      · show b2.cur < b3.arena.length
        omega
      · show b2.cur ≠ b3.cur
        omega
      · intro hps
        have hp3 : Prot b3 b2.cur := hps
        exact hnp2 ((hpe3 b2.cur).1 hp3)
  | forS hTest hUpd body ih =>
    intro a d b h
    cases hTest <;> cases hUpd
    · simp only [processStmt, Bool.false_eq_true, eq_self_iff_true, if_false, if_true,
        Bool.false_and]
      have h1 := c1inv_flushP (NodeRef.stmtN a) b h
      have st1 := c1step_extend_flushP (c1step_refl b) (NodeRef.stmtN a)
      generalize hB1 : flushP (NodeRef.stmtN a) b = b1 at h1 st1 ⊢
      have hc1 : b1.cur = b.cur := by rw [← hB1, cur_flushP]
      have hl1 : b1.arena.length = b.arena.length := by rw [← hB1, arena_flushP]
      have hk1 : b1.broken = b.broken := by rw [← hB1, broken_flushP]
      have h2 : C1Inv (newCur (reachOf b1.arena b1.cur) [b1.cur] (NodeRef.childN a) b1) := by
        refine c1inv_push _ _ _ _ ?_ ?_ ?_
        · intro s hs
          obtain ⟨e1, e2, e3, e4⟩ := h1.1 s hs
          exact ⟨e1, e2, Or.inr (by rw [List.mem_singleton]; exact e3), e4⟩
        · exact h1.2.2.2.2.1
        · exact h1.2.2.2.2.2
      have st2 := c1step_extend_newCur st1 (reachOf b1.arena b1.cur) [b1.cur]
        (NodeRef.childN a)
        (fun x hx => Or.inl (by rw [List.mem_singleton] at hx; rw [hx]; exact hc1))
      generalize hB2 : newCur (reachOf b1.arena b1.cur) [b1.cur] (NodeRef.childN a) b1 = b2
        at h2 st2 ⊢
      have hc2 : b2.cur = b1.arena.length := by rw [← hB2, cur_newCur]
      have hl2 : b2.arena.length = b1.arena.length + 1 := by
        rw [← hB2, arena_newCur, length_pushSeg]
      refine c1_loopTail b { b2 with broken := [] } _ _ (a ++ [0]) body
        (NodeRef.stmtN a) _ _ _ h (c1inv_setBrokenNil b2 h2)
        (c1step_extend_setBroken st2 [] (fun s hm => absurd hm (List.not_mem_nil s)))
        rfl ?_ ?_ ?_ (fun b0 hb0 => ih (a ++ [0]) (some b2.cur) b0 hb0)
      · show b.arena.length ≤ b2.cur
        omega
      · intro s hm
        have hm' : s ∈ b1.broken := hm
        rw [hk1] at hm'
        exact hm'
      · intro x hx
        exact absurd hx (List.not_mem_nil x)
    · simp only [processStmt, Bool.false_eq_true, eq_self_iff_true, if_false, if_true,
        Bool.false_and]
      have h1 := c1inv_flushP (NodeRef.stmtN a) b h
      have st1 := c1step_extend_flushP (c1step_refl b) (NodeRef.stmtN a)
      generalize hB1 : flushP (NodeRef.stmtN a) b = b1 at h1 st1 ⊢
      have hc1 : b1.cur = b.cur := by rw [← hB1, cur_flushP]
      have hl1 : b1.arena.length = b.arena.length := by rw [← hB1, arena_flushP]
      have hk1 : b1.broken = b.broken := by rw [← hB1, broken_flushP]
      have h2 : C1Inv (newCur (reachOf b1.arena b1.cur) [] (NodeRef.childN a) b1) := by
        refine c1inv_push _ _ _ _ ?_ ?_ ?_
        · intro s hs
          obtain ⟨e1, e2, e3, e4⟩ := h1.1 s hs
          exact ⟨e1, e2, Or.inr (List.not_mem_nil s), e4⟩
        · exact h1.2.2.2.2.1
        · exact h1.2.2.2.2.2
      have st2 := c1step_extend_newCur st1 (reachOf b1.arena b1.cur) []
        (NodeRef.childN a) (fun x hx => absurd hx (List.not_mem_nil x))
      generalize hB2 : newCur (reachOf b1.arena b1.cur) [] (NodeRef.childN a) b1 = b2
        at h2 st2 ⊢
      have hc2 : b2.cur = b1.arena.length := by rw [← hB2, cur_newCur]
      have hl2 : b2.arena.length = b1.arena.length + 1 := by
        rw [← hB2, arena_newCur, length_pushSeg]
      have hpe2 : ∀ s, Prot b2 s ↔ Prot b1 s := by
        intro s
        rw [← hB2]
        exact prot_congr (done_newCur _ _ _ _) (returned_newCur _ _ _ _)
          (thrown_newCur _ _ _ _) s
      have hnp2 : ¬ Prot b2 b2.cur := notProt_cur h2
      have h3 : C1Inv (newCur (reachOf b1.arena b1.cur) [b1.cur] (NodeRef.childN a) b2) := by
        refine c1inv_push _ _ _ _ ?_ ?_ ?_
        · intro s hs
          obtain ⟨e1, e2, e3, e4⟩ := h2.1 s hs
          refine ⟨e1, e2, Or.inr ?_, e4⟩
          rw [List.mem_singleton]
          intro hsc
          rw [hsc] at hs
          exact (h1.1 b1.cur ((hpe2 b1.cur).1 hs)).2.2.1 rfl
        · exact h2.2.2.2.2.1
        · exact h2.2.2.2.2.2
      have st3 := c1step_extend_newCur st2 (reachOf b1.arena b1.cur) [b1.cur]
        (NodeRef.childN a)
        (fun x hx => Or.inl (by rw [List.mem_singleton] at hx; rw [hx]; exact hc1))
      generalize hB3 : newCur (reachOf b1.arena b1.cur) [b1.cur] (NodeRef.childN a) b2 = b3
        at h3 st3 ⊢
      have hc3 : b3.cur = b2.arena.length := by rw [← hB3, cur_newCur]
      have hl3 : b3.arena.length = b2.arena.length + 1 := by
        rw [← hB3, arena_newCur, length_pushSeg]
      have hpe3 : ∀ s, Prot b3 s ↔ Prot b2 s := by
        intro s
        rw [← hB3]
        exact prot_congr (done_newCur _ _ _ _) (returned_newCur _ _ _ _)
          (thrown_newCur _ _ _ _) s
      have h4 : C1Inv (connectLoop b2.cur b3.cur (NodeRef.childN a) b3) := by
        refine c1inv_connect_ne b2.cur b3.cur (NodeRef.childN a) b3 h3 ?_ ?_
        · intro hps
          exact hnp2 ((hpe3 b2.cur).1 hps)
        · show b3.cur ≠ b2.cur
          omega
      have st4 := c1step_extend_connect st3 b2.cur b3.cur (NodeRef.childN a)
        (Or.inr (by omega))
      generalize hB4 : connectLoop b2.cur b3.cur (NodeRef.childN a) b3 = b4 at h4 st4 ⊢
      have hc4 : b4.cur = b3.cur := by rw [← hB4]; rfl
      have hl4 : b4.arena.length = b3.arena.length := by
        rw [← hB4, arena_connectLoop, length_addLoopArena]
      refine c1_loopTail b { b4 with broken := [] } _ _ (a ++ [0]) body
        (NodeRef.stmtN a) _ _ _ h (c1inv_setBrokenNil b4 h4)
        (c1step_extend_setBroken st4 [] (fun s hm => absurd hm (List.not_mem_nil s)))
        rfl ?_ ?_ ?_ (fun b0 hb0 => ih (a ++ [0]) (some b2.cur) b0 hb0)
      · show b.arena.length ≤ b4.cur
        omega
      · intro s hm
        have hm' : s ∈ b1.broken := hm
        rw [hk1] at hm'
        exact hm'
      · intro x hx
        exact absurd hx (List.not_mem_nil x)
    · simp only [processStmt, Bool.false_eq_true, eq_self_iff_true, if_false, if_true,
        Bool.true_and]
      have h1 := c1inv_flushP (NodeRef.stmtN a) b h
      have st1 := c1step_extend_flushP (c1step_refl b) (NodeRef.stmtN a)
      generalize hB1 : flushP (NodeRef.stmtN a) b = b1 at h1 st1 ⊢
      have hc1 : b1.cur = b.cur := by rw [← hB1, cur_flushP]
      have hl1 : b1.arena.length = b.arena.length := by rw [← hB1, arena_flushP]
      have hk1 : b1.broken = b.broken := by rw [← hB1, broken_flushP]
      have h2 : C1Inv (newCur (reachOf b1.arena b1.cur) [b1.cur] (NodeRef.childN a) b1) := by
        refine c1inv_push _ _ _ _ ?_ ?_ ?_
        · intro s hs
          obtain ⟨e1, e2, e3, e4⟩ := h1.1 s hs
          exact ⟨e1, e2, Or.inr (by rw [List.mem_singleton]; exact e3), e4⟩
        · exact h1.2.2.2.2.1
        · exact h1.2.2.2.2.2
      have st2 := c1step_extend_newCur st1 (reachOf b1.arena b1.cur) [b1.cur]
        (NodeRef.childN a)
        (fun x hx => Or.inl (by rw [List.mem_singleton] at hx; rw [hx]; exact hc1))
      generalize hB2 : newCur (reachOf b1.arena b1.cur) [b1.cur] (NodeRef.childN a) b1 = b2
        at h2 st2 ⊢
      have hc2 : b2.cur = b1.arena.length := by rw [← hB2, cur_newCur]
      have hl2 : b2.arena.length = b1.arena.length + 1 := by
        rw [← hB2, arena_newCur, length_pushSeg]
      have hpe2 : ∀ s, Prot b2 s ↔ Prot b1 s := by
        intro s
        rw [← hB2]
        exact prot_congr (done_newCur _ _ _ _) (returned_newCur _ _ _ _)
          (thrown_newCur _ _ _ _) s
      have hnp2 : ¬ Prot b2 b2.cur := notProt_cur h2
      have h3 : C1Inv (newCur (reachOf b1.arena b1.cur) [b2.cur] (NodeRef.childN a) b2) := by
        refine c1inv_push _ _ _ _ ?_ ?_ ?_
        · intro s hs
          obtain ⟨e1, e2, e3, e4⟩ := h2.1 s hs
          exact ⟨e1, e2, Or.inr (by rw [List.mem_singleton]; exact e3), e4⟩
        · exact h2.2.2.2.2.1
        · exact h2.2.2.2.2.2
      have st3 := c1step_extend_newCur st2 (reachOf b1.arena b1.cur) [b2.cur]
        (NodeRef.childN a)
        (fun x hx => Or.inr (Or.inr (by rw [List.mem_singleton] at hx; subst hx; omega)))
      generalize hB3 : newCur (reachOf b1.arena b1.cur) [b2.cur] (NodeRef.childN a) b2 = b3
        at h3 st3 ⊢
      have hc3 : b3.cur = b2.arena.length := by rw [← hB3, cur_newCur]
      have hl3 : b3.arena.length = b2.arena.length + 1 := by
        rw [← hB3, arena_newCur, length_pushSeg]
      have hpe3 : ∀ s, Prot b3 s ↔ Prot b2 s := by
        intro s
        rw [← hB3]
        exact prot_congr (done_newCur _ _ _ _) (returned_newCur _ _ _ _)
          (thrown_newCur _ _ _ _) s
      refine c1_loopTail b { b3 with broken := [] } _ _ (a ++ [0]) body
        (NodeRef.stmtN a) _ _ _ h (c1inv_setBrokenNil b3 h3)
        (c1step_extend_setBroken st3 [] (fun s hm => absurd hm (List.not_mem_nil s)))
        rfl ?_ ?_ ?_ (fun b0 hb0 => ih (a ++ [0]) (some b2.cur) b0 hb0)
      · show b.arena.length ≤ b3.cur
        omega
      · intro s hm
        have hm' : s ∈ b1.broken := hm
        rw [hk1] at hm'
        exact hm'
      · intro x hx
        rw [List.mem_singleton] at hx
        subst hx
        refine ⟨by omega, ?_, ?_, ?_⟩
        · show b2.cur < b3.arena.length
          omega
        · show b2.cur ≠ b3.cur
          omega
        · intro hps
          have hp3 : Prot b3 b2.cur := hps
          exact hnp2 ((hpe3 b2.cur).1 hp3)
    · simp only [processStmt, Bool.false_eq_true, eq_self_iff_true, if_false, if_true,
        Bool.true_and]
      have h1 := c1inv_flushP (NodeRef.stmtN a) b h
      have st1 := c1step_extend_flushP (c1step_refl b) (NodeRef.stmtN a)
      generalize hB1 : flushP (NodeRef.stmtN a) b = b1 at h1 st1 ⊢
      have hc1 : b1.cur = b.cur := by rw [← hB1, cur_flushP]
      have hl1 : b1.arena.length = b.arena.length := by rw [← hB1, arena_flushP]
      have hk1 : b1.broken = b.broken := by rw [← hB1, broken_flushP]
      have h2 : C1Inv (newCur (reachOf b1.arena b1.cur) [b1.cur] (NodeRef.childN a) b1) := by
        refine c1inv_push _ _ _ _ ?_ ?_ ?_
        · intro s hs
          obtain ⟨e1, e2, e3, e4⟩ := h1.1 s hs
          exact ⟨e1, e2, Or.inr (by rw [List.mem_singleton]; exact e3), e4⟩
        · exact h1.2.2.2.2.1
        · exact h1.2.2.2.2.2
      have st2 := c1step_extend_newCur st1 (reachOf b1.arena b1.cur) [b1.cur]
        (NodeRef.childN a)
        (fun x hx => Or.inl (by rw [List.mem_singleton] at hx; rw [hx]; exact hc1))
      generalize hB2 : newCur (reachOf b1.arena b1.cur) [b1.cur] (NodeRef.childN a) b1 = b2
        at h2 st2 ⊢
      have hc2 : b2.cur = b1.arena.length := by rw [← hB2, cur_newCur]
      have hl2 : b2.arena.length = b1.arena.length + 1 := by
        rw [← hB2, arena_newCur, length_pushSeg]
      have hpe2 : ∀ s, Prot b2 s ↔ Prot b1 s := by
        intro s
        rw [← hB2]
        exact prot_congr (done_newCur _ _ _ _) (returned_newCur _ _ _ _)
          (thrown_newCur _ _ _ _) s
      have hnp2 : ¬ Prot b2 b2.cur := notProt_cur h2
      have h3 : C1Inv (newCur (reachOf b1.arena b1.cur) [] (NodeRef.childN a) b2) := by
        refine c1inv_push _ _ _ _ ?_ ?_ ?_
        · intro s hs
          obtain ⟨e1, e2, e3, e4⟩ := h2.1 s hs
          exact ⟨e1, e2, Or.inr (List.not_mem_nil s), e4⟩
        · exact h2.2.2.2.2.1
        · exact h2.2.2.2.2.2
      have st3 := c1step_extend_newCur st2 (reachOf b1.arena b1.cur) []
        (NodeRef.childN a) (fun x hx => absurd hx (List.not_mem_nil x))
      generalize hB3 : newCur (reachOf b1.arena b1.cur) [] (NodeRef.childN a) b2 = b3
        at h3 st3 ⊢
      have hc3 : b3.cur = b2.arena.length := by rw [← hB3, cur_newCur]
      have hl3 : b3.arena.length = b2.arena.length + 1 := by
        rw [← hB3, arena_newCur, length_pushSeg]
      have hpe3 : ∀ s, Prot b3 s ↔ Prot b2 s := by
        intro s
        rw [← hB3]
        exact prot_congr (done_newCur _ _ _ _) (returned_newCur _ _ _ _)
          (thrown_newCur _ _ _ _) s
      have hnp3 : ¬ Prot b3 b3.cur := notProt_cur h3
      have h4 : C1Inv (newCur (reachOf b1.arena b1.cur) [b2.cur] (NodeRef.childN a) b3) := by
        refine c1inv_push _ _ _ _ ?_ ?_ ?_
        · intro s hs
          obtain ⟨e1, e2, e3, e4⟩ := h3.1 s hs
          refine ⟨e1, e2, Or.inr ?_, e4⟩
          rw [List.mem_singleton]
          intro hsc
          rw [hsc] at hs
          exact hnp2 ((hpe3 b2.cur).1 hs)
        · exact h3.2.2.2.2.1
        · exact h3.2.2.2.2.2
      have st4 := c1step_extend_newCur st3 (reachOf b1.arena b1.cur) [b2.cur]
        (NodeRef.childN a)
        (fun x hx => Or.inr (Or.inr (by rw [List.mem_singleton] at hx; subst hx; omega)))
      generalize hB4 : newCur (reachOf b1.arena b1.cur) [b2.cur] (NodeRef.childN a) b3 = b4
        at h4 st4 ⊢
      have hc4 : b4.cur = b3.arena.length := by rw [← hB4, cur_newCur]
      have hl4 : b4.arena.length = b3.arena.length + 1 := by
        rw [← hB4, arena_newCur, length_pushSeg]
      have hpe4 : ∀ s, Prot b4 s ↔ Prot b3 s := by
        intro s
        rw [← hB4]
        exact prot_congr (done_newCur _ _ _ _) (returned_newCur _ _ _ _)
          (thrown_newCur _ _ _ _) s
      have h5 : C1Inv (connectLoop b3.cur b2.cur (NodeRef.childN a) b4) := by
        refine c1inv_connect_ne b3.cur b2.cur (NodeRef.childN a) b4 h4 ?_ ?_
        · intro hps
          exact hnp3 ((hpe4 b3.cur).1 hps)
        · show b4.cur ≠ b3.cur
          omega
      have st5 := c1step_extend_connect st4 b3.cur b2.cur (NodeRef.childN a)
        (Or.inr (by omega))
      generalize hB5 : connectLoop b3.cur b2.cur (NodeRef.childN a) b4 = b5 at h5 st5 ⊢
      have hc5 : b5.cur = b4.cur := by rw [← hB5]; rfl
      have hl5 : b5.arena.length = b4.arena.length := by
        rw [← hB5, arena_connectLoop, length_addLoopArena]
      have hpe5 : ∀ s, Prot b5 s ↔ Prot b4 s := by
        intro s
        rw [← hB5]
        exact Iff.rfl
      refine c1_loopTail b { b5 with broken := [] } _ _ (a ++ [0]) body
        (NodeRef.stmtN a) _ _ _ h (c1inv_setBrokenNil b5 h5)
        (c1step_extend_setBroken st5 [] (fun s hm => absurd hm (List.not_mem_nil s)))
        rfl ?_ ?_ ?_ (fun b0 hb0 => ih (a ++ [0]) (some b3.cur) b0 hb0)
      · show b.arena.length ≤ b5.cur
        omega
      · intro s hm
        have hm' : s ∈ b1.broken := hm
        rw [hk1] at hm'
        exact hm'
      · intro x hx
        rw [List.mem_singleton] at hx
        subst hx
        refine ⟨by omega, ?_, ?_, ?_⟩
        · show b2.cur < b5.arena.length
          omega
        · show b2.cur ≠ b5.cur
          omega
        · intro hps
          have hp5 : Prot b5 b2.cur := hps
          exact hnp2 ((hpe3 b2.cur).1 ((hpe4 b2.cur).1 ((hpe5 b2.cur).1 hp5)))
  | forIn body ih =>
    intro a d b h
    simp only [processStmt]
    have h1 := c1inv_flushP (NodeRef.stmtN a) b h
    have st1 := c1step_extend_flushP (c1step_refl b) (NodeRef.stmtN a)
    generalize hB1 : flushP (NodeRef.stmtN a) b = b1 at h1 st1 ⊢
    have hc1 : b1.cur = b.cur := by rw [← hB1, cur_flushP]
    have hl1 : b1.arena.length = b.arena.length := by rw [← hB1, arena_flushP]
    have hk1 : b1.broken = b.broken := by rw [← hB1, broken_flushP]
    have h2 : C1Inv (newCur (reachOf b1.arena b1.cur) [] (NodeRef.childN a) b1) := by
      refine c1inv_push _ _ _ _ ?_ ?_ ?_
      · intro s hs
        obtain ⟨e1, e2, e3, e4⟩ := h1.1 s hs
        exact ⟨e1, e2, Or.inr (List.not_mem_nil s), e4⟩
      · exact h1.2.2.2.2.1
      · exact h1.2.2.2.2.2
    have st2 := c1step_extend_newCur st1 (reachOf b1.arena b1.cur) []
      (NodeRef.childN a) (fun x hx => absurd hx (List.not_mem_nil x))
    generalize hB2 : newCur (reachOf b1.arena b1.cur) [] (NodeRef.childN a) b1 = b2
      at h2 st2 ⊢
    have hc2 : b2.cur = b1.arena.length := by rw [← hB2, cur_newCur]
    have hl2 : b2.arena.length = b1.arena.length + 1 := by
      rw [← hB2, arena_newCur, length_pushSeg]
    have hpe2 : ∀ s, Prot b2 s ↔ Prot b1 s := by
      intro s
      rw [← hB2]
      exact prot_congr (done_newCur _ _ _ _) (returned_newCur _ _ _ _)
        (thrown_newCur _ _ _ _) s
    have hnp2 : ¬ Prot b2 b2.cur := notProt_cur h2
    have h3 : C1Inv (newCur (reachOf b1.arena b1.cur) [b1.cur] (NodeRef.childN a) b2) := by
      refine c1inv_push _ _ _ _ ?_ ?_ ?_
      · intro s hs
        obtain ⟨e1, e2, e3, e4⟩ := h2.1 s hs
        refine ⟨e1, e2, Or.inr ?_, e4⟩
        rw [List.mem_singleton]
        intro hsc
        rw [hsc] at hs
        exact (h1.1 b1.cur ((hpe2 b1.cur).1 hs)).2.2.1 rfl
      · exact h2.2.2.2.2.1
      · exact h2.2.2.2.2.2
    have st3 := c1step_extend_newCur st2 (reachOf b1.arena b1.cur) [b1.cur]
      (NodeRef.childN a)
      (fun x hx => Or.inl (by rw [List.mem_singleton] at hx; rw [hx]; exact hc1))
    generalize hB3 : newCur (reachOf b1.arena b1.cur) [b1.cur] (NodeRef.childN a) b2 = b3
      at h3 st3 ⊢
    have hc3 : b3.cur = b2.arena.length := by rw [← hB3, cur_newCur]
    have hl3 : b3.arena.length = b2.arena.length + 1 := by
      rw [← hB3, arena_newCur, length_pushSeg]
    have hpe3 : ∀ s, Prot b3 s ↔ Prot b2 s := by
      intro s
      rw [← hB3]
      exact prot_congr (done_newCur _ _ _ _) (returned_newCur _ _ _ _)
        (thrown_newCur _ _ _ _) s
    have h4 : C1Inv (newCur (reachOf b1.arena b1.cur) [b2.cur] (NodeRef.childN a)
        (connectLoop b3.cur b2.cur (NodeRef.childN a) b3)) := by
      refine c1inv_push _ _ _ _ ?_ ?_ ?_
      · intro s hs
        have hs3 : Prot b3 s := hs
        obtain ⟨e1, e2, e3, e4⟩ := h3.1 s hs3
        have hs2 : s ≠ b2.cur := (h2.1 s ((hpe3 s).1 hs3)).2.2.1
        refine ⟨?_, ?_, Or.inr (by rw [List.mem_singleton]; exact hs2), e4⟩
        · show s < (addLoopArena b3.arena b3.cur b2.cur).length
          rw [length_addLoopArena]
          exact e1
        · show (getSeg (addLoopArena b3.arena b3.cur b2.cur) s).nextSegments = []
          rw [next_addLoopArena_ne b3.arena b3.cur b2.cur s e3]
          exact e2
      · intro s hm
        have hm' : s ∈ b3.broken := hm
        show s < (addLoopArena b3.arena b3.cur b2.cur).length
        rw [length_addLoopArena]
        exact h3.2.2.2.2.1 s hm'
      · intro r hrr s hm
        have hrr' : r ∈ b3.done := hrr
        exact h3.2.2.2.2.2 r hrr' s hm
    have st4 := c1step_extend_newCur (c1step_extend_connect st3 b3.cur b2.cur
        (NodeRef.childN a) (Or.inr (by omega))) (reachOf b1.arena b1.cur) [b2.cur]
      (NodeRef.childN a)
      (fun x hx => Or.inr (Or.inr (by rw [List.mem_singleton] at hx; subst hx; omega)))
    generalize hB4 : newCur (reachOf b1.arena b1.cur) [b2.cur] (NodeRef.childN a)
      (connectLoop b3.cur b2.cur (NodeRef.childN a) b3) = b4 at h4 st4 ⊢
    have hc4 : b4.cur = b3.arena.length := by
      rw [← hB4, cur_newCur, arena_connectLoop, length_addLoopArena]
    have hl4 : b4.arena.length = b3.arena.length + 1 := by
      rw [← hB4, arena_newCur, length_pushSeg, arena_connectLoop, length_addLoopArena]
    have hpe4 : ∀ s, Prot b4 s ↔ Prot b3 s := by
      intro s
      rw [← hB4]
      exact prot_congr (done_newCur _ _ _ _) (returned_newCur _ _ _ _)
        (thrown_newCur _ _ _ _) s
    refine c1_loopTail b { b4 with broken := [] } _ _ (a ++ [0]) body
      (NodeRef.stmtN a) _ _ _ h (c1inv_setBrokenNil b4 h4)
      (c1step_extend_setBroken st4 [] (fun s hm => absurd hm (List.not_mem_nil s)))
      rfl ?_ ?_ ?_ (fun b0 hb0 => ih (a ++ [0]) (some b2.cur) b0 hb0)
    · show b.arena.length ≤ b4.cur
      omega
    · intro s hm
      have hm' : s ∈ b1.broken := hm
      rw [hk1] at hm'
      exact hm'
    · intro x hx
      rw [List.mem_singleton] at hx
      subst hx
      refine ⟨by omega, ?_, ?_, ?_⟩
      · show b3.cur < b4.arena.length
        omega
      · show b3.cur ≠ b4.cur
        omega
      · intro hps
        have hp4 : Prot b4 b3.cur := hps
        exact notProt_cur h3 ((hpe4 b3.cur).1 hp4)
  | forOf body ih =>
    intro a d b h
    simp only [processStmt]
    have h1 := c1inv_flushP (NodeRef.stmtN a) b h
    have st1 := c1step_extend_flushP (c1step_refl b) (NodeRef.stmtN a)
    generalize hB1 : flushP (NodeRef.stmtN a) b = b1 at h1 st1 ⊢
    have hc1 : b1.cur = b.cur := by rw [← hB1, cur_flushP]
    have hl1 : b1.arena.length = b.arena.length := by rw [← hB1, arena_flushP]
    have hk1 : b1.broken = b.broken := by rw [← hB1, broken_flushP]
    have h2 : C1Inv (newCur (reachOf b1.arena b1.cur) [] (NodeRef.childN a) b1) := by
      refine c1inv_push _ _ _ _ ?_ ?_ ?_
      · intro s hs
        obtain ⟨e1, e2, e3, e4⟩ := h1.1 s hs
        exact ⟨e1, e2, Or.inr (List.not_mem_nil s), e4⟩
      · exact h1.2.2.2.2.1
      · exact h1.2.2.2.2.2
    have st2 := c1step_extend_newCur st1 (reachOf b1.arena b1.cur) []
      (NodeRef.childN a) (fun x hx => absurd hx (List.not_mem_nil x))
    generalize hB2 : newCur (reachOf b1.arena b1.cur) [] (NodeRef.childN a) b1 = b2
      at h2 st2 ⊢
    have hc2 : b2.cur = b1.arena.length := by rw [← hB2, cur_newCur]
    have hl2 : b2.arena.length = b1.arena.length + 1 := by
      rw [← hB2, arena_newCur, length_pushSeg]
    have hpe2 : ∀ s, Prot b2 s ↔ Prot b1 s := by
      intro s
      rw [← hB2]
      exact prot_congr (done_newCur _ _ _ _) (returned_newCur _ _ _ _)
        (thrown_newCur _ _ _ _) s
    have hnp2 : ¬ Prot b2 b2.cur := notProt_cur h2
    have h3 : C1Inv (newCur (reachOf b1.arena b1.cur) [b1.cur] (NodeRef.childN a) b2) := by
      refine c1inv_push _ _ _ _ ?_ ?_ ?_
      · intro s hs
        obtain ⟨e1, e2, e3, e4⟩ := h2.1 s hs
        refine ⟨e1, e2, Or.inr ?_, e4⟩
        rw [List.mem_singleton]
        intro hsc
        rw [hsc] at hs
        exact (h1.1 b1.cur ((hpe2 b1.cur).1 hs)).2.2.1 rfl
      · exact h2.2.2.2.2.1
      · exact h2.2.2.2.2.2
    have st3 := c1step_extend_newCur st2 (reachOf b1.arena b1.cur) [b1.cur]
      (NodeRef.childN a)
      (fun x hx => Or.inl (by rw [List.mem_singleton] at hx; rw [hx]; exact hc1))
    generalize hB3 : newCur (reachOf b1.arena b1.cur) [b1.cur] (NodeRef.childN a) b2 = b3
      at h3 st3 ⊢
    have hc3 : b3.cur = b2.arena.length := by rw [← hB3, cur_newCur]
    have hl3 : b3.arena.length = b2.arena.length + 1 := by
      rw [← hB3, arena_newCur, length_pushSeg]
    have hpe3 : ∀ s, Prot b3 s ↔ Prot b2 s := by
      intro s
      rw [← hB3]
      exact prot_congr (done_newCur _ _ _ _) (returned_newCur _ _ _ _)
        (thrown_newCur _ _ _ _) s
    have h4 : C1Inv (newCur (reachOf b1.arena b1.cur) [b2.cur] (NodeRef.childN a)
        (connectLoop b3.cur b2.cur (NodeRef.childN a) b3)) := by
      refine c1inv_push _ _ _ _ ?_ ?_ ?_
      · intro s hs
        have hs3 : Prot b3 s := hs
        obtain ⟨e1, e2, e3, e4⟩ := h3.1 s hs3
        have hs2 : s ≠ b2.cur := (h2.1 s ((hpe3 s).1 hs3)).2.2.1
        refine ⟨?_, ?_, Or.inr (by rw [List.mem_singleton]; exact hs2), e4⟩
        · show s < (addLoopArena b3.arena b3.cur b2.cur).length
          rw [length_addLoopArena]
          exact e1
        · show (getSeg (addLoopArena b3.arena b3.cur b2.cur) s).nextSegments = []
          rw [next_addLoopArena_ne b3.arena b3.cur b2.cur s e3]
          exact e2
      · intro s hm
        have hm' : s ∈ b3.broken := hm
        show s < (addLoopArena b3.arena b3.cur b2.cur).length
        rw [length_addLoopArena]
        exact h3.2.2.2.2.1 s hm'
      · intro r hrr s hm
        have hrr' : r ∈ b3.done := hrr
        exact h3.2.2.2.2.2 r hrr' s hm
    have st4 := c1step_extend_newCur (c1step_extend_connect st3 b3.cur b2.cur
        (NodeRef.childN a) (Or.inr (by omega))) (reachOf b1.arena b1.cur) [b2.cur]
      (NodeRef.childN a)
      (fun x hx => Or.inr (Or.inr (by rw [List.mem_singleton] at hx; subst hx; omega)))
    generalize hB4 : newCur (reachOf b1.arena b1.cur) [b2.cur] (NodeRef.childN a)
      (connectLoop b3.cur b2.cur (NodeRef.childN a) b3) = b4 at h4 st4 ⊢
    have hc4 : b4.cur = b3.arena.length := by
      rw [← hB4, cur_newCur, arena_connectLoop, length_addLoopArena]
    have hl4 : b4.arena.length = b3.arena.length + 1 := by
      rw [← hB4, arena_newCur, length_pushSeg, arena_connectLoop, length_addLoopArena]
    have hpe4 : ∀ s, Prot b4 s ↔ Prot b3 s := by
      intro s
      rw [← hB4]
      exact prot_congr (done_newCur _ _ _ _) (returned_newCur _ _ _ _)
        (thrown_newCur _ _ _ _) s
    refine c1_loopTail b { b4 with broken := [] } _ _ (a ++ [0]) body
      (NodeRef.stmtN a) _ _ _ h (c1inv_setBrokenNil b4 h4)
      (c1step_extend_setBroken st4 [] (fun s hm => absurd hm (List.not_mem_nil s)))
      rfl ?_ ?_ ?_ (fun b0 hb0 => ih (a ++ [0]) (some b2.cur) b0 hb0)
    · show b.arena.length ≤ b4.cur
      omega
    · intro s hm
      have hm' : s ∈ b1.broken := hm
      rw [hk1] at hm'
      exact hm'
    · intro x hx
      rw [List.mem_singleton] at hx
      subst hx
      refine ⟨by omega, ?_, ?_, ?_⟩
      · show b3.cur < b4.arena.length
        omega
      · show b3.cur ≠ b4.cur
        omega
      · intro hps
        have hp4 : Prot b4 b3.cur := hps
        exact notProt_cur h3 ((hpe4 b3.cur).1 hp4)

/-- The protection invariant holds at the start of an analysis run. -/
theorem c1inv_startBuild : C1Inv startBuild := by
  refine ⟨?_, by decide, by decide, by decide, ?_, ?_⟩
  · intro s hs
    rcases hs with ⟨r, hr, -⟩ | hs2 | hs2
    · exact absurd hr (List.not_mem_nil r)
    · exact absurd hs2 (List.not_mem_nil s)
    · exact absurd hs2 (List.not_mem_nil s)
  · intro s hm
    exact absurd hm (List.not_mem_nil s)
  · intro r hrm
    exact absurd hrm (List.not_mem_nil r)

/-- C1: for every Path record produced by an analysis run, the final
segments contain every returned segment and every thrown segment, and at
finalization time every final segment's plain nextSegments list is
empty. -/
theorem c1_final_superset_and_no_next (t : Stmt) (r : PathRec)
    (hr : r ∈ (analyze t).done) :
    (∀ s, s ∈ r.returnedSegments ∨ s ∈ r.thrownSegments → s ∈ r.finalSegments) ∧
    ∀ s ∈ r.finalSegments, (getSeg (analyze t).arena s).nextSegments = [] := by
  obtain ⟨hX, -⟩ := c1inv_processStmt t [] none startBuild c1inv_startBuild
  rw [analyze, arena_finalizePath]
  rw [analyze, done_finalizePath] at hr
  rcases List.mem_append.1 hr with hr2 | hr2
  · refine ⟨fun s hs => hX.2.2.2.2.2 r hr2 s hs, ?_⟩
    intro s hs
    exact (hX.1 s (Or.inl ⟨r, hr2, hs⟩)).2.1
  · rw [List.mem_singleton] at hr2
    subst hr2
    refine ⟨fun s hs => finishRec_superset _ s hs, ?_⟩
    intro s hs
    rcases finishRec_final_mem _ s hs with hm | hm | hm
    · exact (hX.1 s (Or.inr (Or.inl hm))).2.1
    · rw [hm]
      exact hX.2.2.1
    · exact (hX.1 s (Or.inr (Or.inr hm))).2.1

/-- Concrete instantiation of the C1 theorem on the function path of
"function foo() \x7b if (a) return 0; else throw 1; \x7d". -/
theorem c1_final_superset_and_no_next_witness :
    (analyze progIfRetThrow).done.getD 0 ⟨0, none, NodeRef.program, [], 0, [], [], [], []⟩
        ∈ (analyze progIfRetThrow).done ∧
    ((∀ s, s ∈ ((analyze progIfRetThrow).done.getD 0
            ⟨0, none, NodeRef.program, [], 0, [], [], [], []⟩).returnedSegments ∨
          s ∈ ((analyze progIfRetThrow).done.getD 0
            ⟨0, none, NodeRef.program, [], 0, [], [], [], []⟩).thrownSegments →
        s ∈ ((analyze progIfRetThrow).done.getD 0
          ⟨0, none, NodeRef.program, [], 0, [], [], [], []⟩).finalSegments) ∧
      ∀ s ∈ ((analyze progIfRetThrow).done.getD 0
          ⟨0, none, NodeRef.program, [], 0, [], [], [], []⟩).finalSegments,
        (getSeg (analyze progIfRetThrow).arena s).nextSegments = []) :=
  ⟨by decide, c1_final_superset_and_no_next progIfRetThrow _ (by decide)⟩


/-! ## Event-ordering: trace extension and field equations -/

theorem owned_flushP (n : NodeRef) (b : Build) : (flushP n b).owned = b.owned := by
  unfold flushP
  split <;> rfl

theorem pid_flushP (n : NodeRef) (b : Build) : (flushP n b).pid = b.pid := by
  unfold flushP
  split <;> rfl

theorem pnode_flushP (n : NodeRef) (b : Build) : (flushP n b).pnode = b.pnode := by
  unfold flushP
  split <;> rfl

theorem initialSeg_flushP (n : NodeRef) (b : Build) :
    (flushP n b).initialSeg = b.initialSeg := by
  unfold flushP
  split <;> rfl

theorem refs_endEv (A : List SegData) (c : Nat) (n : NodeRef) :
    refs (endEv A c n) = [c] := by
  unfold endEv
  split <;> rfl

theorem endedE_endEv (A : List SegData) (c : Nat) (n : NodeRef) :
    endedE c (endEv A c n) = true := by
  unfold endEv
  split <;> simp [endedE]

theorem ended_append (s : Nat) (tr ext : List Event) (h : ended s tr = true) :
    ended s (tr ++ ext) = true := by
  unfold ended at h ⊢
  rw [List.any_append, h]
  rfl

theorem text_rfl (b : Build) : TExt b b :=
  ⟨le_refl _, ⟨[], (List.append_nil b.trace).symm⟩⟩

theorem TExt.glue {a b c : Build} (h1 : TExt a b) (h2 : TExt b c) : TExt a c := by
  obtain ⟨l1, e1, t1⟩ := h1
  obtain ⟨l2, e2, t2⟩ := h2
  exact ⟨le_trans l1 l2, ⟨e1 ++ e2, by rw [t2, t1, List.append_assoc]⟩⟩

theorem text_of_eqs (b b' : Build) (ha : b'.arena = b.arena) (ht : b'.trace = b.trace) :
    TExt b b' :=
  ⟨le_of_eq (congrArg List.length ha).symm, ⟨[], by rw [ht, List.append_nil]⟩⟩

theorem text_flushP (n : NodeRef) (b : Build) : TExt b (flushP n b) := by
  unfold flushP
  split
  · exact ⟨le_refl _, ⟨[Event.unreachableSegStart b.cur n], rfl⟩⟩
  · exact text_rfl b

theorem text_emit (e : Event) (b : Build) : TExt b (emit e b) :=
  ⟨le_refl _, ⟨[e], rfl⟩⟩

theorem text_newCur (rb : Bool) (p : List Nat) (n : NodeRef) (b : Build) :
    TExt b (newCur rb p n b) := by
  simp only [newCur]
  refine TExt.glue (TExt.glue (text_flushP n b)
    (text_emit (endEv (flushP n b).arena (flushP n b).cur n) (flushP n b))) ?_
  generalize emit (endEv (flushP n b).arena (flushP n b).cur n) (flushP n b) = b2
  split
  · refine ⟨?_, ⟨[Event.segStart b2.arena.length n], rfl⟩⟩
    show b2.arena.length ≤ (pushSeg b2.arena rb p).length
    rw [length_pushSeg]
    omega
  · refine ⟨?_, ⟨[], (List.append_nil b2.trace).symm⟩⟩
    show b2.arena.length ≤ (pushSeg b2.arena rb p).length
    rw [length_pushSeg]
    omega

theorem text_connectLoop (f t : Nat) (n : NodeRef) (b : Build) :
    TExt b (connectLoop f t n b) := by
  refine ⟨?_, ⟨[Event.loopConnect f t n], rfl⟩⟩
  show b.arena.length ≤ (addLoopArena b.arena f t).length
  rw [length_addLoopArena]

theorem text_afterLoop (hr : Bool) (hp : List Nat) (n : NodeRef) (sv : List Nat)
    (b : Build) : TExt b (afterLoop hr hp n sv b) := by
  unfold afterLoop
  exact TExt.glue (text_of_eqs b { b with broken := sv } rfl rfl) (text_newCur _ _ _ _)

theorem text_finalizePath (b : Build) : TExt b (finalizePath b) := by
  simp only [finalizePath]
  exact TExt.glue (text_flushP b.pnode b) (TExt.glue (text_emit _ _)
    (TExt.glue (text_emit _ _) ⟨le_refl _, ⟨[], (List.append_nil _).symm⟩⟩))

/-! ## Event-ordering: tree addresses and the nodes of emitted events -/

theorem nodeOf_endEv (A : List SegData) (c : Nat) (n : NodeRef) :
    nodeOf (endEv A c n) = n := by
  unfold endEv
  split <;> rfl

theorem addrLe_exists : ∀ (p x : List Nat), addrLe p x = true ↔ ∃ s, x = p ++ s := by
  intro p
  induction p with
  | nil =>
    intro x
    constructor
    · intro hx
      exact ⟨x, rfl⟩
    · intro hx
      rfl
  | cons q qs ih =>
    intro x
    cases x with
    | nil =>
      constructor
      · intro hx
        exact absurd hx (by simp [addrLe])
      · intro hx
        obtain ⟨s, hs⟩ := hx
        exact absurd hs (by simp)
    | cons y ys =>
      constructor
      · intro hx
        simp only [addrLe, Bool.and_eq_true, beq_iff_eq] at hx
        obtain ⟨hqy, hrest⟩ := hx
        obtain ⟨s, hs⟩ := (ih ys).1 hrest
        exact ⟨s, by rw [hqy, hs]; rfl⟩
      · intro hx
        obtain ⟨s, hs⟩ := hx
        simp only [List.cons_append] at hs
        injection hs with h1 h2
        simp only [addrLe, Bool.and_eq_true, beq_iff_eq]
        exact ⟨h1.symm, (ih ys).2 ⟨s, h2⟩⟩

theorem addrLe_refl (a : List Nat) : addrLe a a = true :=
  (addrLe_exists a a).2 ⟨[], (List.append_nil a).symm⟩

theorem addrLe_append (a s : List Nat) : addrLe a (a ++ s) = true :=
  (addrLe_exists a (a ++ s)).2 ⟨s, rfl⟩

theorem addrLe_trans (a c x : List Nat) (h1 : addrLe a c = true)
    (h2 : addrLe c x = true) : addrLe a x = true := by
  obtain ⟨s1, hs1⟩ := (addrLe_exists a c).1 h1
  obtain ⟨s2, hs2⟩ := (addrLe_exists c x).1 h2
  refine (addrLe_exists a x).2 ⟨s1 ++ s2, ?_⟩
  rw [hs2, hs1, List.append_assoc]

theorem addrLe_snoc_self (a : List Nat) (j : Nat) : addrLe (a ++ [j]) a = false := by
  cases hu : addrLe (a ++ [j]) a with
  | false => rfl
  | true =>
    obtain ⟨s, hs⟩ := (addrLe_exists (a ++ [j]) a).1 hu
    have hl := congrArg List.length hs
    simp at hl

theorem addrLe_sib {a : List Nat} {i j : Nat} {x : List Nat}
    (h1 : addrLe (a ++ [i]) x = true) (h2 : addrLe (a ++ [j]) x = true) : i = j := by
  obtain ⟨s1, hs1⟩ := (addrLe_exists (a ++ [i]) x).1 h1
  obtain ⟨s2, hs2⟩ := (addrLe_exists (a ++ [j]) x).1 h2
  rw [hs1] at hs2
  simp only [List.append_assoc, List.cons_append, List.nil_append] at hs2
  have h3 : i :: s1 = j :: s2 := List.append_inj_right hs2 rfl
  simp only [List.cons.injEq] at h3
  exact h3.1

theorem underN_mono (a c : List Nat) (nd : NodeRef) (hac : addrLe a c = true)
    (h : underN c nd = true) : underN a nd = true := by
  cases nd with
  | program => simp [underN] at h
  | stmtN a2 =>
    show addrLe a a2 = true
    exact addrLe_trans a c a2 hac h
  | childN a2 =>
    show addrLe a a2 = true
    exact addrLe_trans a c a2 hac h

theorem underN_false_of (a c : List Nat) (nd : NodeRef) (hac : addrLe a c = true)
    (h : underN a nd = false) : underN c nd = false := by
  cases hu : underN c nd with
  | false => rfl
  | true =>
    rw [underN_mono a c nd hac hu] at h
    simp at h

theorem underN_sib_false (a : List Nat) (i j : Nat) (hij : i ≠ j) (nd : NodeRef)
    (h : underN (a ++ [i]) nd = true) : underN (a ++ [j]) nd = false := by
  cases nd with
  | program => simp [underN] at h
  | stmtN a2 =>
    show addrLe (a ++ [j]) a2 = false
    cases hu : addrLe (a ++ [j]) a2 with
    | false => rfl
    | true =>
      exact absurd (addrLe_sib (show addrLe (a ++ [i]) a2 = true from h) hu) hij
  | childN a2 =>
    show addrLe (a ++ [j]) a2 = false
    cases hu : addrLe (a ++ [j]) a2 with
    | false => rfl
    | true =>
      exact absurd (addrLe_sib (show addrLe (a ++ [i]) a2 = true from h) hu) hij

theorem underN_snoc_stmt (a : List Nat) (j : Nat) :
    underN (a ++ [j]) (NodeRef.stmtN a) = false := by
  show addrLe (a ++ [j]) a = false
  exact addrLe_snoc_self a j

theorem underN_snoc_child (a : List Nat) (j : Nat) :
    underN (a ++ [j]) (NodeRef.childN a) = false := by
  show addrLe (a ++ [j]) a = false
  exact addrLe_snoc_self a j

theorem emitsN_refl (Q : NodeRef → Prop) (b : Build) : EmitsN Q b b :=
  ⟨[], (List.append_nil b.trace).symm, fun e he => absurd he (List.not_mem_nil e)⟩

theorem EmitsN.cat {Q : NodeRef → Prop} {a b c : Build} (h1 : EmitsN Q a b)
    (h2 : EmitsN Q b c) : EmitsN Q a c := by
  obtain ⟨e1, t1, q1⟩ := h1
  obtain ⟨e2, t2, q2⟩ := h2
  refine ⟨e1 ++ e2, by rw [t2, t1, List.append_assoc], ?_⟩
  intro e he
  rcases List.mem_append.1 he with he | he
  · exact q1 e he
  · exact q2 e he

theorem EmitsN.weaken {Q R : NodeRef → Prop} {b b' : Build}
    (h : EmitsN Q b b') (hqr : ∀ nd, Q nd → R nd) : EmitsN R b b' := by
  obtain ⟨ext, t1, q1⟩ := h
  exact ⟨ext, t1, fun e he => hqr _ (q1 e he)⟩

theorem emitsN_of_eqs (Q : NodeRef → Prop) (b b' : Build) (ht : b'.trace = b.trace) :
    EmitsN Q b b' :=
  ⟨[], by rw [ht, List.append_nil], fun e he => absurd he (List.not_mem_nil e)⟩

theorem emitsN_flushP (Q : NodeRef → Prop) (n : NodeRef) (b : Build) (hQ : Q n) :
    EmitsN Q b (flushP n b) := by
  unfold flushP
  split
  · exact ⟨[Event.unreachableSegStart b.cur n], rfl, fun e he => by
      rw [List.mem_singleton] at he
      subst he
      exact hQ⟩
  · exact emitsN_refl Q b

theorem emitsN_emit (Q : NodeRef → Prop) (e : Event) (b : Build) (hQ : Q (nodeOf e)) :
    EmitsN Q b (emit e b) :=
  ⟨[e], rfl, fun e2 he2 => by
    rw [List.mem_singleton] at he2
    subst he2
    exact hQ⟩

theorem emitsN_newCur (Q : NodeRef → Prop) (rb : Bool) (p : List Nat) (n : NodeRef)
    (b : Build) (hQ : Q n) : EmitsN Q b (newCur rb p n b) := by
  simp only [newCur]
  refine EmitsN.cat (EmitsN.cat (emitsN_flushP Q n b hQ)
    (emitsN_emit Q (endEv (flushP n b).arena (flushP n b).cur n) (flushP n b)
      (by rw [nodeOf_endEv]; exact hQ))) ?_
  generalize emit (endEv (flushP n b).arena (flushP n b).cur n) (flushP n b) = b2
  split
  · exact ⟨[Event.segStart b2.arena.length n], rfl, fun e he => by
      rw [List.mem_singleton] at he
      subst he
      exact hQ⟩
  · exact ⟨[], (List.append_nil b2.trace).symm, fun e he => absurd he (List.not_mem_nil e)⟩

theorem emitsN_connectLoop (Q : NodeRef → Prop) (f t : Nat) (n : NodeRef) (b : Build)
    (hQ : Q n) : EmitsN Q b (connectLoop f t n b) :=
  ⟨[Event.loopConnect f t n], rfl, fun e he => by
    rw [List.mem_singleton] at he
    subst he
    exact hQ⟩

theorem emitsN_afterLoop (Q : NodeRef → Prop) (hr : Bool) (hp : List Nat) (n : NodeRef)
    (sv : List Nat) (b : Build) (hQ : Q n) : EmitsN Q b (afterLoop hr hp n sv b) := by
  unfold afterLoop
  exact EmitsN.cat (emitsN_of_eqs Q b { b with broken := sv } rfl)
    (emitsN_newCur Q _ _ n _ hQ)

theorem emitsN_finalizePath (Q : NodeRef → Prop) (b : Build) (hQ : Q b.pnode) :
    EmitsN Q b (finalizePath b) := by
  simp only [finalizePath]
  refine EmitsN.cat (emitsN_flushP Q b.pnode b hQ) ?_
  refine EmitsN.cat (emitsN_emit Q (endEv (flushP b.pnode b).arena
    (flushP b.pnode b).cur (flushP b.pnode b).pnode) (flushP b.pnode b)
    (by rw [nodeOf_endEv, pnode_flushP]; exact hQ)) ?_
  refine EmitsN.cat (emitsN_emit Q (Event.pathEnd (flushP b.pnode b).pid
    (flushP b.pnode b).pnode) _ ?_) ?_
  · show Q (flushP b.pnode b).pnode
    rw [pnode_flushP]
    exact hQ
  · exact emitsN_of_eqs Q _ _ rfl

/-- Modelled from the spec (§2, §6): every event emitted while processing
the statement at tree address "a" originates from a node at or below "a":
the traversal is a single forward pass in document order, so events for a
subtree fire only while the driver is inside that subtree. -/
theorem emitsN_processStmt (t : Stmt) :
    ∀ (a : List Nat) (d : Option Nat) (b : Build),
      EmitsN (fun nd => underN a nd = true) b (processStmt a d t b) := by
  induction t with
  | skip =>
    intro a d b
    simp only [processStmt]
    exact emitsN_refl _ b
  | seq s1 s2 ih1 ih2 =>
    intro a d b
    simp only [processStmt]
    refine EmitsN.cat ((ih1 (a ++ [0]) d b).weaken ?_) ((ih2 (a ++ [1]) d _).weaken ?_)
    · intro nd hnd
      exact underN_mono a (a ++ [0]) nd (addrLe_append a [0]) hnd
    · intro nd hnd
      exact underN_mono a (a ++ [1]) nd (addrLe_append a [1]) hnd
  | expr =>
    intro a d b
    simp only [processStmt]
    exact emitsN_flushP _ (NodeRef.stmtN a) b (addrLe_refl a)
  | ret =>
    intro a d b
    simp only [processStmt]
    refine EmitsN.cat (emitsN_flushP _ (NodeRef.stmtN a) b (addrLe_refl a)) ?_
    generalize flushP (NodeRef.stmtN a) b = b1
    split
    · exact EmitsN.cat
        (emitsN_of_eqs _ b1 { b1 with returned := b1.returned ++ [b1.cur] } rfl)
        (emitsN_newCur _ false [b1.cur] (NodeRef.stmtN a) _ (addrLe_refl a))
    · exact emitsN_refl _ b1
  | thrw =>
    intro a d b
    simp only [processStmt]
    refine EmitsN.cat (emitsN_flushP _ (NodeRef.stmtN a) b (addrLe_refl a)) ?_
    generalize flushP (NodeRef.stmtN a) b = b1
    split
    · exact EmitsN.cat
        (emitsN_of_eqs _ b1 { b1 with thrown := b1.thrown ++ [b1.cur] } rfl)
        (emitsN_newCur _ false [b1.cur] (NodeRef.stmtN a) _ (addrLe_refl a))
    · exact emitsN_refl _ b1
  | brk =>
    intro a d b
    rcases d with _ | dv
    · simp only [processStmt]
      refine EmitsN.cat (emitsN_flushP _ (NodeRef.stmtN a) b (addrLe_refl a)) ?_
      generalize flushP (NodeRef.stmtN a) b = b1
      split
      · exact EmitsN.cat
          (emitsN_of_eqs _ b1 { b1 with returned := b1.returned ++ [b1.cur] } rfl)
          (emitsN_newCur _ false [b1.cur] (NodeRef.stmtN a) _ (addrLe_refl a))
      · exact emitsN_refl _ b1
    · simp only [processStmt]
      refine EmitsN.cat (emitsN_flushP _ (NodeRef.stmtN a) b (addrLe_refl a)) ?_
      generalize flushP (NodeRef.stmtN a) b = b1
      split
      · exact EmitsN.cat
          (emitsN_of_eqs _ b1 { b1 with broken := b1.broken ++ [b1.cur] } rfl)
          (emitsN_newCur _ false [b1.cur] (NodeRef.stmtN a) _ (addrLe_refl a))
      · exact emitsN_refl _ b1
  | cont =>
    intro a d b
    rcases d with _ | dv
    · simp only [processStmt]
      refine EmitsN.cat (emitsN_flushP _ (NodeRef.stmtN a) b (addrLe_refl a)) ?_
      generalize flushP (NodeRef.stmtN a) b = b1
      split
      · exact EmitsN.cat
          (emitsN_of_eqs _ b1 { b1 with returned := b1.returned ++ [b1.cur] } rfl)
          (emitsN_newCur _ false [b1.cur] (NodeRef.stmtN a) _ (addrLe_refl a))
      · exact emitsN_refl _ b1
    · simp only [processStmt]
      refine EmitsN.cat (emitsN_flushP _ (NodeRef.stmtN a) b (addrLe_refl a)) ?_
      generalize flushP (NodeRef.stmtN a) b = b1
      split
      · exact EmitsN.cat
          (emitsN_connectLoop _ b1.cur dv (NodeRef.stmtN a) b1 (addrLe_refl a))
          (emitsN_newCur _ false [b1.cur] (NodeRef.stmtN a) _ (addrLe_refl a))
      · exact emitsN_refl _ b1
  | ifS thenS elseS ih1 ih2 =>
    intro a d b
    simp only [processStmt]
    refine EmitsN.cat (emitsN_flushP _ (NodeRef.stmtN a) b (addrLe_refl a)) ?_
    generalize flushP (NodeRef.stmtN a) b = b1
    refine EmitsN.cat (emitsN_newCur _ (reachOf b1.arena b1.cur) [b1.cur]
      (NodeRef.stmtN a) b1 (addrLe_refl a)) ?_
    generalize newCur (reachOf b1.arena b1.cur) [b1.cur] (NodeRef.stmtN a) b1 = b2
    refine EmitsN.cat ((ih1 (a ++ [0]) d b2).weaken (fun nd hnd =>
      underN_mono a (a ++ [0]) nd (addrLe_append a [0]) hnd)) ?_
    generalize processStmt (a ++ [0]) d thenS b2 = b3
    refine EmitsN.cat (emitsN_newCur _ (reachOf b1.arena b1.cur) [b1.cur]
      (NodeRef.stmtN a) b3 (addrLe_refl a)) ?_
    generalize newCur (reachOf b1.arena b1.cur) [b1.cur] (NodeRef.stmtN a) b3 = b4
    refine EmitsN.cat ((ih2 (a ++ [1]) d b4).weaken (fun nd hnd =>
      underN_mono a (a ++ [1]) nd (addrLe_append a [1]) hnd)) ?_
    generalize processStmt (a ++ [1]) d elseS b4 = b5
    exact emitsN_newCur _ _ [b3.cur, b5.cur] (NodeRef.stmtN a) b5 (addrLe_refl a)
  | funcDecl body ih =>
    intro a d b
    simp only [processStmt]
    refine EmitsN.cat (emitsN_flushP _ (NodeRef.stmtN a) b (addrLe_refl a)) ?_
    generalize flushP (NodeRef.stmtN a) b = b1
    refine EmitsN.cat (emitsN_emit _ (Event.pathStart b1.pathCount (NodeRef.stmtN a))
      b1 (addrLe_refl a)) ?_
    generalize emit (Event.pathStart b1.pathCount (NodeRef.stmtN a)) b1 = b2
    obtain ⟨bI, hBI⟩ : ∃ bI : Build, ({
        arena := pushSeg b2.arena true [],
        trace := b2.trace ++ [Event.segStart b2.arena.length (NodeRef.stmtN a)],
        done := b2.done, pathCount := b2.pathCount + 1,
        pid := b2.pathCount, upperId := some b1.pid, pnode := NodeRef.stmtN a,
        initialSeg := b2.arena.length, cur := b2.arena.length, pending := false,
        returned := [], thrown := [], owned := [b2.arena.length], children := [],
        broken := [] } : Build) = bI := ⟨_, rfl⟩
    rw [hBI]
    have htI : bI.trace =
        b2.trace ++ [Event.segStart b2.arena.length (NodeRef.stmtN a)] := by
      rw [← hBI]
    have hpnI : bI.pnode = NodeRef.stmtN a := by rw [← hBI]
    have eI : EmitsN (fun nd => underN a nd = true) b2 bI :=
      ⟨[Event.segStart b2.arena.length (NodeRef.stmtN a)], htI,
        fun e he => by
          rw [List.mem_singleton] at he
          subst he
          exact addrLe_refl a⟩
    refine EmitsN.cat eI ?_
    refine EmitsN.cat ((ih (a ++ [0]) none bI).weaken (fun nd hnd =>
      underN_mono a (a ++ [0]) nd (addrLe_append a [0]) hnd)) ?_
    have hpn : (processStmt (a ++ [0]) none body bI).pnode = NodeRef.stmtN a := by
      have hsp := samePath_processStmt body (a ++ [0]) none bI
      rw [hsp.2.1, hpnI]
    generalize processStmt (a ++ [0]) none body bI = bX at hpn ⊢
    refine EmitsN.cat (emitsN_finalizePath _ bX (by rw [hpn]; exact addrLe_refl a)) ?_
    generalize finalizePath bX = bf
    exact emitsN_of_eqs _ bf _ rfl
  | whileS body ih =>
    intro a d b
    simp only [processStmt]
    refine EmitsN.cat (emitsN_flushP _ (NodeRef.stmtN a) b (addrLe_refl a)) ?_
    generalize flushP (NodeRef.stmtN a) b = b1
    refine EmitsN.cat (emitsN_newCur _ (reachOf b1.arena b1.cur) [b1.cur]
      (NodeRef.stmtN a) b1 (addrLe_refl a)) ?_
    generalize newCur (reachOf b1.arena b1.cur) [b1.cur] (NodeRef.stmtN a) b1 = b2
    refine EmitsN.cat (emitsN_newCur _ (reachOf b1.arena b1.cur) [b2.cur]
      (NodeRef.childN a) b2 (addrLe_refl a)) ?_
    generalize newCur (reachOf b1.arena b1.cur) [b2.cur] (NodeRef.childN a) b2 = b3
    refine EmitsN.cat (emitsN_of_eqs _ b3 { b3 with broken := [] } rfl) ?_
    refine EmitsN.cat ((ih (a ++ [0]) (some b2.cur) { b3 with broken := [] }).weaken
      (fun nd hnd => underN_mono a (a ++ [0]) nd (addrLe_append a [0]) hnd)) ?_
    generalize processStmt (a ++ [0]) (some b2.cur) body { b3 with broken := [] } = b5
    refine EmitsN.cat (emitsN_flushP _ (NodeRef.stmtN a) b5 (addrLe_refl a)) ?_
    refine EmitsN.cat (emitsN_connectLoop _ b5.cur b2.cur (NodeRef.stmtN a) _
      (addrLe_refl a)) ?_
    exact emitsN_afterLoop _ _ _ (NodeRef.stmtN a) b1.broken _ (addrLe_refl a)
  | forS hTest hUpd body ih =>
    intro a d b
    cases hTest <;> cases hUpd
    · simp only [processStmt, Bool.false_eq_true, eq_self_iff_true, if_false, if_true,
        Bool.false_and]
      refine EmitsN.cat (emitsN_flushP _ (NodeRef.stmtN a) b (addrLe_refl a)) ?_
      generalize flushP (NodeRef.stmtN a) b = b1
      refine EmitsN.cat (emitsN_newCur _ (reachOf b1.arena b1.cur) [b1.cur]
        (NodeRef.childN a) b1 (addrLe_refl a)) ?_
      generalize newCur (reachOf b1.arena b1.cur) [b1.cur] (NodeRef.childN a) b1 = b2
      refine EmitsN.cat (emitsN_of_eqs _ b2 { b2 with broken := [] } rfl) ?_
      refine EmitsN.cat ((ih (a ++ [0]) (some b2.cur) { b2 with broken := [] }).weaken
        (fun nd hnd => underN_mono a (a ++ [0]) nd (addrLe_append a [0]) hnd)) ?_
      generalize processStmt (a ++ [0]) (some b2.cur) body { b2 with broken := [] } = b5
      refine EmitsN.cat (emitsN_flushP _ (NodeRef.stmtN a) b5 (addrLe_refl a)) ?_
      refine EmitsN.cat (emitsN_connectLoop _ b5.cur b2.cur (NodeRef.stmtN a) _
        (addrLe_refl a)) ?_
      exact emitsN_afterLoop _ _ _ (NodeRef.stmtN a) b1.broken _ (addrLe_refl a)
    · simp only [processStmt, Bool.false_eq_true, eq_self_iff_true, if_false, if_true,
        Bool.false_and]
      refine EmitsN.cat (emitsN_flushP _ (NodeRef.stmtN a) b (addrLe_refl a)) ?_
      generalize flushP (NodeRef.stmtN a) b = b1
      refine EmitsN.cat (emitsN_newCur _ (reachOf b1.arena b1.cur) []
        (NodeRef.childN a) b1 (addrLe_refl a)) ?_
      generalize newCur (reachOf b1.arena b1.cur) [] (NodeRef.childN a) b1 = b2
      refine EmitsN.cat (emitsN_newCur _ (reachOf b1.arena b1.cur) [b1.cur]
        (NodeRef.childN a) b2 (addrLe_refl a)) ?_
      generalize newCur (reachOf b1.arena b1.cur) [b1.cur] (NodeRef.childN a) b2 = b3
      refine EmitsN.cat (emitsN_connectLoop _ b2.cur b3.cur (NodeRef.childN a) b3
        (addrLe_refl a)) ?_
      generalize connectLoop b2.cur b3.cur (NodeRef.childN a) b3 = b4
      refine EmitsN.cat (emitsN_of_eqs _ b4 { b4 with broken := [] } rfl) ?_
      refine EmitsN.cat ((ih (a ++ [0]) (some b2.cur) { b4 with broken := [] }).weaken
        (fun nd hnd => underN_mono a (a ++ [0]) nd (addrLe_append a [0]) hnd)) ?_
      generalize processStmt (a ++ [0]) (some b2.cur) body { b4 with broken := [] } = b5
      refine EmitsN.cat (emitsN_flushP _ (NodeRef.stmtN a) b5 (addrLe_refl a)) ?_
      refine EmitsN.cat (emitsN_connectLoop _ b5.cur b2.cur (NodeRef.stmtN a) _
        (addrLe_refl a)) ?_
      exact emitsN_afterLoop _ _ _ (NodeRef.stmtN a) b1.broken _ (addrLe_refl a)
    · simp only [processStmt, Bool.false_eq_true, eq_self_iff_true, if_false, if_true,
        Bool.true_and]
      refine EmitsN.cat (emitsN_flushP _ (NodeRef.stmtN a) b (addrLe_refl a)) ?_
      generalize flushP (NodeRef.stmtN a) b = b1
      refine EmitsN.cat (emitsN_newCur _ (reachOf b1.arena b1.cur) [b1.cur]
        (NodeRef.childN a) b1 (addrLe_refl a)) ?_
      generalize newCur (reachOf b1.arena b1.cur) [b1.cur] (NodeRef.childN a) b1 = b2
      refine EmitsN.cat (emitsN_newCur _ (reachOf b1.arena b1.cur) [b2.cur]
        (NodeRef.childN a) b2 (addrLe_refl a)) ?_
      generalize newCur (reachOf b1.arena b1.cur) [b2.cur] (NodeRef.childN a) b2 = b3
      refine EmitsN.cat (emitsN_of_eqs _ b3 { b3 with broken := [] } rfl) ?_
      refine EmitsN.cat ((ih (a ++ [0]) (some b2.cur) { b3 with broken := [] }).weaken
        (fun nd hnd => underN_mono a (a ++ [0]) nd (addrLe_append a [0]) hnd)) ?_
      generalize processStmt (a ++ [0]) (some b2.cur) body { b3 with broken := [] } = b5
      refine EmitsN.cat (emitsN_flushP _ (NodeRef.stmtN a) b5 (addrLe_refl a)) ?_
      refine EmitsN.cat (emitsN_connectLoop _ b5.cur b2.cur (NodeRef.stmtN a) _
        (addrLe_refl a)) ?_
      exact emitsN_afterLoop _ _ _ (NodeRef.stmtN a) b1.broken _ (addrLe_refl a)
    · simp only [processStmt, Bool.false_eq_true, eq_self_iff_true, if_false, if_true,
        Bool.true_and]
      refine EmitsN.cat (emitsN_flushP _ (NodeRef.stmtN a) b (addrLe_refl a)) ?_
      generalize flushP (NodeRef.stmtN a) b = b1
      refine EmitsN.cat (emitsN_newCur _ (reachOf b1.arena b1.cur) [b1.cur]
        (NodeRef.childN a) b1 (addrLe_refl a)) ?_
      generalize newCur (reachOf b1.arena b1.cur) [b1.cur] (NodeRef.childN a) b1 = b2
      refine EmitsN.cat (emitsN_newCur _ (reachOf b1.arena b1.cur) []
        (NodeRef.childN a) b2 (addrLe_refl a)) ?_
      generalize newCur (reachOf b1.arena b1.cur) [] (NodeRef.childN a) b2 = b3
      refine EmitsN.cat (emitsN_newCur _ (reachOf b1.arena b1.cur) [b2.cur]
        (NodeRef.childN a) b3 (addrLe_refl a)) ?_
      generalize newCur (reachOf b1.arena b1.cur) [b2.cur] (NodeRef.childN a) b3 = b4
      refine EmitsN.cat (emitsN_connectLoop _ b3.cur b2.cur (NodeRef.childN a) b4
        (addrLe_refl a)) ?_
      generalize connectLoop b3.cur b2.cur (NodeRef.childN a) b4 = b5
      refine EmitsN.cat (emitsN_of_eqs _ b5 { b5 with broken := [] } rfl) ?_
      refine EmitsN.cat ((ih (a ++ [0]) (some b3.cur) { b5 with broken := [] }).weaken
        (fun nd hnd => underN_mono a (a ++ [0]) nd (addrLe_append a [0]) hnd)) ?_
      generalize processStmt (a ++ [0]) (some b3.cur) body { b5 with broken := [] } = b6
      refine EmitsN.cat (emitsN_flushP _ (NodeRef.stmtN a) b6 (addrLe_refl a)) ?_
      refine EmitsN.cat (emitsN_connectLoop _ b6.cur b3.cur (NodeRef.stmtN a) _
        (addrLe_refl a)) ?_
      exact emitsN_afterLoop _ _ _ (NodeRef.stmtN a) b1.broken _ (addrLe_refl a)
  | forIn body ih =>
    intro a d b
    simp only [processStmt]
    refine EmitsN.cat (emitsN_flushP _ (NodeRef.stmtN a) b (addrLe_refl a)) ?_
    generalize flushP (NodeRef.stmtN a) b = b1
    refine EmitsN.cat (emitsN_newCur _ (reachOf b1.arena b1.cur) []
      (NodeRef.childN a) b1 (addrLe_refl a)) ?_
    generalize newCur (reachOf b1.arena b1.cur) [] (NodeRef.childN a) b1 = b2
    refine EmitsN.cat (emitsN_newCur _ (reachOf b1.arena b1.cur) [b1.cur]
      (NodeRef.childN a) b2 (addrLe_refl a)) ?_
    generalize newCur (reachOf b1.arena b1.cur) [b1.cur] (NodeRef.childN a) b2 = b3
    refine EmitsN.cat (emitsN_connectLoop _ b3.cur b2.cur (NodeRef.childN a) b3
      (addrLe_refl a)) ?_
    refine EmitsN.cat (emitsN_newCur _ (reachOf b1.arena b1.cur) [b2.cur]
      (NodeRef.childN a) _ (addrLe_refl a)) ?_
    generalize newCur (reachOf b1.arena b1.cur) [b2.cur] (NodeRef.childN a)
      (connectLoop b3.cur b2.cur (NodeRef.childN a) b3) = b4
    refine EmitsN.cat (emitsN_of_eqs _ b4 { b4 with broken := [] } rfl) ?_
    refine EmitsN.cat ((ih (a ++ [0]) (some b2.cur) { b4 with broken := [] }).weaken
      (fun nd hnd => underN_mono a (a ++ [0]) nd (addrLe_append a [0]) hnd)) ?_
    generalize processStmt (a ++ [0]) (some b2.cur) body { b4 with broken := [] } = b5
    refine EmitsN.cat (emitsN_flushP _ (NodeRef.stmtN a) b5 (addrLe_refl a)) ?_
    refine EmitsN.cat (emitsN_connectLoop _ b5.cur b2.cur (NodeRef.stmtN a) _
      (addrLe_refl a)) ?_
    exact emitsN_afterLoop _ _ _ (NodeRef.stmtN a) b1.broken _ (addrLe_refl a)
  | forOf body ih =>
    intro a d b
    simp only [processStmt]
    refine EmitsN.cat (emitsN_flushP _ (NodeRef.stmtN a) b (addrLe_refl a)) ?_
    generalize flushP (NodeRef.stmtN a) b = b1
    refine EmitsN.cat (emitsN_newCur _ (reachOf b1.arena b1.cur) []
      (NodeRef.childN a) b1 (addrLe_refl a)) ?_
    generalize newCur (reachOf b1.arena b1.cur) [] (NodeRef.childN a) b1 = b2
    refine EmitsN.cat (emitsN_newCur _ (reachOf b1.arena b1.cur) [b1.cur]
      (NodeRef.childN a) b2 (addrLe_refl a)) ?_
    generalize newCur (reachOf b1.arena b1.cur) [b1.cur] (NodeRef.childN a) b2 = b3
    refine EmitsN.cat (emitsN_connectLoop _ b3.cur b2.cur (NodeRef.childN a) b3
      (addrLe_refl a)) ?_
    refine EmitsN.cat (emitsN_newCur _ (reachOf b1.arena b1.cur) [b2.cur]
      (NodeRef.childN a) _ (addrLe_refl a)) ?_
    generalize newCur (reachOf b1.arena b1.cur) [b2.cur] (NodeRef.childN a)
      (connectLoop b3.cur b2.cur (NodeRef.childN a) b3) = b4
    refine EmitsN.cat (emitsN_of_eqs _ b4 { b4 with broken := [] } rfl) ?_
    refine EmitsN.cat ((ih (a ++ [0]) (some b2.cur) { b4 with broken := [] }).weaken
      (fun nd hnd => underN_mono a (a ++ [0]) nd (addrLe_append a [0]) hnd)) ?_
    generalize processStmt (a ++ [0]) (some b2.cur) body { b4 with broken := [] } = b5
    refine EmitsN.cat (emitsN_flushP _ (NodeRef.stmtN a) b5 (addrLe_refl a)) ?_
    refine EmitsN.cat (emitsN_connectLoop _ b5.cur b2.cur (NodeRef.stmtN a) _
      (addrLe_refl a)) ?_
    exact emitsN_afterLoop _ _ _ (NodeRef.stmtN a) b1.broken _ (addrLe_refl a)

/-! ## Event-ordering: preservation of the trace invariant -/

theorem tinv_addEvent (e : Event) (b : Build) (h : TInv b)
    (hre : ∀ s ∈ refs e, s < b.arena.length) :
    TInv { b with trace := b.trace ++ [e] } := by
  obtain ⟨h1, h2, h3, h4, h5, h6, h7⟩ := h
  refine ⟨h1, h2, ?_, h4, ?_, ?_, ?_⟩
  · intro s hs hne
    exact ended_append s b.trace [e] (h3 s hs hne)
  · intro e2 he2 s hs
    rcases List.mem_append.1 he2 with he3 | he3
    · exact h5 e2 he3 s hs
    · rw [List.mem_singleton] at he3
      subst he3
      exact hre s hs
  · obtain ⟨pre, post, n0, heq, hpre⟩ := h6
    refine ⟨pre, post ++ [e], n0, ?_, hpre⟩
    show b.trace ++ [e] = pre ++ Event.pathStart b.pid n0 ::
      Event.segStart b.initialSeg n0 :: (post ++ [e])
    rw [heq]
    simp
  · intro r hr
    obtain ⟨⟨pre, post, n0, heq, hpre, hown⟩, pre2, post2, n2, heq2, hend⟩ := h7 r hr
    refine ⟨⟨pre, post ++ [e], n0, ?_, hpre, hown⟩, pre2, post2 ++ [e], n2, ?_, hend⟩
    · show b.trace ++ [e] = pre ++ Event.pathStart r.id n0 ::
        Event.segStart r.initialSegment n0 :: (post ++ [e])
      rw [heq]
      simp
    · show b.trace ++ [e] = pre2 ++ Event.pathEnd r.id n2 :: (post2 ++ [e])
      rw [heq2]
      simp

theorem tinv_flushP (n : NodeRef) (b : Build) (h : TInv b) : TInv (flushP n b) := by
  unfold flushP
  split
  · exact tinv_addEvent (Event.unreachableSegStart b.cur n) b h
      (fun s hs => by
        simp only [refs, List.mem_singleton] at hs
        rw [hs]
        exact h.1)
  · exact h

theorem tinv_newCur (rb : Bool) (p : List Nat) (n : NodeRef) (b : Build) (h : TInv b) :
    TInv (newCur rb p n b) := by
  have h1 := tinv_flushP n b h
  have h2 : TInv (emit (endEv (flushP n b).arena (flushP n b).cur n) (flushP n b)) := by
    refine tinv_addEvent _ _ h1 ?_
    intro s hs
    rw [refs_endEv, List.mem_singleton] at hs
    rw [hs]
    exact h1.1
  have hEnd0 : ended (flushP n b).cur
      ((flushP n b).trace ++ [endEv (flushP n b).arena (flushP n b).cur n]) = true := by
    unfold ended
    rw [List.any_append]
    have he := endedE_endEv (flushP n b).arena (flushP n b).cur n
    simp [he]
  have hEnd2 : ended (emit (endEv (flushP n b).arena (flushP n b).cur n)
        (flushP n b)).cur
      (emit (endEv (flushP n b).arena (flushP n b).cur n) (flushP n b)).trace = true :=
    hEnd0
  simp only [newCur]
  generalize hB2 : emit (endEv (flushP n b).arena (flushP n b).cur n) (flushP n b) = b2
    at h2 hEnd2 ⊢
  obtain ⟨g1, g2, g3, g4, g5, g6, g7⟩ := h2
  split
  · refine ⟨?_, ?_, ?_, ?_, ?_, ?_, ?_⟩
    · show b2.arena.length < (pushSeg b2.arena rb p).length
      rw [length_pushSeg]
      omega
    · show b2.initialSeg < (pushSeg b2.arena rb p).length
      rw [length_pushSeg]
      omega
    · intro s hs hne
      have hs' : s ∈ b2.owned ++ [b2.arena.length] := hs
      have hne' : s ≠ b2.arena.length := hne
      show ended s (b2.trace ++ [Event.segStart b2.arena.length n]) = true
      rcases List.mem_append.1 hs' with hs2 | hs2
      · by_cases hsc : s = b2.cur
        · subst hsc
          exact ended_append _ _ _ hEnd2
        · exact ended_append _ _ _ (g3 s hs2 hsc)
      · rw [List.mem_singleton] at hs2
        exact absurd hs2 hne'
    · intro s hs
      have hs' : s ∈ b2.owned ++ [b2.arena.length] := hs
      show b2.initialSeg ≤ s
      rcases List.mem_append.1 hs' with hs2 | hs2
      · exact g4 s hs2
      · rw [List.mem_singleton] at hs2
        omega
    · intro e he s hs
      have he' : e ∈ b2.trace ++ [Event.segStart b2.arena.length n] := he
      show s < (pushSeg b2.arena rb p).length
      rw [length_pushSeg]
      rcases List.mem_append.1 he' with he2 | he2
      · have := g5 e he2 s hs
        omega
      · rw [List.mem_singleton] at he2
        subst he2
        simp only [refs, List.mem_singleton] at hs
        omega
    · obtain ⟨pre, post, n0, heq, hpre⟩ := g6
      refine ⟨pre, post ++ [Event.segStart b2.arena.length n], n0, ?_, hpre⟩
      show b2.trace ++ [Event.segStart b2.arena.length n] = pre ++
        Event.pathStart b2.pid n0 :: Event.segStart b2.initialSeg n0 ::
        (post ++ [Event.segStart b2.arena.length n])
      rw [heq]
      simp
    · intro r hr
      have hr' : r ∈ b2.done := hr
      obtain ⟨⟨pre, post, n0, heq, hpre, hown⟩, pre2, post2, n2, heq2, hend⟩ := g7 r hr'
      refine ⟨⟨pre, post ++ [Event.segStart b2.arena.length n], n0, ?_, hpre, hown⟩,
        pre2, post2 ++ [Event.segStart b2.arena.length n], n2, ?_, hend⟩
      · show b2.trace ++ [Event.segStart b2.arena.length n] = pre ++
          Event.pathStart r.id n0 :: Event.segStart r.initialSegment n0 ::
          (post ++ [Event.segStart b2.arena.length n])
        rw [heq]
        simp
      · show b2.trace ++ [Event.segStart b2.arena.length n] = pre2 ++
          Event.pathEnd r.id n2 :: (post2 ++ [Event.segStart b2.arena.length n])
        rw [heq2]
        simp
  · refine ⟨?_, ?_, ?_, ?_, ?_, g6, g7⟩
    · show b2.arena.length < (pushSeg b2.arena rb p).length
      rw [length_pushSeg]
      omega
    · show b2.initialSeg < (pushSeg b2.arena rb p).length
      rw [length_pushSeg]
      omega
    · intro s hs hne
      have hs' : s ∈ b2.owned ++ [b2.arena.length] := hs
      have hne' : s ≠ b2.arena.length := hne
      show ended s b2.trace = true
      rcases List.mem_append.1 hs' with hs2 | hs2
      · by_cases hsc : s = b2.cur
        · subst hsc
          exact hEnd2
        · exact g3 s hs2 hsc
      · rw [List.mem_singleton] at hs2
        exact absurd hs2 hne'
    · intro s hs
      have hs' : s ∈ b2.owned ++ [b2.arena.length] := hs
      show b2.initialSeg ≤ s
      rcases List.mem_append.1 hs' with hs2 | hs2
      · exact g4 s hs2
      · rw [List.mem_singleton] at hs2
        omega
    · intro e he s hs
      have he' : e ∈ b2.trace := he
      show s < (pushSeg b2.arena rb p).length
      rw [length_pushSeg]
      have := g5 e he' s hs
      omega

theorem tinv_connectLoop (f t : Nat) (n : NodeRef) (b : Build) (h : TInv b)
    (hf : f < b.arena.length) (ht : t < b.arena.length) :
    TInv (connectLoop f t n b) := by
  have hA : TInv { b with arena := addLoopArena b.arena f t } := by
    obtain ⟨h1, h2, h3, h4, h5, h6, h7⟩ := h
    refine ⟨?_, ?_, h3, h4, ?_, h6, h7⟩
    · show b.cur < (addLoopArena b.arena f t).length
      rw [length_addLoopArena]
      exact h1
    · show b.initialSeg < (addLoopArena b.arena f t).length
      rw [length_addLoopArena]
      exact h2
    · intro e he s hs
      show s < (addLoopArena b.arena f t).length
      rw [length_addLoopArena]
      exact h5 e he s hs
  have hE := tinv_addEvent (Event.loopConnect f t n)
    { b with arena := addLoopArena b.arena f t } hA (by
      intro s hs
      have hs' : s ∈ [f, t] := hs
      show s < (addLoopArena b.arena f t).length
      rw [length_addLoopArena]
      rcases List.mem_cons.1 hs' with h1 | h1
      · omega
      · rw [List.mem_singleton] at h1
        omega)
  exact hE

theorem tinv_afterLoop (hr : Bool) (hp : List Nat) (n : NodeRef) (sv : List Nat)
    (b : Build) (h : TInv b) : TInv (afterLoop hr hp n sv b) := by
  unfold afterLoop
  exact tinv_newCur _ _ _ _ h

theorem finishRec_owned (b : Build) : (finishRec b).ownedSegments = b.owned := by
  have ho := owned_flushP b.pnode b
  simp only [finishRec]
  exact ho

theorem tinv_finalizePath (b : Build) (h : TInv b) : TInv (finalizePath b) := by
  simp only [finalizePath]
  rw [pid_flushP b.pnode b, pnode_flushP b.pnode b]
  have h1 := tinv_flushP b.pnode b h
  have hc1 : (flushP b.pnode b).cur = b.cur := cur_flushP b.pnode b
  have hw1 : (flushP b.pnode b).owned = b.owned := owned_flushP b.pnode b
  have h2 : TInv (emit (endEv (flushP b.pnode b).arena (flushP b.pnode b).cur
      b.pnode) (flushP b.pnode b)) := by
    refine tinv_addEvent _ _ h1 ?_
    intro s hs
    rw [refs_endEv, List.mem_singleton] at hs
    rw [hs]
    exact h1.1
  have hEnd : ∀ s ∈ b.owned, ended s (emit (endEv (flushP b.pnode b).arena
      (flushP b.pnode b).cur b.pnode) (flushP b.pnode b)).trace = true := by
    intro s hs
    show ended s ((flushP b.pnode b).trace ++ [endEv (flushP b.pnode b).arena
      (flushP b.pnode b).cur b.pnode]) = true
    by_cases hsc : s = b.cur
    · subst hsc
      unfold ended
      rw [List.any_append, hc1]
      simp [endedE_endEv]
    · have hs1 : s ∈ (flushP b.pnode b).owned := by rw [hw1]; exact hs
      have hsc1 : s ≠ (flushP b.pnode b).cur := by rw [hc1]; exact hsc
      exact ended_append _ _ _ (h1.2.2.1 s hs1 hsc1)
  have hpidm : (emit (endEv (flushP b.pnode b).arena (flushP b.pnode b).cur
      b.pnode) (flushP b.pnode b)).pid = b.pid := pid_flushP b.pnode b
  have hinim : (emit (endEv (flushP b.pnode b).arena (flushP b.pnode b).cur
      b.pnode) (flushP b.pnode b)).initialSeg = b.initialSeg :=
    initialSeg_flushP b.pnode b
  have hpnm : (emit (endEv (flushP b.pnode b).arena (flushP b.pnode b).cur
      b.pnode) (flushP b.pnode b)).pnode = b.pnode := pnode_flushP b.pnode b
  generalize hBm : emit (endEv (flushP b.pnode b).arena (flushP b.pnode b).cur
    b.pnode) (flushP b.pnode b) = bm at h2 hEnd hpidm hinim hpnm ⊢
  have h3 : TInv (emit (Event.pathEnd b.pid b.pnode) bm) :=
    tinv_addEvent (Event.pathEnd b.pid b.pnode) bm h2
      (fun s hs => absurd hs (List.not_mem_nil s))
  obtain ⟨g1, g2, g3, g4, g5, g6, g7⟩ := h3
  refine ⟨g1, g2, g3, g4, g5, g6, ?_⟩
  intro r hr
  have hr' : r ∈ bm.done ++ [finishRec b] := hr
  rcases List.mem_append.1 hr' with hr2 | hr2
  · have hr3 : r ∈ (emit (Event.pathEnd b.pid b.pnode) bm).done := hr2
    exact g7 r hr3
  · rw [List.mem_singleton] at hr2
    subst hr2
    constructor
    · obtain ⟨pre, post, n0, heq, hpre, hnp⟩ := g6
      have hA : (emit (Event.pathEnd b.pid b.pnode) bm).pid = b.pid := hpidm
      have hB : (emit (Event.pathEnd b.pid b.pnode) bm).initialSeg = b.initialSeg :=
        hinim
      have hC : (emit (Event.pathEnd b.pid b.pnode) bm).pnode = b.pnode := hpnm
      rw [hA, hB] at heq
      rw [hB] at hpre
      rw [hC] at hnp
      refine ⟨pre, post, n0, ?_, ?_, ?_, ?_⟩
      · show (emit (Event.pathEnd b.pid b.pnode) bm).trace = pre ++
          Event.pathStart (finishRec b).id n0 ::
          Event.segStart (finishRec b).initialSegment n0 :: post
        rw [(finishRec_ids b).1, (finishRec_ids b).2.2.2]
        exact heq
      · intro e he s hs
        rw [(finishRec_ids b).2.2.2]
        exact hpre e he s hs
      · intro e he
        rw [(finishRec_ids b).2.2.1]
        exact hnp e he
      · intro s hs
        rw [(finishRec_ids b).2.2.2]
        rw [finishRec_owned b] at hs
        exact h.2.2.2.1 s hs
    · refine ⟨bm.trace, [], b.pnode, ?_, ?_⟩
      · show (emit (Event.pathEnd b.pid b.pnode) bm).trace = bm.trace ++
          Event.pathEnd (finishRec b).id b.pnode :: []
        rw [(finishRec_ids b).1]
        rfl
      · intro s hs
        rw [finishRec_owned b] at hs
        exact hEnd s hs

/-- The common tail of every loop construct for the event-ordering
invariant: process the body, close the back edge into the loop head, and
move to the after-loop segment. -/
theorem c7_loopTail (bE : Build) (dvt : Nat) (d0 : Option Nat) (a' : List Nat)
    (body : Stmt) (n : NodeRef) (hr : Bool) (hp sv : List Nat)
    (hdv : dvt < bE.arena.length)
    (hB : TInv (processStmt a' d0 body bE))
    (hBx : TExt bE (processStmt a' d0 body bE)) :
    TInv (afterLoop hr hp n sv (connectLoop (processStmt a' d0 body bE).cur dvt n
      (flushP n (processStmt a' d0 body bE)))) ∧
    TExt bE (afterLoop hr hp n sv (connectLoop (processStmt a' d0 body bE).cur dvt n
      (flushP n (processStmt a' d0 body bE)))) := by
  generalize hGX : processStmt a' d0 body bE = X at hB hBx ⊢
  have h1 := tinv_flushP n X hB
  have ha1 : (flushP n X).arena = X.arena := arena_flushP n X
  have h2 : TInv (connectLoop X.cur dvt n (flushP n X)) := by
    refine tinv_connectLoop X.cur dvt n (flushP n X) h1 ?_ ?_
    · rw [ha1]
      exact hB.1
    · rw [ha1]
      have := hBx.1
      omega
  have st2 : TExt X (connectLoop X.cur dvt n (flushP n X)) :=
    TExt.glue (text_flushP n X) (text_connectLoop _ _ _ _)
  exact ⟨tinv_afterLoop hr hp n sv _ h2,
    TExt.glue hBx (TExt.glue st2 (text_afterLoop hr hp n sv _))⟩

/-- Going one step deeper in the tree keeps a trace fresh: an event for no
node under "a" is an event for no node under a child address of "a". -/
theorem underTrace_down (a : List Nat) (j : Nat) (b : Build)
    (hfr : ∀ e ∈ b.trace, underN a (nodeOf e) = false) :
    ∀ e ∈ b.trace, underN (a ++ [j]) (nodeOf e) = false :=
  fun e he => underN_false_of a (a ++ [j]) _ (addrLe_append a [j]) (hfr e he)

/-- Events fired at the visited statement itself or at one of its clause
children keep every child address of "a" fresh. -/
theorem underTrace_shallow (a : List Nat) (j : Nat) (b bmid : Build)
    (hfr : ∀ e ∈ b.trace, underN (a ++ [j]) (nodeOf e) = false)
    (hmid : EmitsN (fun nd => nd = NodeRef.stmtN a ∨ nd = NodeRef.childN a) b bmid) :
    ∀ e ∈ bmid.trace, underN (a ++ [j]) (nodeOf e) = false := by
  obtain ⟨ext, ht, hq⟩ := hmid
  intro e he
  rw [ht] at he
  rcases List.mem_append.1 he with he | he
  · exact hfr e he
  · rcases hq e he with hqe | hqe
    · rw [hqe]
      exact underN_snoc_stmt a j
    · rw [hqe]
      exact underN_snoc_child a j

/-- Events fired inside one child subtree keep every other child address
fresh: sibling subtrees have incomparable addresses. -/
theorem underTrace_sib (a : List Nat) (i j : Nat) (hij : i ≠ j) (b bmid : Build)
    (hfr : ∀ e ∈ b.trace, underN (a ++ [j]) (nodeOf e) = false)
    (hmid : EmitsN (fun nd => underN (a ++ [i]) nd = true) b bmid) :
    ∀ e ∈ bmid.trace, underN (a ++ [j]) (nodeOf e) = false := by
  obtain ⟨ext, ht, hq⟩ := hmid
  intro e he
  rw [ht] at he
  rcases List.mem_append.1 he with he | he
  · exact hfr e he
  · exact underN_sib_false a i j hij _ (hq e he)

/-- Modelled from the spec (§5, §6): processing any statement preserves the
event-ordering invariant, growing the arena, only appending to the trace,
and emitting events only at nodes in the subtree being visited. -/
theorem tinv_processStmt (t : Stmt) :
    ∀ (a : List Nat) (d : Option Nat) (b : Build), TInv b →
      (∀ dv, d = some dv → dv < b.arena.length) →
      (∀ e ∈ b.trace, underN a (nodeOf e) = false) →
      TInv (processStmt a d t b) ∧ TExt b (processStmt a d t b) := by
  induction t with
  | skip =>
    intro a d b h hd hfr
    simp only [processStmt]
    exact ⟨h, text_rfl b⟩
  | seq s1 s2 ih1 ih2 =>
    intro a d b h hd hfr
    simp only [processStmt]
    obtain ⟨h1, st1⟩ := ih1 (a ++ [0]) d b h hd (underTrace_down a 0 b hfr)
    obtain ⟨h2, st2⟩ := ih2 (a ++ [1]) d _ h1 (fun dv hdv => by
      have q1 := hd dv hdv
      have q2 := st1.1
      omega) (underTrace_sib a 0 1 (by decide) b _ (underTrace_down a 1 b hfr)
        (emitsN_processStmt s1 (a ++ [0]) d b))
    exact ⟨h2, st1.glue st2⟩
  | expr =>
    intro a d b h hd hfr
    simp only [processStmt]
    exact ⟨tinv_flushP _ _ h, text_flushP _ _⟩
  | ret =>
    intro a d b h hd hfr
    simp only [processStmt]
    have h1 := tinv_flushP (NodeRef.stmtN a) b h
    have st1 := text_flushP (NodeRef.stmtN a) b
    generalize hB1 : flushP (NodeRef.stmtN a) b = b1 at h1 st1 ⊢
    split
    · exact ⟨tinv_newCur false [b1.cur] (NodeRef.stmtN a)
        { b1 with returned := b1.returned ++ [b1.cur] } h1,
        TExt.glue st1 (TExt.glue (text_of_eqs b1
          { b1 with returned := b1.returned ++ [b1.cur] } rfl rfl)
          (text_newCur false [b1.cur] (NodeRef.stmtN a)
            { b1 with returned := b1.returned ++ [b1.cur] }))⟩
    · exact ⟨h1, st1⟩
  | thrw =>
    intro a d b h hd hfr
    simp only [processStmt]
    have h1 := tinv_flushP (NodeRef.stmtN a) b h
    have st1 := text_flushP (NodeRef.stmtN a) b
    generalize hB1 : flushP (NodeRef.stmtN a) b = b1 at h1 st1 ⊢
    split
    · exact ⟨tinv_newCur false [b1.cur] (NodeRef.stmtN a)
        { b1 with thrown := b1.thrown ++ [b1.cur] } h1,
        TExt.glue st1 (TExt.glue (text_of_eqs b1
          { b1 with thrown := b1.thrown ++ [b1.cur] } rfl rfl)
          (text_newCur false [b1.cur] (NodeRef.stmtN a)
            { b1 with thrown := b1.thrown ++ [b1.cur] }))⟩
    · exact ⟨h1, st1⟩
  | brk =>
    intro a d b h hd hfr
    rcases d with _ | dv
    · simp only [processStmt]
      have h1 := tinv_flushP (NodeRef.stmtN a) b h
      have st1 := text_flushP (NodeRef.stmtN a) b
      generalize hB1 : flushP (NodeRef.stmtN a) b = b1 at h1 st1 ⊢
      split
      · exact ⟨tinv_newCur false [b1.cur] (NodeRef.stmtN a)
          { b1 with returned := b1.returned ++ [b1.cur] } h1,
          TExt.glue st1 (TExt.glue (text_of_eqs b1
            { b1 with returned := b1.returned ++ [b1.cur] } rfl rfl)
            (text_newCur false [b1.cur] (NodeRef.stmtN a)
              { b1 with returned := b1.returned ++ [b1.cur] }))⟩
      · exact ⟨h1, st1⟩
    · simp only [processStmt]
      have h1 := tinv_flushP (NodeRef.stmtN a) b h
      have st1 := text_flushP (NodeRef.stmtN a) b
      generalize hB1 : flushP (NodeRef.stmtN a) b = b1 at h1 st1 ⊢
      split
      · exact ⟨tinv_newCur false [b1.cur] (NodeRef.stmtN a)
          { b1 with broken := b1.broken ++ [b1.cur] } h1,
          TExt.glue st1 (TExt.glue (text_of_eqs b1
            { b1 with broken := b1.broken ++ [b1.cur] } rfl rfl)
            (text_newCur false [b1.cur] (NodeRef.stmtN a)
              { b1 with broken := b1.broken ++ [b1.cur] }))⟩
      · exact ⟨h1, st1⟩
  | cont =>
    intro a d b h hd hfr
    rcases d with _ | dv
    · simp only [processStmt]
      have h1 := tinv_flushP (NodeRef.stmtN a) b h
      have st1 := text_flushP (NodeRef.stmtN a) b
      generalize hB1 : flushP (NodeRef.stmtN a) b = b1 at h1 st1 ⊢
      split
      · exact ⟨tinv_newCur false [b1.cur] (NodeRef.stmtN a)
          { b1 with returned := b1.returned ++ [b1.cur] } h1,
          TExt.glue st1 (TExt.glue (text_of_eqs b1
            { b1 with returned := b1.returned ++ [b1.cur] } rfl rfl)
            (text_newCur false [b1.cur] (NodeRef.stmtN a)
              { b1 with returned := b1.returned ++ [b1.cur] }))⟩
      · exact ⟨h1, st1⟩
    · simp only [processStmt]
      have h1 := tinv_flushP (NodeRef.stmtN a) b h
      have st1 := text_flushP (NodeRef.stmtN a) b
      generalize hB1 : flushP (NodeRef.stmtN a) b = b1 at h1 st1 ⊢
      have hl1 : b1.arena.length = b.arena.length := by rw [← hB1, arena_flushP]
      split
      · have h2 : TInv (connectLoop b1.cur dv (NodeRef.stmtN a) b1) := by
          refine tinv_connectLoop b1.cur dv (NodeRef.stmtN a) b1 h1 h1.1 ?_
          have := hd dv rfl
          omega
        exact ⟨tinv_newCur false [b1.cur] (NodeRef.stmtN a)
          (connectLoop b1.cur dv (NodeRef.stmtN a) b1) h2,
          TExt.glue st1 (TExt.glue (text_connectLoop b1.cur dv (NodeRef.stmtN a) b1)
            (text_newCur false [b1.cur] (NodeRef.stmtN a)
              (connectLoop b1.cur dv (NodeRef.stmtN a) b1)))⟩
      · exact ⟨h1, st1⟩
  | ifS thenS elseS ih1 ih2 =>
    intro a d b h hd hfr
    simp only [processStmt]
    have h1 := tinv_flushP (NodeRef.stmtN a) b h
    have st1 := text_flushP (NodeRef.stmtN a) b
    have em1 : EmitsN (fun nd => nd = NodeRef.stmtN a ∨ nd = NodeRef.childN a) b
        (flushP (NodeRef.stmtN a) b) :=
      emitsN_flushP _ (NodeRef.stmtN a) b (Or.inl rfl)
    generalize hB1 : flushP (NodeRef.stmtN a) b = b1 at h1 st1 em1 ⊢
    have h2 := tinv_newCur (reachOf b1.arena b1.cur) [b1.cur] (NodeRef.stmtN a) b1 h1
    have st2 := TExt.glue st1 (text_newCur (reachOf b1.arena b1.cur) [b1.cur]
      (NodeRef.stmtN a) b1)
    have em2 := EmitsN.cat em1 (emitsN_newCur _ (reachOf b1.arena b1.cur) [b1.cur]
      (NodeRef.stmtN a) b1 (Or.inl rfl))
    generalize hB2 : newCur (reachOf b1.arena b1.cur) [b1.cur] (NodeRef.stmtN a) b1 = b2
      at h2 st2 em2 ⊢
    have em3 := emitsN_processStmt thenS (a ++ [0]) d b2
    obtain ⟨h3, st3x⟩ := ih1 (a ++ [0]) d b2 h2 (fun dv hdv => by
      have q1 := hd dv hdv
      have q2 := st2.1
      omega) (underTrace_shallow a 0 b b2 (underTrace_down a 0 b hfr) em2)
    have st3 := st2.glue st3x
    generalize hB3 : processStmt (a ++ [0]) d thenS b2 = b3 at h3 st3 em3 ⊢
    have h4 := tinv_newCur (reachOf b1.arena b1.cur) [b1.cur] (NodeRef.stmtN a) b3 h3
    have st4 := TExt.glue st3 (text_newCur (reachOf b1.arena b1.cur) [b1.cur]
      (NodeRef.stmtN a) b3)
    have em4 : EmitsN (fun nd => nd = NodeRef.stmtN a ∨ nd = NodeRef.childN a) b3
        (newCur (reachOf b1.arena b1.cur) [b1.cur] (NodeRef.stmtN a) b3) :=
      emitsN_newCur _ (reachOf b1.arena b1.cur) [b1.cur] (NodeRef.stmtN a) b3
        (Or.inl rfl)
    generalize hB4 : newCur (reachOf b1.arena b1.cur) [b1.cur] (NodeRef.stmtN a) b3 = b4
      at h4 st4 em4 ⊢
    obtain ⟨h5, st5x⟩ := ih2 (a ++ [1]) d b4 h4 (fun dv hdv => by
      have q1 := hd dv hdv
      have q2 := st4.1
      omega) (underTrace_shallow a 1 b3 b4 (underTrace_sib a 0 1 (by decide) b2 b3
        (underTrace_shallow a 1 b b2 (underTrace_down a 1 b hfr) em2) em3) em4)
    have st5 := st4.glue st5x
    generalize hB5 : processStmt (a ++ [1]) d elseS b4 = b5 at h5 st5 ⊢
    exact ⟨tinv_newCur _ _ _ b5 h5, st5.glue (text_newCur _ _ _ b5)⟩
  | funcDecl body ih =>
    intro a d b h hd hfr
    simp only [processStmt]
    have h1 := tinv_flushP (NodeRef.stmtN a) b h
    have st1 := text_flushP (NodeRef.stmtN a) b
    have em1 : EmitsN (fun nd => nd = NodeRef.stmtN a ∨ nd = NodeRef.childN a) b
        (flushP (NodeRef.stmtN a) b) :=
      emitsN_flushP _ (NodeRef.stmtN a) b (Or.inl rfl)
    generalize hB1 : flushP (NodeRef.stmtN a) b = b1 at h1 st1 em1 ⊢
    have hl1 : b1.arena.length = b.arena.length := by rw [← hB1, arena_flushP]
    have hb1n : ∀ e ∈ b1.trace, underN (a ++ [0]) (nodeOf e) = false :=
      underTrace_shallow a 0 b b1 (underTrace_down a 0 b hfr) em1
    have h2 : TInv (emit (Event.pathStart b1.pathCount (NodeRef.stmtN a)) b1) :=
      tinv_addEvent (Event.pathStart b1.pathCount (NodeRef.stmtN a)) b1 h1
        (fun s hs => absurd hs (List.not_mem_nil s))
    have st2 := TExt.glue st1
      (text_emit (Event.pathStart b1.pathCount (NodeRef.stmtN a)) b1)
    have htr2 : (emit (Event.pathStart b1.pathCount (NodeRef.stmtN a)) b1).trace =
        b1.trace ++ [Event.pathStart b1.pathCount (NodeRef.stmtN a)] := rfl
    have hpc2 : (emit (Event.pathStart b1.pathCount (NodeRef.stmtN a)) b1).pathCount =
        b1.pathCount := rfl
    have ha2 : (emit (Event.pathStart b1.pathCount (NodeRef.stmtN a)) b1).arena =
        b1.arena := rfl
    generalize hB2 : emit (Event.pathStart b1.pathCount (NodeRef.stmtN a)) b1 = b2
      at h2 st2 htr2 hpc2 ha2 ⊢
    have hl2 : b2.arena.length = b1.arena.length := by rw [ha2]
    obtain ⟨bI, hBI⟩ : ∃ bI : Build, ({
        arena := pushSeg b2.arena true [],
        trace := b2.trace ++ [Event.segStart b2.arena.length (NodeRef.stmtN a)],
        done := b2.done, pathCount := b2.pathCount + 1,
        pid := b2.pathCount, upperId := some b1.pid, pnode := NodeRef.stmtN a,
        initialSeg := b2.arena.length, cur := b2.arena.length, pending := false,
        returned := [], thrown := [], owned := [b2.arena.length], children := [],
        broken := [] } : Build) = bI := ⟨_, rfl⟩
    rw [hBI]
    have haI : bI.arena = pushSeg b2.arena true [] := by rw [← hBI]
    have htI : bI.trace = b2.trace ++ [Event.segStart b2.arena.length (NodeRef.stmtN a)] := by
      rw [← hBI]
    have hdI : bI.done = b2.done := by rw [← hBI]
    have hpI : bI.pid = b2.pathCount := by rw [← hBI]
    have hiI : bI.initialSeg = b2.arena.length := by rw [← hBI]
    have hcI : bI.cur = b2.arena.length := by rw [← hBI]
    have hoI : bI.owned = [b2.arena.length] := by rw [← hBI]
    have hpnI : bI.pnode = NodeRef.stmtN a := by rw [← hBI]
    have hlI : bI.arena.length = b2.arena.length + 1 := by rw [haI, length_pushSeg]
    have hbIn : ∀ e ∈ bI.trace, underN (a ++ [0]) (nodeOf e) = false := by
      intro e he
      rw [htI] at he
      rcases List.mem_append.1 he with he | he
      · rw [htr2] at he
        rcases List.mem_append.1 he with he | he
        · exact hb1n e he
        · rw [List.mem_singleton] at he
          subst he
          exact underN_snoc_stmt a 0
      · rw [List.mem_singleton] at he
        subst he
        exact underN_snoc_stmt a 0
    have hinv : TInv bI := by
      refine ⟨?_, ?_, ?_, ?_, ?_, ?_, ?_⟩
      · rw [hcI, hlI]
        omega
      · rw [hiI, hlI]
        omega
      · intro s hs hne
        rw [hoI, List.mem_singleton] at hs
        rw [hcI] at hne
        exact absurd hs hne
      · intro s hs
        rw [hoI, List.mem_singleton] at hs
        rw [hiI]
        omega
      · intro e he s hs
        rw [htI] at he
        rw [hlI]
        rcases List.mem_append.1 he with he2 | he2
        · have := h2.2.2.2.2.1 e he2 s hs
          omega
        · rw [List.mem_singleton] at he2
          subst he2
          simp only [refs, List.mem_singleton] at hs
          omega
      · refine ⟨b1.trace, [], NodeRef.stmtN a, ?_, ?_, ?_⟩
        · rw [htI, hpI, hiI, htr2, hpc2]
          simp
        · intro e he s hs
          rw [hiI]
          have := h1.2.2.2.2.1 e he s hs
          omega
        · intro e he
          rw [hpnI]
          exact hb1n e he
      · intro r hr
        rw [hdI] at hr
        obtain ⟨⟨pre, post, n0, heq, hpre, hown⟩, pre2, post2, n2, heq2, hend⟩ :=
          h2.2.2.2.2.2.2 r hr
        refine ⟨⟨pre, post ++ [Event.segStart b2.arena.length (NodeRef.stmtN a)], n0,
          ?_, hpre, hown⟩,
          pre2, post2 ++ [Event.segStart b2.arena.length (NodeRef.stmtN a)], n2,
          ?_, hend⟩
        · rw [htI, heq]
          simp
        · rw [htI, heq2]
          simp
    obtain ⟨hX, stX⟩ := ih (a ++ [0]) none bI hinv (fun dv hdv => nomatch hdv) hbIn
    generalize hB3 : processStmt (a ++ [0]) none body bI = bX at hX stX ⊢
    have hF := tinv_finalizePath bX hX
    have stF := text_finalizePath bX
    generalize hB4 : finalizePath bX = bf at hF stF ⊢
    have hcomp : TExt bI bf := stX.glue stF
    obtain ⟨EXT, hEXT⟩ := hcomp.2
    have hmono : bI.arena.length ≤ bf.arena.length := hcomp.1
    have htrf : bf.trace = b1.trace ++
        ([Event.pathStart b1.pathCount (NodeRef.stmtN a)] ++
          ([Event.segStart b2.arena.length (NodeRef.stmtN a)] ++ EXT)) := by
      rw [hEXT, htI, htr2]
      simp
    constructor
    · refine ⟨?_, ?_, ?_, ?_, ?_, ?_, ?_⟩
      · show b1.cur < bf.arena.length
        have := h1.1
        omega
      · show b1.initialSeg < bf.arena.length
        have := h1.2.1
        omega
      · intro s hs hne
        have hs' : s ∈ b1.owned := hs
        have hne' : s ≠ b1.cur := hne
        show ended s bf.trace = true
        rw [htrf]
        exact ended_append _ _ _ (h1.2.2.1 s hs' hne')
      · intro s hs
        have hs' : s ∈ b1.owned := hs
        show b1.initialSeg ≤ s
        exact h1.2.2.2.1 s hs'
      · exact hF.2.2.2.2.1
      · obtain ⟨pre, post, n0, heq, hpre⟩ := h1.2.2.2.2.2.1
        refine ⟨pre, post ++ ([Event.pathStart b1.pathCount (NodeRef.stmtN a)] ++
          ([Event.segStart b2.arena.length (NodeRef.stmtN a)] ++ EXT)), n0, ?_, hpre⟩
        show bf.trace = pre ++ Event.pathStart b1.pid n0 ::
          Event.segStart b1.initialSeg n0 ::
          (post ++ ([Event.pathStart b1.pathCount (NodeRef.stmtN a)] ++
            ([Event.segStart b2.arena.length (NodeRef.stmtN a)] ++ EXT)))
        rw [htrf, heq]
        simp
      · exact hF.2.2.2.2.2.2
    · obtain ⟨ext1, hext1⟩ := st1.2
      refine ⟨?_, ⟨ext1 ++ ([Event.pathStart b1.pathCount (NodeRef.stmtN a)] ++
        ([Event.segStart b2.arena.length (NodeRef.stmtN a)] ++ EXT)), ?_⟩⟩
      · show b.arena.length ≤ bf.arena.length
        omega
      · show bf.trace = b.trace ++ (ext1 ++ ([Event.pathStart b1.pathCount
          (NodeRef.stmtN a)] ++ ([Event.segStart b2.arena.length (NodeRef.stmtN a)]
          ++ EXT)))
        rw [htrf, hext1]
        simp
  | whileS body ih =>
    intro a d b h hd hfr
    simp only [processStmt]
    have h1 := tinv_flushP (NodeRef.stmtN a) b h
    have st1 := text_flushP (NodeRef.stmtN a) b
    have em1 : EmitsN (fun nd => nd = NodeRef.stmtN a ∨ nd = NodeRef.childN a) b
        (flushP (NodeRef.stmtN a) b) :=
      emitsN_flushP _ (NodeRef.stmtN a) b (Or.inl rfl)
    generalize hB1 : flushP (NodeRef.stmtN a) b = b1 at h1 st1 em1 ⊢
    have h2 := tinv_newCur (reachOf b1.arena b1.cur) [b1.cur] (NodeRef.stmtN a) b1 h1
    have st2 := TExt.glue st1 (text_newCur (reachOf b1.arena b1.cur) [b1.cur]
      (NodeRef.stmtN a) b1)
    have em2 := EmitsN.cat em1 (emitsN_newCur _ (reachOf b1.arena b1.cur) [b1.cur]
      (NodeRef.stmtN a) b1 (Or.inl rfl))
    generalize hB2 : newCur (reachOf b1.arena b1.cur) [b1.cur] (NodeRef.stmtN a) b1 = b2
      at h2 st2 em2 ⊢
    have hc2 : b2.cur = b1.arena.length := by rw [← hB2, cur_newCur]
    have hl2 : b2.arena.length = b1.arena.length + 1 := by
      rw [← hB2, arena_newCur, length_pushSeg]
    have h3 := tinv_newCur (reachOf b1.arena b1.cur) [b2.cur] (NodeRef.childN a) b2 h2
    have st3 := TExt.glue st2 (text_newCur (reachOf b1.arena b1.cur) [b2.cur]
      (NodeRef.childN a) b2)
    have em3 := EmitsN.cat em2 (emitsN_newCur _ (reachOf b1.arena b1.cur) [b2.cur]
      (NodeRef.childN a) b2 (Or.inr rfl))
    generalize hB3 : newCur (reachOf b1.arena b1.cur) [b2.cur] (NodeRef.childN a) b2 = b3
      at h3 st3 em3 ⊢
    have hl3 : b3.arena.length = b2.arena.length + 1 := by
      rw [← hB3, arena_newCur, length_pushSeg]
    have emE := EmitsN.cat em3 (emitsN_of_eqs _ b3 { b3 with broken := [] } rfl)
    obtain ⟨hB5, st5⟩ := ih (a ++ [0]) (some b2.cur) { b3 with broken := [] } h3
      (fun dv hdv => by
        injection hdv with hdv
        subst hdv
        show b2.cur < b3.arena.length
        omega)
      (underTrace_shallow a 0 b { b3 with broken := [] } (underTrace_down a 0 b hfr) emE)
    refine ⟨(c7_loopTail { b3 with broken := [] } b2.cur (some b2.cur) (a ++ [0]) body
      (NodeRef.stmtN a) _ _ b1.broken (by show b2.cur < b3.arena.length; omega)
      hB5 st5).1,
      TExt.glue (TExt.glue st3 (text_of_eqs b3 { b3 with broken := [] } rfl rfl))
        (c7_loopTail { b3 with broken := [] } b2.cur (some b2.cur) (a ++ [0]) body
          (NodeRef.stmtN a) _ _ b1.broken (by show b2.cur < b3.arena.length; omega)
          hB5 st5).2⟩
  | forS hTest hUpd body ih =>
    intro a d b h hd hfr
    cases hTest <;> cases hUpd
    · simp only [processStmt, Bool.false_eq_true, eq_self_iff_true, if_false, if_true,
        Bool.false_and]
      have h1 := tinv_flushP (NodeRef.stmtN a) b h
      have st1 := text_flushP (NodeRef.stmtN a) b
      have em1 : EmitsN (fun nd => nd = NodeRef.stmtN a ∨ nd = NodeRef.childN a) b
          (flushP (NodeRef.stmtN a) b) :=
        emitsN_flushP _ (NodeRef.stmtN a) b (Or.inl rfl)
      generalize hB1 : flushP (NodeRef.stmtN a) b = b1 at h1 st1 em1 ⊢
      have h2 := tinv_newCur (reachOf b1.arena b1.cur) [b1.cur] (NodeRef.childN a) b1 h1
      have st2 := TExt.glue st1 (text_newCur (reachOf b1.arena b1.cur) [b1.cur]
        (NodeRef.childN a) b1)
      have em2 := EmitsN.cat em1 (emitsN_newCur _ (reachOf b1.arena b1.cur) [b1.cur]
        (NodeRef.childN a) b1 (Or.inr rfl))
      generalize hB2 : newCur (reachOf b1.arena b1.cur) [b1.cur] (NodeRef.childN a) b1 = b2
        at h2 st2 em2 ⊢
      have hc2 : b2.cur = b1.arena.length := by rw [← hB2, cur_newCur]
      have hl2 : b2.arena.length = b1.arena.length + 1 := by
        rw [← hB2, arena_newCur, length_pushSeg]
      have emE := EmitsN.cat em2 (emitsN_of_eqs _ b2 { b2 with broken := [] } rfl)
      obtain ⟨hB5, st5⟩ := ih (a ++ [0]) (some b2.cur) { b2 with broken := [] } h2
        (fun dv hdv => by
          injection hdv with hdv
          subst hdv
          show b2.cur < b2.arena.length
          omega)
        (underTrace_shallow a 0 b { b2 with broken := [] } (underTrace_down a 0 b hfr)
          emE)
      refine ⟨(c7_loopTail { b2 with broken := [] } b2.cur (some b2.cur) (a ++ [0]) body
        (NodeRef.stmtN a) _ _ b1.broken (by show b2.cur < b2.arena.length; omega)
        hB5 st5).1,
        TExt.glue (TExt.glue st2 (text_of_eqs b2 { b2 with broken := [] } rfl rfl))
          (c7_loopTail { b2 with broken := [] } b2.cur (some b2.cur) (a ++ [0]) body
            (NodeRef.stmtN a) _ _ b1.broken (by show b2.cur < b2.arena.length; omega)
            hB5 st5).2⟩
    · simp only [processStmt, Bool.false_eq_true, eq_self_iff_true, if_false, if_true,
        Bool.false_and]
      have h1 := tinv_flushP (NodeRef.stmtN a) b h
      have st1 := text_flushP (NodeRef.stmtN a) b
      have em1 : EmitsN (fun nd => nd = NodeRef.stmtN a ∨ nd = NodeRef.childN a) b
          (flushP (NodeRef.stmtN a) b) :=
        emitsN_flushP _ (NodeRef.stmtN a) b (Or.inl rfl)
      generalize hB1 : flushP (NodeRef.stmtN a) b = b1 at h1 st1 em1 ⊢
      have h2 := tinv_newCur (reachOf b1.arena b1.cur) [] (NodeRef.childN a) b1 h1
      have st2 := TExt.glue st1 (text_newCur (reachOf b1.arena b1.cur) []
        (NodeRef.childN a) b1)
      have em2 := EmitsN.cat em1 (emitsN_newCur _ (reachOf b1.arena b1.cur) []
        (NodeRef.childN a) b1 (Or.inr rfl))
      generalize hB2 : newCur (reachOf b1.arena b1.cur) [] (NodeRef.childN a) b1 = b2
        at h2 st2 em2 ⊢
      have hc2 : b2.cur = b1.arena.length := by rw [← hB2, cur_newCur]
      have hl2 : b2.arena.length = b1.arena.length + 1 := by
        rw [← hB2, arena_newCur, length_pushSeg]
      have h3 := tinv_newCur (reachOf b1.arena b1.cur) [b1.cur] (NodeRef.childN a) b2 h2
      have st3 := TExt.glue st2 (text_newCur (reachOf b1.arena b1.cur) [b1.cur]
        (NodeRef.childN a) b2)
      have em3 := EmitsN.cat em2 (emitsN_newCur _ (reachOf b1.arena b1.cur) [b1.cur]
        (NodeRef.childN a) b2 (Or.inr rfl))
      generalize hB3 : newCur (reachOf b1.arena b1.cur) [b1.cur] (NodeRef.childN a) b2 = b3
        at h3 st3 em3 ⊢
      have hc3 : b3.cur = b2.arena.length := by rw [← hB3, cur_newCur]
      have hl3 : b3.arena.length = b2.arena.length + 1 := by
        rw [← hB3, arena_newCur, length_pushSeg]
      have h4 : TInv (connectLoop b2.cur b3.cur (NodeRef.childN a) b3) := by
        refine tinv_connectLoop b2.cur b3.cur (NodeRef.childN a) b3 h3 ?_ h3.1
        omega
      have st4 := TExt.glue st3 (text_connectLoop b2.cur b3.cur (NodeRef.childN a) b3)
      have em4 := EmitsN.cat em3
        (emitsN_connectLoop _ b2.cur b3.cur (NodeRef.childN a) b3 (Or.inr rfl))
      generalize hB4 : connectLoop b2.cur b3.cur (NodeRef.childN a) b3 = b4
        at h4 st4 em4 ⊢
      have hl4 : b4.arena.length = b3.arena.length := by
        rw [← hB4, arena_connectLoop, length_addLoopArena]
      have emE := EmitsN.cat em4 (emitsN_of_eqs _ b4 { b4 with broken := [] } rfl)
      obtain ⟨hB5, st5⟩ := ih (a ++ [0]) (some b2.cur) { b4 with broken := [] } h4
        (fun dv hdv => by
          injection hdv with hdv
          subst hdv
          show b2.cur < b4.arena.length
          omega)
        (underTrace_shallow a 0 b { b4 with broken := [] } (underTrace_down a 0 b hfr)
          emE)
      refine ⟨(c7_loopTail { b4 with broken := [] } b2.cur (some b2.cur) (a ++ [0]) body
        (NodeRef.stmtN a) _ _ b1.broken (by show b2.cur < b4.arena.length; omega)
        hB5 st5).1,
        TExt.glue (TExt.glue st4 (text_of_eqs b4 { b4 with broken := [] } rfl rfl))
          (c7_loopTail { b4 with broken := [] } b2.cur (some b2.cur) (a ++ [0]) body
            (NodeRef.stmtN a) _ _ b1.broken (by show b2.cur < b4.arena.length; omega)
            hB5 st5).2⟩
    · simp only [processStmt, Bool.false_eq_true, eq_self_iff_true, if_false, if_true,
        Bool.true_and]
      have h1 := tinv_flushP (NodeRef.stmtN a) b h
      have st1 := text_flushP (NodeRef.stmtN a) b
      have em1 : EmitsN (fun nd => nd = NodeRef.stmtN a ∨ nd = NodeRef.childN a) b
          (flushP (NodeRef.stmtN a) b) :=
        emitsN_flushP _ (NodeRef.stmtN a) b (Or.inl rfl)
      generalize hB1 : flushP (NodeRef.stmtN a) b = b1 at h1 st1 em1 ⊢
      have h2 := tinv_newCur (reachOf b1.arena b1.cur) [b1.cur] (NodeRef.childN a) b1 h1
      have st2 := TExt.glue st1 (text_newCur (reachOf b1.arena b1.cur) [b1.cur]
        (NodeRef.childN a) b1)
      have em2 := EmitsN.cat em1 (emitsN_newCur _ (reachOf b1.arena b1.cur) [b1.cur]
        (NodeRef.childN a) b1 (Or.inr rfl))
      generalize hB2 : newCur (reachOf b1.arena b1.cur) [b1.cur] (NodeRef.childN a) b1 = b2
        at h2 st2 em2 ⊢
      have hc2 : b2.cur = b1.arena.length := by rw [← hB2, cur_newCur]
      have hl2 : b2.arena.length = b1.arena.length + 1 := by
        rw [← hB2, arena_newCur, length_pushSeg]
      have h3 := tinv_newCur (reachOf b1.arena b1.cur) [b2.cur] (NodeRef.childN a) b2 h2
      have st3 := TExt.glue st2 (text_newCur (reachOf b1.arena b1.cur) [b2.cur]
        (NodeRef.childN a) b2)
      have em3 := EmitsN.cat em2 (emitsN_newCur _ (reachOf b1.arena b1.cur) [b2.cur]
        (NodeRef.childN a) b2 (Or.inr rfl))
      generalize hB3 : newCur (reachOf b1.arena b1.cur) [b2.cur] (NodeRef.childN a) b2 = b3
        at h3 st3 em3 ⊢
      have hc3 : b3.cur = b2.arena.length := by rw [← hB3, cur_newCur]
      have hl3 : b3.arena.length = b2.arena.length + 1 := by
        rw [← hB3, arena_newCur, length_pushSeg]
      have emE := EmitsN.cat em3 (emitsN_of_eqs _ b3 { b3 with broken := [] } rfl)
      obtain ⟨hB5, st5⟩ := ih (a ++ [0]) (some b2.cur) { b3 with broken := [] } h3
        (fun dv hdv => by
          injection hdv with hdv
          subst hdv
          show b2.cur < b3.arena.length
          omega)
        (underTrace_shallow a 0 b { b3 with broken := [] } (underTrace_down a 0 b hfr)
          emE)
      refine ⟨(c7_loopTail { b3 with broken := [] } b2.cur (some b2.cur) (a ++ [0]) body
        (NodeRef.stmtN a) _ _ b1.broken (by show b2.cur < b3.arena.length; omega)
        hB5 st5).1,
        TExt.glue (TExt.glue st3 (text_of_eqs b3 { b3 with broken := [] } rfl rfl))
          (c7_loopTail { b3 with broken := [] } b2.cur (some b2.cur) (a ++ [0]) body
            (NodeRef.stmtN a) _ _ b1.broken (by show b2.cur < b3.arena.length; omega)
            hB5 st5).2⟩
    · simp only [processStmt, Bool.false_eq_true, eq_self_iff_true, if_false, if_true,
        Bool.true_and]
      have h1 := tinv_flushP (NodeRef.stmtN a) b h
      have st1 := text_flushP (NodeRef.stmtN a) b
      have em1 : EmitsN (fun nd => nd = NodeRef.stmtN a ∨ nd = NodeRef.childN a) b
          (flushP (NodeRef.stmtN a) b) :=
        emitsN_flushP _ (NodeRef.stmtN a) b (Or.inl rfl)
      generalize hB1 : flushP (NodeRef.stmtN a) b = b1 at h1 st1 em1 ⊢
      have h2 := tinv_newCur (reachOf b1.arena b1.cur) [b1.cur] (NodeRef.childN a) b1 h1
      have st2 := TExt.glue st1 (text_newCur (reachOf b1.arena b1.cur) [b1.cur]
        (NodeRef.childN a) b1)
      have em2 := EmitsN.cat em1 (emitsN_newCur _ (reachOf b1.arena b1.cur) [b1.cur]
        (NodeRef.childN a) b1 (Or.inr rfl))
      generalize hB2 : newCur (reachOf b1.arena b1.cur) [b1.cur] (NodeRef.childN a) b1 = b2
        at h2 st2 em2 ⊢
      have hc2 : b2.cur = b1.arena.length := by rw [← hB2, cur_newCur]
      have hl2 : b2.arena.length = b1.arena.length + 1 := by
        rw [← hB2, arena_newCur, length_pushSeg]
      have h3 := tinv_newCur (reachOf b1.arena b1.cur) [] (NodeRef.childN a) b2 h2
      have st3 := TExt.glue st2 (text_newCur (reachOf b1.arena b1.cur) []
        (NodeRef.childN a) b2)
      have em3 := EmitsN.cat em2 (emitsN_newCur _ (reachOf b1.arena b1.cur) []
        (NodeRef.childN a) b2 (Or.inr rfl))
      generalize hB3 : newCur (reachOf b1.arena b1.cur) [] (NodeRef.childN a) b2 = b3
        at h3 st3 em3 ⊢
      have hc3 : b3.cur = b2.arena.length := by rw [← hB3, cur_newCur]
      have hl3 : b3.arena.length = b2.arena.length + 1 := by
        rw [← hB3, arena_newCur, length_pushSeg]
      have h4 := tinv_newCur (reachOf b1.arena b1.cur) [b2.cur] (NodeRef.childN a) b3 h3
      have st4 := TExt.glue st3 (text_newCur (reachOf b1.arena b1.cur) [b2.cur]
        (NodeRef.childN a) b3)
      have em4 := EmitsN.cat em3 (emitsN_newCur _ (reachOf b1.arena b1.cur) [b2.cur]
        (NodeRef.childN a) b3 (Or.inr rfl))
      generalize hB4 : newCur (reachOf b1.arena b1.cur) [b2.cur] (NodeRef.childN a) b3 = b4
        at h4 st4 em4 ⊢
      have hc4 : b4.cur = b3.arena.length := by rw [← hB4, cur_newCur]
      have hl4 : b4.arena.length = b3.arena.length + 1 := by
        rw [← hB4, arena_newCur, length_pushSeg]
      have h5 : TInv (connectLoop b3.cur b2.cur (NodeRef.childN a) b4) := by
        refine tinv_connectLoop b3.cur b2.cur (NodeRef.childN a) b4 h4 ?_ ?_
        · omega
        · omega
      have st5 := TExt.glue st4 (text_connectLoop b3.cur b2.cur (NodeRef.childN a) b4)
      have em5 := EmitsN.cat em4
        (emitsN_connectLoop _ b3.cur b2.cur (NodeRef.childN a) b4 (Or.inr rfl))
      generalize hB5 : connectLoop b3.cur b2.cur (NodeRef.childN a) b4 = b5
        at h5 st5 em5 ⊢
      have hl5 : b5.arena.length = b4.arena.length := by
        rw [← hB5, arena_connectLoop, length_addLoopArena]
      have emE := EmitsN.cat em5 (emitsN_of_eqs _ b5 { b5 with broken := [] } rfl)
      obtain ⟨hB6, st6⟩ := ih (a ++ [0]) (some b3.cur) { b5 with broken := [] } h5
        (fun dv hdv => by
          injection hdv with hdv
          subst hdv
          show b3.cur < b5.arena.length
          omega)
        (underTrace_shallow a 0 b { b5 with broken := [] } (underTrace_down a 0 b hfr)
          emE)
      refine ⟨(c7_loopTail { b5 with broken := [] } b3.cur (some b3.cur) (a ++ [0]) body
        (NodeRef.stmtN a) _ _ b1.broken (by show b3.cur < b5.arena.length; omega)
        hB6 st6).1,
        TExt.glue (TExt.glue st5 (text_of_eqs b5 { b5 with broken := [] } rfl rfl))
          (c7_loopTail { b5 with broken := [] } b3.cur (some b3.cur) (a ++ [0]) body
            (NodeRef.stmtN a) _ _ b1.broken (by show b3.cur < b5.arena.length; omega)
            hB6 st6).2⟩
  | forIn body ih =>
    intro a d b h hd hfr
    simp only [processStmt]
    have h1 := tinv_flushP (NodeRef.stmtN a) b h
    have st1 := text_flushP (NodeRef.stmtN a) b
    have em1 : EmitsN (fun nd => nd = NodeRef.stmtN a ∨ nd = NodeRef.childN a) b
        (flushP (NodeRef.stmtN a) b) :=
      emitsN_flushP _ (NodeRef.stmtN a) b (Or.inl rfl)
    generalize hB1 : flushP (NodeRef.stmtN a) b = b1 at h1 st1 em1 ⊢
    have h2 := tinv_newCur (reachOf b1.arena b1.cur) [] (NodeRef.childN a) b1 h1
    have st2 := TExt.glue st1 (text_newCur (reachOf b1.arena b1.cur) []
      (NodeRef.childN a) b1)
    have em2 := EmitsN.cat em1 (emitsN_newCur _ (reachOf b1.arena b1.cur) []
      (NodeRef.childN a) b1 (Or.inr rfl))
    generalize hB2 : newCur (reachOf b1.arena b1.cur) [] (NodeRef.childN a) b1 = b2
      at h2 st2 em2 ⊢
    have hc2 : b2.cur = b1.arena.length := by rw [← hB2, cur_newCur]
    have hl2 : b2.arena.length = b1.arena.length + 1 := by
      rw [← hB2, arena_newCur, length_pushSeg]
    have h3 := tinv_newCur (reachOf b1.arena b1.cur) [b1.cur] (NodeRef.childN a) b2 h2
    have st3 := TExt.glue st2 (text_newCur (reachOf b1.arena b1.cur) [b1.cur]
      (NodeRef.childN a) b2)
    have em3 := EmitsN.cat em2 (emitsN_newCur _ (reachOf b1.arena b1.cur) [b1.cur]
      (NodeRef.childN a) b2 (Or.inr rfl))
    generalize hB3 : newCur (reachOf b1.arena b1.cur) [b1.cur] (NodeRef.childN a) b2 = b3
      at h3 st3 em3 ⊢
    have hc3 : b3.cur = b2.arena.length := by rw [← hB3, cur_newCur]
    have hl3 : b3.arena.length = b2.arena.length + 1 := by
      rw [← hB3, arena_newCur, length_pushSeg]
    have hcn : TInv (connectLoop b3.cur b2.cur (NodeRef.childN a) b3) := by
      refine tinv_connectLoop b3.cur b2.cur (NodeRef.childN a) b3 h3 h3.1 ?_
      omega
    have h4 := tinv_newCur (reachOf b1.arena b1.cur) [b2.cur] (NodeRef.childN a)
      (connectLoop b3.cur b2.cur (NodeRef.childN a) b3) hcn
    have st4 := TExt.glue st3 (TExt.glue
      (text_connectLoop b3.cur b2.cur (NodeRef.childN a) b3)
      (text_newCur (reachOf b1.arena b1.cur) [b2.cur] (NodeRef.childN a)
        (connectLoop b3.cur b2.cur (NodeRef.childN a) b3)))
    have em4 := EmitsN.cat em3 (EmitsN.cat
      (emitsN_connectLoop _ b3.cur b2.cur (NodeRef.childN a) b3 (Or.inr rfl))
      (emitsN_newCur _ (reachOf b1.arena b1.cur) [b2.cur] (NodeRef.childN a)
        (connectLoop b3.cur b2.cur (NodeRef.childN a) b3) (Or.inr rfl)))
    generalize hB4 : newCur (reachOf b1.arena b1.cur) [b2.cur] (NodeRef.childN a)
      (connectLoop b3.cur b2.cur (NodeRef.childN a) b3) = b4 at h4 st4 em4 ⊢
    have hl4 : b4.arena.length = b3.arena.length + 1 := by
      rw [← hB4, arena_newCur, length_pushSeg, arena_connectLoop, length_addLoopArena]
    have emE := EmitsN.cat em4 (emitsN_of_eqs _ b4 { b4 with broken := [] } rfl)
    obtain ⟨hB5, st5⟩ := ih (a ++ [0]) (some b2.cur) { b4 with broken := [] } h4
      (fun dv hdv => by
        injection hdv with hdv
        subst hdv
        show b2.cur < b4.arena.length
        omega)
      (underTrace_shallow a 0 b { b4 with broken := [] } (underTrace_down a 0 b hfr) emE)
    refine ⟨(c7_loopTail { b4 with broken := [] } b2.cur (some b2.cur) (a ++ [0]) body
      (NodeRef.stmtN a) _ _ b1.broken (by show b2.cur < b4.arena.length; omega)
      hB5 st5).1,
      TExt.glue (TExt.glue st4 (text_of_eqs b4 { b4 with broken := [] } rfl rfl))
        (c7_loopTail { b4 with broken := [] } b2.cur (some b2.cur) (a ++ [0]) body
          (NodeRef.stmtN a) _ _ b1.broken (by show b2.cur < b4.arena.length; omega)
          hB5 st5).2⟩
  | forOf body ih =>
    intro a d b h hd hfr
    simp only [processStmt]
    have h1 := tinv_flushP (NodeRef.stmtN a) b h
    have st1 := text_flushP (NodeRef.stmtN a) b
    have em1 : EmitsN (fun nd => nd = NodeRef.stmtN a ∨ nd = NodeRef.childN a) b
        (flushP (NodeRef.stmtN a) b) :=
      emitsN_flushP _ (NodeRef.stmtN a) b (Or.inl rfl)
    generalize hB1 : flushP (NodeRef.stmtN a) b = b1 at h1 st1 em1 ⊢
    have h2 := tinv_newCur (reachOf b1.arena b1.cur) [] (NodeRef.childN a) b1 h1
    have st2 := TExt.glue st1 (text_newCur (reachOf b1.arena b1.cur) []
      (NodeRef.childN a) b1)
    have em2 := EmitsN.cat em1 (emitsN_newCur _ (reachOf b1.arena b1.cur) []
      (NodeRef.childN a) b1 (Or.inr rfl))
    generalize hB2 : newCur (reachOf b1.arena b1.cur) [] (NodeRef.childN a) b1 = b2
      at h2 st2 em2 ⊢
    have hc2 : b2.cur = b1.arena.length := by rw [← hB2, cur_newCur]
    have hl2 : b2.arena.length = b1.arena.length + 1 := by
      rw [← hB2, arena_newCur, length_pushSeg]
    have h3 := tinv_newCur (reachOf b1.arena b1.cur) [b1.cur] (NodeRef.childN a) b2 h2
    have st3 := TExt.glue st2 (text_newCur (reachOf b1.arena b1.cur) [b1.cur]
      (NodeRef.childN a) b2)
    have em3 := EmitsN.cat em2 (emitsN_newCur _ (reachOf b1.arena b1.cur) [b1.cur]
      (NodeRef.childN a) b2 (Or.inr rfl))
    generalize hB3 : newCur (reachOf b1.arena b1.cur) [b1.cur] (NodeRef.childN a) b2 = b3
      at h3 st3 em3 ⊢
    have hc3 : b3.cur = b2.arena.length := by rw [← hB3, cur_newCur]
    have hl3 : b3.arena.length = b2.arena.length + 1 := by
      rw [← hB3, arena_newCur, length_pushSeg]
    have hcn : TInv (connectLoop b3.cur b2.cur (NodeRef.childN a) b3) := by
      refine tinv_connectLoop b3.cur b2.cur (NodeRef.childN a) b3 h3 h3.1 ?_
      omega
    have h4 := tinv_newCur (reachOf b1.arena b1.cur) [b2.cur] (NodeRef.childN a)
      (connectLoop b3.cur b2.cur (NodeRef.childN a) b3) hcn
    have st4 := TExt.glue st3 (TExt.glue
      (text_connectLoop b3.cur b2.cur (NodeRef.childN a) b3)
      (text_newCur (reachOf b1.arena b1.cur) [b2.cur] (NodeRef.childN a)
        (connectLoop b3.cur b2.cur (NodeRef.childN a) b3)))
    have em4 := EmitsN.cat em3 (EmitsN.cat
      (emitsN_connectLoop _ b3.cur b2.cur (NodeRef.childN a) b3 (Or.inr rfl))
      (emitsN_newCur _ (reachOf b1.arena b1.cur) [b2.cur] (NodeRef.childN a)
        (connectLoop b3.cur b2.cur (NodeRef.childN a) b3) (Or.inr rfl)))
    generalize hB4 : newCur (reachOf b1.arena b1.cur) [b2.cur] (NodeRef.childN a)
      (connectLoop b3.cur b2.cur (NodeRef.childN a) b3) = b4 at h4 st4 em4 ⊢
    have hl4 : b4.arena.length = b3.arena.length + 1 := by
      rw [← hB4, arena_newCur, length_pushSeg, arena_connectLoop, length_addLoopArena]
    have emE := EmitsN.cat em4 (emitsN_of_eqs _ b4 { b4 with broken := [] } rfl)
    obtain ⟨hB5, st5⟩ := ih (a ++ [0]) (some b2.cur) { b4 with broken := [] } h4
      (fun dv hdv => by
        injection hdv with hdv
        subst hdv
        show b2.cur < b4.arena.length
        omega)
      (underTrace_shallow a 0 b { b4 with broken := [] } (underTrace_down a 0 b hfr) emE)
    refine ⟨(c7_loopTail { b4 with broken := [] } b2.cur (some b2.cur) (a ++ [0]) body
      (NodeRef.stmtN a) _ _ b1.broken (by show b2.cur < b4.arena.length; omega)
      hB5 st5).1,
      TExt.glue (TExt.glue st4 (text_of_eqs b4 { b4 with broken := [] } rfl rfl))
        (c7_loopTail { b4 with broken := [] } b2.cur (some b2.cur) (a ++ [0]) body
          (NodeRef.stmtN a) _ _ b1.broken (by show b2.cur < b4.arena.length; omega)
          hB5 st5).2⟩

/-- The event-ordering invariant holds at the start of an analysis run. -/
theorem tinv_startBuild : TInv startBuild := by
  refine ⟨by decide, by decide, by decide, by decide, by decide,
    ⟨[], [], NodeRef.program, rfl, ?_, ?_⟩, ?_⟩
  · intro e he
    exact absurd he (List.not_mem_nil e)
  · intro e he
    exact absurd he (List.not_mem_nil e)
  · intro r hr
    exact absurd hr (List.not_mem_nil r)

/-- C7: for every Path of an analysis run, the path-start event and the
initial segment's segment-start event are emitted adjacently, before any
event for a node inside that function's or program's body (no earlier
event is located at a node of the body subtree, and none refers to any
segment of that path), and the path-end event is emitted only after every
segment of the path, its unreachable segments included, has received its
end event. -/
theorem c7_path_events_bracket_segments (t : Stmt) (r : PathRec)
    (hr : r ∈ (analyze t).done) :
    (∃ pre post nd, (analyze t).trace = pre ++ Event.pathStart r.id nd ::
        Event.segStart r.initialSegment nd :: post ∧
      ∀ e ∈ pre, (∀ s ∈ refs e, s ∉ r.ownedSegments) ∧
        underN (bodyAddr r.node) (nodeOf e) = false) ∧
    ∃ pre post nd, (analyze t).trace = pre ++ Event.pathEnd r.id nd :: post ∧
      ∀ s ∈ r.ownedSegments, ended s pre = true := by
  obtain ⟨hX, -⟩ := tinv_processStmt t [] none startBuild tinv_startBuild
    (fun dv hdv => nomatch hdv) (by decide)
  have hF := tinv_finalizePath _ hX
  rw [analyze] at hr ⊢
  obtain ⟨⟨pre, post, n0, heq, hpre, hnode, hown⟩, hendshape⟩ := hF.2.2.2.2.2.2 r hr
  refine ⟨⟨pre, post, n0, heq, ?_⟩, hendshape⟩
  intro e he
  refine ⟨?_, hnode e he⟩
  intro s hs hmem
  have h1 := hpre e he s hs
  have h2 := hown s hmem
  omega

/-- Concrete instantiation of the C7 theorem on the function path of
"function foo() \x7b if (a) return 0; else throw 1; \x7d". -/
theorem c7_path_events_bracket_segments_witness :
    (analyze progIfRetThrow).done.getD 0 ⟨0, none, NodeRef.program, [], 0, [], [], [], []⟩
        ∈ (analyze progIfRetThrow).done ∧
    ((∃ pre post nd, (analyze progIfRetThrow).trace = pre ++
        Event.pathStart ((analyze progIfRetThrow).done.getD 0
          ⟨0, none, NodeRef.program, [], 0, [], [], [], []⟩).id nd ::
        Event.segStart ((analyze progIfRetThrow).done.getD 0
          ⟨0, none, NodeRef.program, [], 0, [], [], [], []⟩).initialSegment nd ::
          post ∧
      ∀ e ∈ pre, (∀ s ∈ refs e, s ∉ ((analyze progIfRetThrow).done.getD 0
          ⟨0, none, NodeRef.program, [], 0, [], [], [], []⟩).ownedSegments) ∧
        underN (bodyAddr ((analyze progIfRetThrow).done.getD 0
          ⟨0, none, NodeRef.program, [], 0, [], [], [], []⟩).node)
          (nodeOf e) = false) ∧
    ∃ pre post nd, (analyze progIfRetThrow).trace = pre ++
        Event.pathEnd ((analyze progIfRetThrow).done.getD 0
          ⟨0, none, NodeRef.program, [], 0, [], [], [], []⟩).id nd :: post ∧
      ∀ s ∈ ((analyze progIfRetThrow).done.getD 0
          ⟨0, none, NodeRef.program, [], 0, [], [], [], []⟩).ownedSegments,
        ended s pre = true) :=
  ⟨by decide, c7_path_events_bracket_segments progIfRetThrow _ (by decide)⟩

end CodePathAnalysis
